import Mathlib

/-!
# NachOS user address spaces (`userprog/addrspace.cc`)

A shallow embedding of the address-space code of the NachOS teaching kernel:
construction of an address space from a NOFF executable, eager and lazy
loading of pages, and the page-fault path.  C `int` values are integers,
`unsigned int` values are naturals reduced modulo `2^32` where the program
converts or wraps, arrays are lists, and an access outside an array is
reported as `Err.OutOfBounds` (undefined behaviour of the C++ program).
-/

namespace NachOS

/-! ## Machine integers -/

/-- Conversion of a C `int` to `unsigned int`. -/
def toUInt32 (x : Int) : Nat := (x % 4294967296).toNat

/-- Conversion of a C `unsigned int` to `int` (two's complement). -/
def toInt32 (n : Nat) : Int :=
  if n % 4294967296 < 2147483648 then ((n % 4294967296 : Nat) : Int)
  else ((n % 4294967296 : Nat) : Int) - 4294967296

/-! ## Build-time constants -/

/-- Constants and host primitives of `machine.h`, `noff.h` and `sysdep.h`.
These headers are not part of the sources at hand, so their values are
parameters of the development. `USE_TLB` is the preprocessor flag that selects
lazy loading; `WordToHost` is the byte-order conversion of a 32-bit word. -/
structure Config where
  PageSize : Nat
  NumPhysPages : Nat
  UserStackSize : Int
  TLBSize : Nat
  NOFFMAGIC : Int
  NumTotalRegs : Nat
  StackReg : Nat
  PCReg : Nat
  NextPCReg : Nat
  BadVAddrReg : Nat
  USE_TLB : Bool
  WordToHost : Nat → Nat

/-- Sanity of the constants: pages are not empty and the simulated memory
(`MemorySize = NumPhysPages * PageSize`) is addressable by an `int`. -/
def Config.Sane (cfg : Config) : Prop :=
  0 < cfg.PageSize ∧ cfg.NumPhysPages * cfg.PageSize < 2147483648

instance (cfg : Config) : Decidable cfg.Sane := by
  unfold Config.Sane; infer_instance

/-! ## Data model -/

/-- One segment descriptor of a NOFF header. -/
structure Segment where
  virtualAddr : Int
  inFileAddr : Int
  size : Int
deriving DecidableEq, Repr

/-- The NOFF header: a magic word and three segment descriptors. -/
structure NoffHeader where
  noffMagic : Int
  code : Segment
  initData : Segment
  uninitData : Segment
deriving DecidableEq, Repr

/-- A translation entry of the page table or of the TLB. -/
structure TranslationEntry where
  virtualPage : Int
  physicalPage : Int
  valid : Bool
  readOnly : Bool
  use : Bool
  dirty : Bool
deriving DecidableEq, Repr

/-- The fields of an `AddrSpace` object. `executable` holds the bytes of the
open file the address space reads its segments from. -/
structure AddrSpace where
  executable : List Nat
  noffH : NoffHeader
  numPages : Nat
  pageTable : List TranslationEntry
  last_modify : Int
  argc : Int
  argv : List (List Nat)
deriving DecidableEq, Repr

/-- The simulated machine: main memory, registers, TLB and the page table
installed by `RestoreState` in direct mode. -/
structure Machine where
  mainMemory : List Nat
  registers : List Int
  tlb : List TranslationEntry
  pageTable : List TranslationEntry
  pageTableSize : Nat
deriving DecidableEq, Repr

/-- Everything a method of `AddrSpace` reads or writes: the object itself, the
process-wide frame bitmap and the machine. -/
structure World where
  space : AddrSpace
  memoryBitMap : List Bool
  machine : Machine
deriving DecidableEq, Repr

/-- The ways an operation can stop early. `OutOfBounds` stands for an array
access outside the array, which the C++ program does not detect; `BadFree` for
a release of something that is not a frame in use; `PageFault` for an access
to user memory that the page table does not map. -/
inductive Err where
  | InvalidExecutable
  | TooLarge
  | OutOfMemory
  | AssertFailed
  | OutOfBounds
  | BadFree
  | PageFault
deriving DecidableEq, Repr

/-- Result of running a piece of code on a state: it ran to its end, or it
stopped with an error in the state reached at that point. -/
inductive Outcome (σ : Type) where
  | ok : σ → Outcome σ
  | fail : Err → σ → Outcome σ
deriving DecidableEq, Repr

/-- Sequencing: the second piece runs only if the first ran to its end. -/
def Outcome.bind {σ : Type} (r : Outcome σ) (f : σ → Outcome σ) : Outcome σ :=
  match r with
  | .ok s => f s
  | .fail e s => .fail e s

/-- The state an outcome ends in. -/
def Outcome.state {σ : Type} : Outcome σ → σ
  | .ok s => s
  | .fail _ s => s

/-- The loop `for (i = 0; i < n; i++) body(i)`: iterations `0 .. n-1` in
order, stopping at the first one that fails. -/
def forLoop {σ : Type} (n : Nat) (body : Nat → σ → Outcome σ) (s : σ) : Outcome σ :=
  match n with
  | 0 => .ok s
  | k + 1 => (forLoop k body s).bind (body k)

/-! ## Collaborators that are not among the sources -/

/-- Modelled from the spec: the macro `divRoundUp` of `utility.h` is not among
the sources; the spec gives `numPages` as the ceiling of size over page size. -/
def divRoundUp (n s : Nat) : Nat := (n + s - 1) / s

/-- Modelled from the spec: `MemoryBitMap::NumClear` (the class is not among
the sources), the spec's `countFree`: the number of clear bits. -/
def NumClear (bm : List Bool) : Nat := bm.count false

/-- Index of the first clear bit at or after position `k` of the listed bits. -/
def firstClear : List Bool → Nat → Option Nat
  | [], _ => none
  | b :: bs, k => if b = false then some k else firstClear bs (k + 1)

/-- Modelled from the spec: `MemoryBitMap::Find` (the class is not among the
sources), the spec's `allocate`: it yields the index of a clear bit, which it
sets; it fails when no bit is clear. The bit chosen is the first clear one. -/
def Find (bm : List Bool) : Option (Nat × List Bool) :=
  match firstClear bm 0 with
  | none => none
  | some f => some (f, bm.set f true)

/-- Modelled from the spec: what a call `memoryBitMap->Find()` hands to its
caller, and the bitmap afterwards. The method returns an `int`: the frame
`Find` yields, or, when no bit is clear and the allocation fails, the value -1
(the convention of the NachOS `BitMap`, and the marker this program uses for
"no frame"), the bitmap being left as it is. -/
def FindValue (bm : List Bool) : Int × List Bool :=
  match Find bm with
  | none => (-1, bm)
  | some (f, bm1) => ((f : Int), bm1)

/-- Modelled from the spec: `OpenFile::ReadAt` for one byte (the class is not
among the sources), the spec's `readAt`: the byte at a position inside the
file; at any other position nothing is read and the buffer is left alone. -/
def readAt (file : List Nat) (position : Int) : Option Nat :=
  if 0 ≤ position then file[position.toNat]? else none

/-- The libc routine `bzero` on a list of bytes: `n` bytes from `start` on
become zero. -/
def zeroRange : List Nat → Nat → Nat → List Nat
  | mem, _, 0 => mem
  | mem, start, k + 1 => (zeroRange mem start k).set (start + k) 0

/-- The call `bzero(mainMemory + start, n)`; `none` when the range leaves the
memory array. -/
def bzero (mem : List Nat) (start : Int) (n : Nat) : Option (List Nat) :=
  if 0 ≤ start ∧ start + n ≤ mem.length then some (zeroRange mem start.toNat n) else none

/-- The call `bzero(mainMemory + frame * PageSize, PageSize)` of `LoadPage` and
`LoadArguments`, which run it on whatever `Find` returned, as it acts on
`mainMemory`: the bytes of the range that lie in the array become zero. For
the value -1 the whole range lies before the array; the store is undefined
there, the bytes it hits are not part of `mainMemory`, and the statements
after it are run all the same. -/
def zeroFrame (cfg : Config) (mem : List Nat) (frame : Int) : List Nat :=
  if 0 ≤ frame then zeroRange mem (frame * cfg.PageSize).toNat cfg.PageSize else mem

/-! ## `SwapHeader` and the constructor -/

/-- The call `WordToHost(x)` on an `int` field, stored back into an `int`. -/
def wordToHost (cfg : Config) (x : Int) : Int := toInt32 (cfg.WordToHost (toUInt32 x))

/-- The function `SwapHeader`: every one of the ten words of the header is converted. -/
def SwapHeader (cfg : Config) (noffH : NoffHeader) : NoffHeader :=
  { noffMagic := wordToHost cfg noffH.noffMagic
    code :=
      { size := wordToHost cfg noffH.code.size
        virtualAddr := wordToHost cfg noffH.code.virtualAddr
        inFileAddr := wordToHost cfg noffH.code.inFileAddr }
    initData :=
      { size := wordToHost cfg noffH.initData.size
        virtualAddr := wordToHost cfg noffH.initData.virtualAddr
        inFileAddr := wordToHost cfg noffH.initData.inFileAddr }
    uninitData :=
      { size := wordToHost cfg noffH.uninitData.size
        virtualAddr := wordToHost cfg noffH.uninitData.virtualAddr
        inFileAddr := wordToHost cfg noffH.uninitData.inFileAddr } }

/-- Lines 67-69 of the constructor: the header is swapped when its magic word
matches only after conversion. -/
def normalizeHeader (cfg : Config) (noffH : NoffHeader) : NoffHeader :=
  if noffH.noffMagic ≠ cfg.NOFFMAGIC ∧ wordToHost cfg noffH.noffMagic = cfg.NOFFMAGIC
  then SwapHeader cfg noffH else noffH

/-- Lines 73-74: the `int` sum of the three segment sizes and the stack size. -/
def sizeSum (cfg : Config) (noffH : NoffHeader) : Int :=
  noffH.code.size + noffH.initData.size + noffH.uninitData.size + cfg.UserStackSize

/-- Lines 73-76: the sum is stored in the `unsigned int size` and divided,
rounding up, by the page size. -/
def numPagesOf (cfg : Config) (noffH : NoffHeader) : Nat :=
  divRoundUp (toUInt32 (sizeSum cfg noffH)) cfg.PageSize

/-- Replace entry `i` of the page table by `f` of it; outside the table this
is an out-of-bounds access. -/
def updEntry (i : Nat) (f : TranslationEntry → TranslationEntry) (w : World) : Outcome World :=
  match w.space.pageTable[i]? with
  | none => .fail .OutOfBounds w
  | some e => .ok { w with space := { w.space with pageTable := w.space.pageTable.set i (f e) } }

/-- Body of the loop at lines 89-96 (lazy mode): entry `i` is made unmapped. -/
def lazyInitEntry (i : Nat) (w : World) : Outcome World :=
  updEntry i (fun _ =>
    { virtualPage := i, physicalPage := -1, valid := false,
      use := false, dirty := false, readOnly := false }) w

/-- Body of the loop at lines 101-110 (direct mode): entry `i` gets a frame
from the allocator. -/
def directInitEntry (i : Nat) (w : World) : Outcome World :=
  (updEntry i (fun e => { e with virtualPage := i }) w).bind fun w1 =>
    match Find w1.memoryBitMap with
    | none => .fail .OutOfMemory w1
    | some (f, bm) =>
      updEntry i (fun e =>
        { e with physicalPage := f, valid := true, use := false, dirty := false,
                 readOnly := false }) { w1 with memoryBitMap := bm }

/-- Body of the loop at lines 114-116: the frame of page `i` is zeroed. -/
def zeroPage (cfg : Config) (i : Nat) (w : World) : Outcome World :=
  match w.space.pageTable[i]? with
  | none => .fail .OutOfBounds w
  | some e =>
    match bzero w.machine.mainMemory (e.physicalPage * cfg.PageSize) cfg.PageSize with
    | none => .fail .OutOfBounds w
    | some mem => .ok { w with machine := { w.machine with mainMemory := mem } }

/-- Body of the loop of `CopyToMemory` (lines 228-242): byte `i` of the range
is read from the file into the frame that backs its page. -/
def copyByte (cfg : Config) (virtualAddr inFileAddr : Int) (i : Nat) (w : World) :
    Outcome World :=
  let pageNbr : Int := Int.tdiv (virtualAddr + i) cfg.PageSize
  let offset : Int := (virtualAddr + i) - pageNbr * cfg.PageSize
  if pageNbr < 0 then .fail .OutOfBounds w else
  match w.space.pageTable[pageNbr.toNat]? with
  | none => .fail .OutOfBounds w
  | some e =>
    let dest : Int := e.physicalPage * cfg.PageSize + offset
    match readAt w.space.executable (inFileAddr + i) with
    | none => .ok w
    | some b =>
      if 0 ≤ dest ∧ dest < w.machine.mainMemory.length then
        .ok { w with machine :=
                { w.machine with mainMemory := w.machine.mainMemory.set dest.toNat b } }
      else .fail .OutOfBounds w

/-- The method `AddrSpace::CopyToMemory`. -/
def CopyToMemory (cfg : Config) (virtualAddr inFileAddr size : Int) (w : World) :
    Outcome World :=
  if size < 0 then .fail .AssertFailed w
  else forLoop size.toNat (copyByte cfg virtualAddr inFileAddr) w

/-- Lines 120-126: the code segment is copied when it is not empty. -/
def copyCode (cfg : Config) (w : World) : Outcome World :=
  if w.space.noffH.code.size > 0 then
    CopyToMemory cfg w.space.noffH.code.virtualAddr w.space.noffH.code.inFileAddr
      w.space.noffH.code.size w
  else .ok w

/-- Lines 127-133: the initialized data segment is copied when it is not empty. -/
def copyInitData (cfg : Config) (w : World) : Outcome World :=
  if w.space.noffH.initData.size > 0 then
    CopyToMemory cfg w.space.noffH.initData.virtualAddr w.space.noffH.initData.inFileAddr
      w.space.noffH.initData.size w
  else .ok w

/-- The constructor `AddrSpace::AddrSpace(executable)`. `hdr` is the header as
`ReadAt` delivers it from offset 0 of the file, `junk` the contents of the
entries of the freshly allocated page table, and `w.space` the object before
any of its fields is assigned. -/
def construct (cfg : Config) (executable : List Nat) (hdr : NoffHeader)
    (junk : TranslationEntry) (w : World) : Outcome World :=
  let w1 : World :=
    { w with space := { w.space with executable := executable,
                                     noffH := normalizeHeader cfg hdr } }
  if w1.space.noffH.noffMagic ≠ cfg.NOFFMAGIC then .fail .InvalidExecutable w1 else
  let numPages := numPagesOf cfg w1.space.noffH
  let w2 : World := { w1 with space := { w1.space with numPages := numPages } }
  if ¬ numPages ≤ NumClear w2.memoryBitMap then .fail .TooLarge w2 else
  let w3 : World :=
    { w2 with space := { w2.space with pageTable := List.replicate numPages junk } }
  if cfg.USE_TLB then
    forLoop numPages lazyInitEntry { w3 with space := { w3.space with last_modify := 0 } }
  else
    (((forLoop numPages directInitEntry w3).bind
        (forLoop numPages (zeroPage cfg))).bind (copyCode cfg)).bind (copyInitData cfg)

/-! ## The fault path -/

/-- The value of an `int` expression whose exact value is `x`: the result is
reduced to 32 bits (an overflow, undefined in C++, wraps as on the usual
targets). -/
def intValue (x : Int) : Int := toInt32 (toUInt32 x)

/-- The method `AddrSpace::isCode`; the end of the range is the `int` sum
`virtualAddr + size`. -/
def isCode (noffH : NoffHeader) (addr : Int) : Bool :=
  decide (addr ≥ noffH.code.virtualAddr ∧
    addr < intValue (noffH.code.virtualAddr + noffH.code.size))

/-- The method `AddrSpace::isData`; the end of the range is the `int` sum
`virtualAddr + size`. -/
def isData (noffH : NoffHeader) (addr : Int) : Bool :=
  decide (addr ≥ noffH.initData.virtualAddr ∧
    addr < intValue (noffH.initData.virtualAddr + noffH.initData.size))

/-- Line 257 (and 346): `virtPage = badAddr / PageSize`, an `int` division
stored in an `unsigned int`. -/
def virtPageOf (cfg : Config) (badAddr : Int) : Nat :=
  toUInt32 (Int.tdiv badAddr cfg.PageSize)

/-- Body of the loop at lines 267-274 of `LoadPage`: byte `i` of the page is
fetched from the code segment, from the data segment, or left alone. -/
def loadByte (cfg : Config) (virtAddr : Int) (i : Nat) (w : World) : Outcome World :=
  (if isCode w.space.noffH (virtAddr + i) then
      CopyToMemory cfg (virtAddr + i)
        (w.space.noffH.code.inFileAddr + (virtAddr - w.space.noffH.code.virtualAddr + i)) 1 w
    else .ok w).bind fun w1 =>
    if isData w1.space.noffH (virtAddr + i) then
      CopyToMemory cfg (virtAddr + i)
        (w1.space.noffH.initData.inFileAddr +
          (virtAddr - w1.space.noffH.initData.virtualAddr + i)) 1 w1
    else .ok w1

/-- The method `AddrSpace::LoadPage`. Line 262 stores what `Find` returned in
the entry without looking at it, line 264 zeroes the frame of that number and
line 265 marks the entry valid. -/
def LoadPage (cfg : Config) (badAddr : Int) (w : World) : Outcome World :=
  let virtPage : Nat := virtPageOf cfg badAddr
  let virtAddr : Int := toInt32 (virtPage * cfg.PageSize)
  match w.space.pageTable[virtPage]? with
  | none => .fail .OutOfBounds w
  | some e =>
    if e.physicalPage = -1 then
      let found := FindValue w.memoryBitMap
      let w2 : World :=
        { space := { w.space with
            pageTable := w.space.pageTable.set virtPage { e with physicalPage := found.1 } },
          memoryBitMap := found.2,
          machine := { w.machine with
            mainMemory := zeroFrame cfg w.machine.mainMemory found.1 } }
      (updEntry virtPage (fun e1 => { e1 with valid := true }) w2).bind
        (forLoop cfg.PageSize (loadByte cfg virtAddr))
    else .ok w

/-- The C remainder `a % b` on `int`. -/
def cMod (a b : Int) : Int := Int.tmod a b

/-- The method `AddrSpace::UpdateTLB`. -/
def UpdateTLB (cfg : Config) (w : World) : Outcome World :=
  match w.machine.registers[cfg.BadVAddrReg]? with
  | none => .fail .OutOfBounds w
  | some badAddr =>
    let virtPage : Nat := virtPageOf cfg badAddr
    (LoadPage cfg badAddr w).bind fun w1 =>
      let lm : Int := cMod w1.space.last_modify cfg.TLBSize
      let w2 : World := { w1 with space := { w1.space with last_modify := lm } }
      match w2.space.pageTable[virtPage]? with
      | none => .fail .OutOfBounds w2
      | some e =>
        if 0 ≤ lm ∧ lm < w2.machine.tlb.length then
          .ok { w2 with
                machine := { w2.machine with tlb := w2.machine.tlb.set lm.toNat e },
                space := { w2.space with last_modify := lm + 1 } }
        else .fail .OutOfBounds w2

/-! ## Teardown, registers and context switch -/

/-- Modelled from the spec: `MemoryBitMap::Clear` (the class is not among the
sources), the spec's `free(frame index)`: it clears the bit of a frame that is
in use; for anything else (not an index of the bitmap, or a frame already
clear) the spec leaves it undefined, which is reported as `none`. -/
def Clear (bm : List Bool) (which : Int) : Option (List Bool) :=
  if 0 ≤ which ∧ bm[which.toNat]? = some true then some (bm.set which.toNat false) else none

/-- Body of the loop of the destructor (lines 147-149): the frame recorded in
entry `i` is handed back to the allocator. -/
def releaseEntry (i : Nat) (w : World) : Outcome World :=
  match w.space.pageTable[i]? with
  | none => .fail .OutOfBounds w
  | some e =>
    match Clear w.memoryBitMap e.physicalPage with
    | none => .fail .BadFree w
    | some bm => .ok { w with memoryBitMap := bm }

/-- The destructor `AddrSpace::~AddrSpace`: every entry's frame is released,
then the page table and the argument vector are deleted. -/
def destroy (w : World) : Outcome World :=
  (forLoop w.space.numPages releaseEntry w).bind fun w1 =>
    .ok { w1 with space := { w1.space with pageTable := [], argv := [] } }

/-- Modelled from the spec: `Machine::WriteRegister` (the machine is not among
the sources), the spec's `writeRegister(index, value)`: register `num` of the
register file receives `value`; a number outside the register file is an
out-of-bounds access. -/
def WriteRegister (num : Nat) (value : Int) (w : World) : Outcome World :=
  if num < w.machine.registers.length then
    .ok { w with machine := { w.machine with registers := w.machine.registers.set num value } }
  else .fail .OutOfBounds w

/-- The method `AddrSpace::InitRegisters`. The stack value is computed on
`unsigned int` (`numPages` is unsigned) and stored as an `int`. -/
def InitRegisters (cfg : Config) (w : World) : Outcome World :=
  (((forLoop cfg.NumTotalRegs (fun i => WriteRegister i 0) w).bind
      (WriteRegister cfg.PCReg 0)).bind
      (WriteRegister cfg.NextPCReg 4)).bind fun w1 =>
    WriteRegister cfg.StackReg
      (toInt32 (toUInt32 ((w1.space.numPages : Int) * cfg.PageSize - 16))) w1

/-- Body of the loop of `RestoreState` in lazy mode (line 213): TLB slot `i` is
marked invalid. -/
def invalidateSlot (i : Nat) (w : World) : Outcome World :=
  match w.machine.tlb[i]? with
  | none => .fail .OutOfBounds w
  | some e =>
    .ok { w with machine := { w.machine with tlb := w.machine.tlb.set i { e with valid := false } } }

/-- The method `AddrSpace::RestoreState`: with `USE_TLB` the whole TLB is
invalidated, otherwise the machine is pointed at this page table. -/
def RestoreState (cfg : Config) (w : World) : Outcome World :=
  if cfg.USE_TLB then forLoop cfg.TLBSize invalidateSlot w
  else
    .ok { w with machine :=
            { w.machine with pageTable := w.space.pageTable, pageTableSize := w.space.numPages } }

/-! ## File descriptors (`userprog/exception_imp.cc`) -/

/-- Modelled from the spec: the class `OpenFile` (not among the sources), the
spec's seekable file abstraction, as far as `mySeek` uses it: a file has a
length and a current position; `Length` and `GetCurrentPosition` read them. -/
structure OpenFile where
  length : Int
  position : Int
deriving DecidableEq, Repr

/-- Modelled from the spec: `OpenFile::SetCurrentPosition` (not among the
sources): the position given becomes the current position. The value the call
returns is not fixed by anything at hand; it is `setRet` of the position. -/
def SetCurrentPosition (setRet : Int → Int) (file : OpenFile) (pos : Int) : Int × OpenFile :=
  (setRet pos, { file with position := pos })

/-- The record `FileStruct` kept for every descriptor: the file, the thread
that opened it and the access mode. -/
structure FileStruct where
  file : OpenFile
  owner : Nat
  mode : Int
deriving DecidableEq, Repr

/-- The map `openedFiles`: the record of every descriptor that is open. -/
abbrev FileTable := Int → Option FileStruct

/-- Store a new file state under descriptor `file_id` (the effect, through the
pointer kept in the map, of a call that moves the file position). -/
def storeFile (openedFiles : FileTable) (file_id : Int) (fs : FileStruct) (file : OpenFile) :
    FileTable :=
  fun j => if j = file_id then some { fs with file := file } else openedFiles j

/-- The function `mySeek`: the value returned and the descriptor table
afterwards. `currentThread` identifies the running thread. -/
def mySeek (setRet : Int → Int) (currentThread : Nat) (file_id newPos reference : Int)
    (openedFiles : FileTable) : Int × FileTable :=
  match openedFiles file_id with
  | none => (-1, openedFiles)
  | some fs =>
    if fs.owner ≠ currentThread then (-1, openedFiles) else
    let file_len := fs.file.length
    let seekTo (pos : Int) : Int × FileTable :=
      ((SetCurrentPosition setRet fs.file pos).1,
        storeFile openedFiles file_id fs (SetCurrentPosition setRet fs.file pos).2)
    if reference = 0 ∧ newPos ≥ 0 then
      if newPos ≤ file_len then seekTo newPos else seekTo file_len
    else if reference = 1 ∧ newPos ≥ 0 then
      if file_len ≥ newPos then seekTo (file_len - newPos) else seekTo 0
    else if reference = 2 then
      let file_offset := fs.file.position + newPos
      if file_offset ≤ file_len ∧ file_offset ≥ 0 then seekTo file_offset
      else (-1, openedFiles)
    else seekTo file_len

/-- The descriptor state of the kernel: the map `openedFiles` and the counter
`fresh_id` (lines 14 and 21). -/
structure Descriptors where
  openedFiles : FileTable
  fresh_id : Int

/-- The state the kernel starts in: no descriptor is open and `fresh_id` is 3. -/
def initialDescriptors : Descriptors := { openedFiles := fun _ => none, fresh_id := 3 }

/-- The call `openedFiles.insert(pair(key, value))` of `std::map`: the pair is
stored unless the key is present already, in which case the map keeps what it
has. -/
def mapInsert (m : FileTable) (key : Int) (value : FileStruct) : FileTable :=
  fun j =>
    if j = key then
      match m key with
      | some old => some old
      | none => some value
    else m j

/-- The call `openedFiles.erase(key)` of `std::map`. -/
def mapErase (m : FileTable) (key : Int) : FileTable :=
  fun j => if j = key then none else m j

/-- The function `open` (lines 34-50): the value returned and the state
afterwards. The class `FileSystem` is not among the sources: `opened` is what
`fileSystem->Open(file_name)` returned, `none` for the null pointer.
`currentThread` identifies the running thread and `O_RDWR` is the constant of
`fcntl.h`. The counter is an `int`; `fresh_id++` past the largest `int` is
undefined in C++ and wraps here, as it does on the usual targets. -/
def open_ (O_RDWR : Int) (opened : Option OpenFile) (currentThread : Nat) (s : Descriptors) :
    Int × Descriptors :=
  match opened with
  | none => (-1, s)
  | some file =>
    let file_str : FileStruct := { file := file, owner := currentThread, mode := O_RDWR }
    (s.fresh_id,
      { openedFiles := mapInsert s.openedFiles s.fresh_id file_str,
        fresh_id := toInt32 (toUInt32 (s.fresh_id + 1)) })

/-- The function `close` (lines 105-114): the value returned and the state
afterwards. -/
def close (file_id : Int) (s : Descriptors) : Int × Descriptors :=
  match s.openedFiles file_id with
  | none => (-1, s)
  | some _ => (0, { s with openedFiles := mapErase s.openedFiles file_id })

/-- A call of `open`, with what the file system returned and the calling
thread, or a call of `close`. -/
inductive Call where
  | opens (opened : Option OpenFile) (currentThread : Nat)
  | closes (file_id : Int)

/-- One call: the value returned and the state afterwards. -/
def stepCall (O_RDWR : Int) (c : Call) (s : Descriptors) : Int × Descriptors :=
  match c with
  | .opens opened currentThread => open_ O_RDWR opened currentThread s
  | .closes file_id => close file_id s

/-- A sequence of calls from state `s`: the values returned, in order, and the
state afterwards. -/
def runCalls (O_RDWR : Int) : List Call → Descriptors → List Int × Descriptors
  | [], s => ([], s)
  | c :: rest, s =>
    ((stepCall O_RDWR c s).1 :: (runCalls O_RDWR rest (stepCall O_RDWR c s).2).1,
      (runCalls O_RDWR rest (stepCall O_RDWR c s).2).2)

/-- The number of calls of `open` in the sequence for which the file system
delivered a file. -/
def successfulOpens : List Call → Nat
  | [] => 0
  | .opens (some _) _ :: rest => successfulOpens rest + 1
  | .opens none _ :: rest => successfulOpens rest
  | .closes _ :: rest => successfulOpens rest

/-! ## Argument staging -/

/-- The main-memory cell that backs user address `addr` under the page table of
the address space: the page must have a valid entry whose frame lies inside
memory. -/
def userCell (cfg : Config) (w : World) (addr : Int) : Option Nat :=
  if addr < 0 then none else
  match w.space.pageTable[(addr / cfg.PageSize).toNat]? with
  | none => none
  | some e =>
    if e.valid = true ∧ 0 ≤ e.physicalPage ∧
        e.physicalPage * cfg.PageSize + addr % cfg.PageSize < w.machine.mainMemory.length then
      some (e.physicalPage * cfg.PageSize + addr % cfg.PageSize).toNat
    else none

/-- The byte user address `addr` holds, if the address is mapped. -/
def userRead (cfg : Config) (w : World) (addr : Int) : Option Nat :=
  match userCell cfg w addr with
  | none => none
  | some c => w.machine.mainMemory[c]?

/-- Modelled from the spec: a one-byte store to user memory, the unit of
`writeString` and `WRITEMEM` of `syscall_utils.h` (not among the sources): the
byte goes to the cell that backs the address; an address the page table does
not map is left to the fault handler and reported as `PageFault`. -/
def writeUserByte (cfg : Config) (addr : Int) (b : Nat) (w : World) : Outcome World :=
  match userCell cfg w addr with
  | none => .fail .PageFault w
  | some c =>
    .ok { w with machine := { w.machine with mainMemory := w.machine.mainMemory.set c b } }

/-- Modelled from the spec: `writeString(addr, str, len)` of `syscall_utils.h`
(not among the sources): the bytes given are laid out at ascending user
addresses from `addr` on. -/
def writeString (cfg : Config) (addr : Int) (bytes : List Nat) (w : World) : Outcome World :=
  forLoop bytes.length (fun k => writeUserByte cfg (addr + k) (bytes.getD k 0)) w

/-- The four bytes of a word in the byte order of the simulated machine, least
significant first. -/
def wordBytes (value : Int) : List Nat :=
  [toUInt32 value % 256, toUInt32 value / 256 % 256, toUInt32 value / 65536 % 256,
    toUInt32 value / 16777216 % 256]

/-- Modelled from the spec: `WRITEMEM(addr, 4, value)` of `syscall_utils.h`
(not among the sources): the word is stored in the four bytes from `addr` on. -/
def writeUserWord (cfg : Config) (addr : Int) (value : Int) (w : World) : Outcome World :=
  writeString cfg addr (wordBytes value) w

/-- The word stored in the four bytes from user address `addr` on. -/
def userReadWord (cfg : Config) (w : World) (addr : Int) : Option Nat :=
  match userRead cfg w addr, userRead cfg w (addr + 1), userRead cfg w (addr + 2),
    userRead cfg w (addr + 3) with
  | some b0, some b1, some b2, some b3 => some (b0 + 256 * b1 + 65536 * b2 + 16777216 * b3)
  | _, _, _, _ => none

/-- The local variables of `LoadArguments`. -/
structure ArgLocals where
  sp : Int
  cantPag : Int
  tmpSize : Int
  args : List Int
deriving DecidableEq, Repr

/-- An outcome on the world alone, seen as an outcome on the world together
with local variables `l`. -/
def withLocals (l : ArgLocals) (r : Outcome World) : Outcome (World × ArgLocals) :=
  match r with
  | .ok w => .ok (w, l)
  | .fail e w => .fail e (w, l)

/-- Lines 296-299 of `LoadArguments`: entry `idx` of the page table receives
what `Find` returned, unlooked at, and is marked valid, and the frame of that
number is zeroed. -/
def stageTopPage (cfg : Config) (idx : Nat) (w : World) : Outcome World :=
  match w.space.pageTable[idx]? with
  | none => .fail .OutOfBounds w
  | some e =>
    let found := FindValue w.memoryBitMap
    .ok { space := { w.space with
            pageTable := w.space.pageTable.set idx
              { e with physicalPage := found.1, valid := true } },
          memoryBitMap := found.2,
          machine := { w.machine with
            mainMemory := zeroFrame cfg w.machine.mainMemory found.1 } }

/-- Body of the first loop of `LoadArguments` (lines 289-304): argument `i` is
measured, a page is staged if the running total has outgrown the staged pages,
and the string, with its terminator, is written below the previous one. -/
def argStep (cfg : Config) (i : Nat) (s : World × ArgLocals) : Outcome (World × ArgLocals) :=
  match s.1.space.argv[i]? with
  | none => .fail .OutOfBounds s
  | some str =>
    let strLen : Int := (str.length : Int) + 1
    let l1 : ArgLocals := { s.2 with tmpSize := s.2.tmpSize + strLen }
    (if l1.tmpSize > (cfg.PageSize : Int) * l1.cantPag then
        withLocals { l1 with cantPag := l1.cantPag + 1 }
          (stageTopPage cfg (toUInt32 ((s.1.space.numPages : Int) - (l1.cantPag + 1))) s.1)
      else .ok (s.1, l1)).bind fun s2 =>
      (withLocals { s2.2 with sp := s2.2.sp - strLen }
          (writeString cfg (s2.2.sp - strLen) (str ++ [0]) s2.1)).bind fun s3 =>
        .ok (s3.1, { s3.2 with args := s3.2.args ++ [s3.2.sp] })

/-- Body of the second loop of `LoadArguments` (lines 312-315): the address of
argument `i` is stored at `sp`, which then moves up by a word. -/
def tableStep (cfg : Config) (args : List Int) (i : Nat) (s : World × Int) :
    Outcome (World × Int) :=
  match args[i]? with
  | none => .fail .OutOfBounds s
  | some a =>
    match writeUserWord cfg s.2 a s.1 with
    | .ok w => .ok (w, s.2 + 4)
    | .fail e w => .fail e (w, s.2)

/-- The method `AddrSpace::LoadArguments`. -/
def LoadArguments (cfg : Config) (w : World) : Outcome World :=
  let argc : Int := w.space.argc
  let l0 : ArgLocals :=
    { sp := toInt32 (w.space.numPages * cfg.PageSize), cantPag := 0, tmpSize := 4 * argc,
      args := [] }
  match forLoop argc.toNat (argStep cfg) (w, l0) with
  | .fail e s => .fail e s.1
  | .ok s =>
    let sp1 : Int := s.2.sp - argc * 4
    let sp2 : Int := sp1 - cMod sp1 4
    match ((WriteRegister cfg.StackReg (sp2 - 4 * 4) s.1).bind (WriteRegister 4 argc)).bind
        (WriteRegister 5 sp2) with
    | .fail e w1 => .fail e w1
    | .ok w1 =>
      match forLoop argc.toNat (tableStep cfg s.2.args) (w1, sp2) with
      | .fail e s1 => .fail e s1.1
      | .ok s1 => .ok s1.1

/-! ## A small machine for concrete runs -/

/-- The byte-order conversion of a big-endian host: the four bytes of a word
are reversed. -/
def swapBytes (n : Nat) : Nat :=
  n / 16777216 % 256 + n / 65536 % 256 * 256 + n / 256 % 256 * 65536 + n % 256 * 16777216

/-- A machine with eight frames of four bytes; `lazy` is the `USE_TLB` flag and
`conv` the host's `WordToHost`. The register numbers are those of NachOS. -/
def smallConfig (lazy : Bool) (conv : Nat → Nat) : Config :=
  { PageSize := 4, NumPhysPages := 8, UserStackSize := 4, TLBSize := 2,
    NOFFMAGIC := 12246957, NumTotalRegs := 40, StackReg := 29, PCReg := 34,
    NextPCReg := 35, BadVAddrReg := 39, USE_TLB := lazy, WordToHost := conv }

/-- A header in host byte order: five bytes of code at address 0, three bytes
of initialized data at address 5, two bytes of uninitialized data at address 8. -/
def smallHeader : NoffHeader :=
  { noffMagic := 12246957
    code := { virtualAddr := 0, inFileAddr := 10, size := 5 }
    initData := { virtualAddr := 5, inFileAddr := 15, size := 3 }
    uninitData := { virtualAddr := 8, inFileAddr := 0, size := 2 } }

/-- A file of thirty bytes, byte `k` being `100 + k`. -/
def smallFile : List Nat := (List.range 30).map fun k => 100 + k

/-- Contents of a page-table entry that was never assigned. -/
def junkEntry : TranslationEntry :=
  { virtualPage := 7, physicalPage := 7, valid := true, readOnly := true,
    use := true, dirty := true }

/-- A state before construction: frames 0 and 2 are in use, memory holds the
byte 9 everywhere, and the object's fields hold arbitrary values. -/
def smallWorld : World :=
  { space :=
      { executable := [], noffH := smallHeader, numPages := 0, pageTable := [],
        last_modify := 9, argc := 0, argv := [] }
    memoryBitMap := [true, false, true, false, false, false, false, false]
    machine :=
      { mainMemory := List.replicate 32 9, registers := List.replicate 40 0,
        tlb := List.replicate 2 junkEntry, pageTable := [], pageTableSize := 0 } }

/-- The state `smallWorld` with a single free frame, the last one. -/
def crowdedWorld : World :=
  { smallWorld with memoryBitMap := [true, true, true, true, true, true, true, false] }

/-- The state after direct-mode construction from `smallHeader` in
`smallWorld`: four pages, in frames 1, 3, 4 and 5. -/
def loadedWorld : World :=
  (construct (smallConfig false id) smallFile smallHeader junkEntry smallWorld).state

/-- The frames of the four pages of `loadedWorld`. -/
def loadedFrames (p : Nat) : Nat := [1, 3, 4, 5].getD p 0

/-- The state after lazy-mode construction from `smallHeader` in `smallWorld`:
four pages, none of them mapped. -/
def lazyWorld : World :=
  (construct (smallConfig true id) smallFile smallHeader junkEntry smallWorld).state

/-- The state `lazyWorld` after other address spaces have taken all frames but
the last two. -/
def starvedWorld : World :=
  { lazyWorld with memoryBitMap := [true, true, true, true, true, true, false, false] }

/-- A machine with eight frames of sixteen bytes and four TLB slots; `lazy` is
the `USE_TLB` flag. -/
def mediumConfig (lazy : Bool) : Config :=
  { PageSize := 16, NumPhysPages := 8, UserStackSize := 32, TLBSize := 4,
    NOFFMAGIC := 12246957, NumTotalRegs := 40, StackReg := 29, PCReg := 34,
    NextPCReg := 35, BadVAddrReg := 39, USE_TLB := lazy, WordToHost := id }

/-- A header for the medium machine: ten bytes of code at address 0 and six
bytes of initialized data at address 10; with the stack, three pages. -/
def mediumHeader : NoffHeader :=
  { noffMagic := 12246957
    code := { virtualAddr := 0, inFileAddr := 40, size := 10 }
    initData := { virtualAddr := 10, inFileAddr := 50, size := 6 }
    uninitData := { virtualAddr := 16, inFileAddr := 0, size := 0 } }

/-- A file of sixty bytes, byte `k` being `100 + k`. -/
def mediumFile : List Nat := (List.range 60).map fun k => 100 + k

/-- A state of the medium machine before any address space exists: every frame
is free and memory holds the byte 9 everywhere. -/
def freshWorld : World :=
  { space :=
      { executable := [], noffH := mediumHeader, numPages := 0, pageTable := [],
        last_modify := 0, argc := 0, argv := [] }
    memoryBitMap := List.replicate 8 false
    machine :=
      { mainMemory := List.replicate 128 9, registers := List.replicate 40 0,
        tlb := List.replicate 4 junkEntry, pageTable := [], pageTableSize := 0 } }

/-- The assignment of the argument fields that `SetArguments` ends with:
`argc` counts the strings of `argv`. -/
def withArguments (argv : List (List Nat)) (w : World) : World :=
  { w with space := { w.space with argc := argv.length, argv := argv } }

/-- The strings `"prog"` and `"hello"`, as bytes. -/
def progHello : List (List Nat) := [[112, 114, 111, 103], [104, 101, 108, 108, 111]]

/-- The address space of `mediumHeader` constructed in `freshWorld`, in lazy
mode (`lazy = true`) or direct mode, with the arguments `argv` set. -/
def stagingWorld (lazy : Bool) (argv : List (List Nat)) : World :=
  withArguments argv
    (construct (mediumConfig lazy) mediumFile mediumHeader junkEntry freshWorld).state

/-- A history of five calls: a file is opened by thread 1, an open fails,
descriptor 3 is closed, a file is opened by thread 2, and descriptor 9, which
was never handed out, is closed. -/
def sampleCalls : List Call :=
  [.opens (some { length := 10, position := 0 }) 1, .opens none 1, .closes 3,
    .opens (some { length := 5, position := 0 }) 2, .closes 9]

/-! ## Auxiliary notions for the statements -/

/-- The address space together with the frame bitmap: what the byte copies of
`CopyToMemory` never touch. -/
def spaceAndFrames (w : World) : AddrSpace × List Bool := (w.space, w.memoryBitMap)

/-- A run of page faults: `LoadPage` on each address of the list in turn,
stopping at the first fault that fails. -/
def faultAll (cfg : Config) : List Int → World → Outcome World
  | [], w => .ok w
  | badAddr :: rest, w => (LoadPage cfg badAddr w).bind (faultAll cfg rest)

/-- The machine apart from main memory: registers, TLB and installed page
table, which loading a page never touches. -/
def machineRest (w : World) : List Int × List TranslationEntry × List TranslationEntry × Nat :=
  (w.machine.registers, w.machine.tlb, w.machine.pageTable, w.machine.pageTableSize)

/-- A TLB miss on `badAddr`: the machine records the faulting address in
`BadVAddrReg` and the handler calls `UpdateTLB`. -/
def tlbMiss (cfg : Config) (badAddr : Int) (w : World) : Outcome World :=
  (WriteRegister cfg.BadVAddrReg badAddr w).bind (UpdateTLB cfg)

/-- A run of TLB misses, one per address of the list, stopping at the first
one that fails. -/
def missAll (cfg : Config) : List Int → World → Outcome World
  | [], w => .ok w
  | badAddr :: rest, w => (tlbMiss cfg badAddr w).bind (missAll cfg rest)

/-- The pages from index `lo` up to the end of the page table are staged: each
is valid and mapped to a frame of its own that lies inside memory and is taken
in the bitmap. -/
def StagedFrom (cfg : Config) (w : World) (lo : Nat) : Prop :=
  (∀ p, lo ≤ p → p < w.space.pageTable.length →
    ∃ (e : TranslationEntry) (f : Nat), w.space.pageTable[p]? = some e ∧ e.valid = true ∧
      e.physicalPage = (f : Int) ∧ (f + 1) * cfg.PageSize ≤ w.machine.mainMemory.length ∧
      w.memoryBitMap[f]? = some true) ∧
  (∀ p q e1 e2, lo ≤ p → lo ≤ q → w.space.pageTable[p]? = some e1 →
    w.space.pageTable[q]? = some e2 → p ≠ q → e1.physicalPage ≠ e2.physicalPage)

/-- The bytes the first `i` argument strings take on the stack, each with its
terminator. -/
def strBytes (argv : List (List Nat)) (i : Nat) : Nat :=
  ((argv.take i).map fun s => s.length + 1).sum

/-- The value of `cantPag` after `i` iterations of the first loop of
`LoadArguments` (lines 291-295): the count grows by one in each iteration whose
running total `tmpSize` exceeds the bytes of the pages counted so far. -/
def pagesStaged (P : Nat) (argv : List (List Nat)) : Nat → Nat
  | 0 => 0
  | i + 1 =>
    if 4 * argv.length + strBytes argv (i + 1) > P * pagesStaged P argv i then
      pagesStaged P argv i + 1
    else pagesStaged P argv i

/-- The address of argument `i` on the stack: the strings go downwards from the
initial top of the stack, `numPages * PageSize`, in the order of `argv`. -/
def argAddr (cfg : Config) (w : World) (i : Nat) : Nat :=
  w.space.numPages * cfg.PageSize - strBytes w.space.argv (i + 1)

/-- The address of the pointer table: the first multiple of four at or below
the lowest string that leaves room for one word per argument. -/
def tableBase (cfg : Config) (w : World) : Nat :=
  (w.space.numPages * cfg.PageSize - strBytes w.space.argv w.space.argv.length
    - 4 * w.space.argv.length) / 4 * 4

/-- Every byte `LoadArguments` writes goes to a page it has staged before the
write: after each iteration `i` the strings `argv[0..i]` with their terminators
take at most `PageSize * cantPag` bytes, `cantPag` being the count after that
iteration (`pagesStaged`); the count never exceeds `numPages`; strings and
table together take at most `numPages * PageSize` bytes; and the pointer table
starts at or above the lowest staged page. This is more than that the bytes
fit in the pages staged by the end: a page staged in a later iteration is
zeroed after an earlier string was written into it. -/
def ArgsFit (cfg : Config) (w : World) : Prop :=
  (∀ i, i < w.space.argv.length →
    strBytes w.space.argv (i + 1) ≤ cfg.PageSize * pagesStaged cfg.PageSize w.space.argv (i + 1)) ∧
  pagesStaged cfg.PageSize w.space.argv w.space.argv.length ≤ w.space.numPages ∧
  strBytes w.space.argv w.space.argv.length + 4 * w.space.argv.length
    ≤ w.space.numPages * cfg.PageSize ∧
  (w.space.numPages - pagesStaged cfg.PageSize w.space.argv w.space.argv.length) * cfg.PageSize
    ≤ tableBase cfg w

instance (cfg : Config) (w : World) : Decidable (ArgsFit cfg w) := by
  unfold ArgsFit; infer_instance

/-- The number of valid entries of a page table. -/
def validPages (pt : List TranslationEntry) : Nat := (pt.filter fun e => e.valid).length

/-- The states a lazy-mode address space can be in: the state a successful
construction with `USE_TLB` leaves, and from there any successful `LoadPage`,
`UpdateTLB` or `LoadArguments`; `elsewhere` stands for everything else that
happens in between and leaves the page table of the address space alone
(register writes of the machine, stores of the user program, frames taken or
released by other address spaces, `SetArguments`). -/
inductive LazyReachable (cfg : Config) : World → Prop
  | constructed (executable : List Nat) (hdr : NoffHeader) (junk : TranslationEntry)
      (w0 w : World) (hlazy : cfg.USE_TLB = true)
      (hrun : construct cfg executable hdr junk w0 = .ok w) : LazyReachable cfg w
  | loadPage (badAddr : Int) (w w1 : World) (hw : LazyReachable cfg w)
      (hrun : LoadPage cfg badAddr w = .ok w1) : LazyReachable cfg w1
  | updateTLB (w w1 : World) (hw : LazyReachable cfg w)
      (hrun : UpdateTLB cfg w = .ok w1) : LazyReachable cfg w1
  | loadArguments (w w1 : World) (hw : LazyReachable cfg w)
      (hrun : LoadArguments cfg w = .ok w1) : LazyReachable cfg w1
  | elsewhere (w w1 : World) (hw : LazyReachable cfg w)
      (hsame : w1.space.pageTable = w.space.pageTable) : LazyReachable cfg w1

/-- The address lies in the code range of the header,
`virtualAddr ≤ addr < virtualAddr + size`, the sum being the exact one. -/
def inCode (noffH : NoffHeader) (addr : Int) : Bool :=
  decide (addr ≥ noffH.code.virtualAddr ∧ addr < noffH.code.virtualAddr + noffH.code.size)

/-- The address lies in the initialized-data range of the header,
`virtualAddr ≤ addr < virtualAddr + size`, the sum being the exact one. -/
def inData (noffH : NoffHeader) (addr : Int) : Bool :=
  decide (addr ≥ noffH.initData.virtualAddr ∧
    addr < noffH.initData.virtualAddr + noffH.initData.size)

/-- The `int` sums `virtualAddr + size` of the code and the initialized-data
segment do not overflow. -/
def SumsFit (noffH : NoffHeader) : Prop :=
  (-2147483648 ≤ noffH.code.virtualAddr + noffH.code.size ∧
    noffH.code.virtualAddr + noffH.code.size < 2147483648) ∧
  (-2147483648 ≤ noffH.initData.virtualAddr + noffH.initData.size ∧
    noffH.initData.virtualAddr + noffH.initData.size < 2147483648)

instance (noffH : NoffHeader) : Decidable (SumsFit noffH) := by
  unfold SumsFit; infer_instance

/-- The size of main memory. -/
def memSize (w : World) : Nat := w.machine.mainMemory.length

/-- Two states `a` and `b` of two runs of the same statements, the first from
memory `m0` and the second from memory `m1`: they agree on everything but the
contents of main memory, and every cell either holds the same in both, or has
not been written yet (`a` still has what `m0` had and `b` what `m1` had). -/
def Twin (m0 m1 : List Nat) (a b : World) : Prop :=
  a.space = b.space ∧ a.memoryBitMap = b.memoryBitMap ∧ machineRest a = machineRest b ∧
  memSize a = memSize b ∧
  ∀ c : Nat, b.machine.mainMemory[c]? = a.machine.mainMemory[c]? ∨
    (a.machine.mainMemory[c]? = m0[c]? ∧ b.machine.mainMemory[c]? = m1[c]?)

/-- Two outcomes of the same statements run from twin states: both ran to
their end, in twin states, or both stopped. -/
def TwinOutcome (m0 m1 : List Nat) (ra rb : Outcome World) : Prop :=
  match ra, rb with
  | .ok a, .ok b => Twin m0 m1 a b
  | .fail _ _, .fail _ _ => True
  | _, _ => False

/-- The byte the body of the loop of `LoadPage` (lines 268-273) leaves in the
cell that backs address `addr` when the cell held `old`: the code byte if the
address is code and the file has the byte, overridden by the data byte if the
address is data and the file has that byte. -/
def loadedByte (noffH : NoffHeader) (file : List Nat) (addr : Int) (old : Nat) : Nat :=
  let afterCode :=
    if isCode noffH addr then
      (readAt file (noffH.code.inFileAddr + (addr - noffH.code.virtualAddr))).getD old
    else old
  if isData noffH addr then
    (readAt file (noffH.initData.inFileAddr + (addr - noffH.initData.virtualAddr))).getD afterCode
  else afterCode

/-- The fields of the address space that are assigned once, at lines 65-76 of
the constructor: the file, the header and the number of pages. -/
def fixedPart (w : World) : List Nat × NoffHeader × Nat :=
  (w.space.executable, w.space.noffH, w.space.numPages)

/-! ## Machine integers and rounding -/

theorem toInt32_of_lt {n : Nat} (h : n < 2147483648) : toInt32 n = (n : Int) := by
  unfold toInt32
  have : n % 4294967296 = n := Nat.mod_eq_of_lt (by omega)
  rw [this, if_pos h]

theorem le_divRoundUp_mul (n : Nat) {s : Nat} (hs : 0 < s) : n ≤ divRoundUp n s * s := by
  unfold divRoundUp
  have h := Nat.lt_div_mul_add (a := n + s - 1) hs
  have : n + s - 1 < (n + s - 1) / s * s + s := by simpa using h
  omega

theorem divRoundUp_le_of_le_mul {n s m : Nat} (hs : 0 < s) (h : n ≤ m * s) :
    divRoundUp n s ≤ m := by
  unfold divRoundUp
  have h1 : (n + s - 1) / s ≤ (m * s + (s - 1)) / s := Nat.div_le_div_right (by omega)
  have h2 : (m * s + (s - 1)) / s = m := by
    rw [Nat.add_comm, Nat.add_mul_div_right _ _ hs, Nat.div_eq_of_lt (by omega)]; simp
  omega

/-! ## Sequencing and loops -/

theorem state_bind_eq {σ α : Type} (g : σ → α) (r : Outcome σ) (f : σ → Outcome σ)
    (hf : ∀ s, g (f s).state = g s) : g (r.bind f).state = g r.state := by
  cases r with
  | ok s => exact hf s
  | fail e s => rfl

theorem state_forLoop_eq {σ α : Type} (g : σ → α) (body : Nat → σ → Outcome σ)
    (hb : ∀ i s, g (body i s).state = g s) (n : Nat) (s : σ) :
    g (forLoop n body s).state = g s := by
  induction n with
  | zero => rfl
  | succ k ih =>
    show g ((forLoop k body s).bind (body k)).state = g s
    rw [state_bind_eq g _ _ (hb k), ih]

theorem bind_ne_fail {σ : Type} (e : Err) (r : Outcome σ) (f : σ → Outcome σ)
    (hr : ∀ t, r ≠ .fail e t) (hf : ∀ s t, f s ≠ .fail e t) (t : σ) :
    r.bind f ≠ .fail e t := by
  cases r with
  | ok s => exact hf s t
  | fail e1 s =>
    intro h
    apply hr s
    simp only [Outcome.bind] at h
    injection h with h1 h2
    rw [h1]

theorem forLoop_ne_fail {σ : Type} (e : Err) (body : Nat → σ → Outcome σ)
    (hb : ∀ i s t, body i s ≠ .fail e t) (n : Nat) (s t : σ) :
    forLoop n body s ≠ .fail e t := by
  induction n generalizing t with
  | zero => intro h; cases h
  | succ k ih => exact bind_ne_fail e _ _ ih (hb k) t

/-! ## Frame conditions of the loop bodies -/

theorem updEntry_ne_fail (e : Err) (he : e ≠ .OutOfBounds) (i : Nat)
    (f : TranslationEntry → TranslationEntry) (w t : World) :
    updEntry i f w ≠ .fail e t := by
  unfold updEntry
  cases w.space.pageTable[i]? with
  | none => intro h; injection h with h1 _; exact he h1.symm
  | some x => intro h; cases h

theorem directInitEntry_fixed (i : Nat) (w : World) :
    fixedPart (directInitEntry i w).state = fixedPart w := by
  unfold directInitEntry updEntry
  cases h1 : w.space.pageTable[i]? with
  | none => rfl
  | some e =>
    simp only [Outcome.bind]
    cases h2 : Find w.memoryBitMap with
    | none => rfl
    | some p =>
      obtain ⟨f, bm⟩ := p
      simp only []
      split <;> rfl

theorem zeroPage_fixed (cfg : Config) (i : Nat) (w : World) :
    fixedPart (zeroPage cfg i w).state = fixedPart w := by
  unfold zeroPage
  split
  · rfl
  · split <;> rfl

theorem copyByte_fixed (cfg : Config) (va fa : Int) (i : Nat) (w : World) :
    fixedPart (copyByte cfg va fa i w).state = fixedPart w := by
  unfold copyByte
  simp only []
  split
  · rfl
  · split
    · rfl
    · split
      · rfl
      · split <;> rfl

theorem CopyToMemory_fixed (cfg : Config) (va fa size : Int) (w : World) :
    fixedPart (CopyToMemory cfg va fa size w).state = fixedPart w := by
  unfold CopyToMemory
  split
  · rfl
  · exact state_forLoop_eq fixedPart _ (copyByte_fixed cfg va fa) _ _

theorem copyCode_fixed (cfg : Config) (w : World) :
    fixedPart (copyCode cfg w).state = fixedPart w := by
  unfold copyCode
  split
  · exact CopyToMemory_fixed cfg _ _ _ w
  · rfl

theorem copyInitData_fixed (cfg : Config) (w : World) :
    fixedPart (copyInitData cfg w).state = fixedPart w := by
  unfold copyInitData
  split
  · exact CopyToMemory_fixed cfg _ _ _ w
  · rfl

theorem lazyInitEntry_fixed (i : Nat) (w : World) :
    fixedPart (lazyInitEntry i w).state = fixedPart w := by
  unfold lazyInitEntry updEntry
  split <;> rfl

/-- Whatever happens after the two checks, the constructor leaves the file, the
header and `numPages` as lines 65-76 set them. -/
theorem construct_fixed (cfg : Config) (executable : List Nat) (hdr : NoffHeader)
    (junk : TranslationEntry) (w : World)
    (hmagic : (normalizeHeader cfg hdr).noffMagic = cfg.NOFFMAGIC) :
    (construct cfg executable hdr junk w).state.space.executable = executable ∧
    (construct cfg executable hdr junk w).state.space.noffH = normalizeHeader cfg hdr ∧
    (construct cfg executable hdr junk w).state.space.numPages =
      numPagesOf cfg (normalizeHeader cfg hdr) := by
  have key : fixedPart (construct cfg executable hdr junk w).state =
      (executable, normalizeHeader cfg hdr, numPagesOf cfg (normalizeHeader cfg hdr)) := by
    unfold construct
    simp only [hmagic, ne_eq, not_true_eq_false, if_false]
    split
    · rfl
    · split
      · rw [state_forLoop_eq fixedPart _ lazyInitEntry_fixed]; rfl
      · rw [state_bind_eq fixedPart _ _ (copyInitData_fixed cfg),
          state_bind_eq fixedPart _ _ (copyCode_fixed cfg),
          state_bind_eq fixedPart _ _ (fun s => state_forLoop_eq fixedPart _ (zeroPage_fixed cfg) _ s),
          state_forLoop_eq fixedPart _ directInitEntry_fixed]; rfl
  simp only [fixedPart, Prod.mk.injEq] at key
  exact key

theorem NumClear_le_length (bm : List Bool) : NumClear bm ≤ bm.length :=
  List.count_le_length false bm

/-- When the frame check passes on a machine whose memory is addressable by an
`int`, the unsigned `size` of line 73 is below `2^31`. -/
theorem toUInt32_sizeSum_small (cfg : Config) (hsane : cfg.Sane) (noffH : NoffHeader)
    (bm : List Bool) (hbits : bm.length ≤ cfg.NumPhysPages)
    (hframes : numPagesOf cfg noffH ≤ NumClear bm) :
    toUInt32 (sizeSum cfg noffH) < 2147483648 := by
  obtain ⟨hP, hmem⟩ := hsane
  have h2 := le_divRoundUp_mul (toUInt32 (sizeSum cfg noffH)) hP
  have h3 : numPagesOf cfg noffH ≤ cfg.NumPhysPages :=
    le_trans hframes (le_trans (NumClear_le_length bm) hbits)
  have h4 : numPagesOf cfg noffH * cfg.PageSize ≤ cfg.NumPhysPages * cfg.PageSize :=
    Nat.mul_le_mul_right _ h3
  unfold numPagesOf at h4
  omega

/-- C1: when the magic check and the frame check pass, the constructor sets
`numPages` to the ceiling of (code size + initialized data size +
uninitialized data size + `UserStackSize`) over `PageSize`, that is, to the
least `n` with `n * PageSize` at least that sum. The sum is the value of the
`int` expression of line 73, which is the exact sum whenever that is
representable as an `int`; the machine has `PageSize > 0`, a memory size that
fits an `int` and a bitmap of at most `NumPhysPages` bits. -/
theorem C1_numPages_is_ceiling (cfg : Config) (hsane : cfg.Sane) (executable : List Nat)
    (hdr : NoffHeader) (junk : TranslationEntry) (w : World)
    (hbits : w.memoryBitMap.length ≤ cfg.NumPhysPages)
    (hmagic : (normalizeHeader cfg hdr).noffMagic = cfg.NOFFMAGIC)
    (hframes : numPagesOf cfg (normalizeHeader cfg hdr) ≤ NumClear w.memoryBitMap) :
    (toInt32 (toUInt32
        ((construct cfg executable hdr junk w).state.space.noffH.code.size +
          (construct cfg executable hdr junk w).state.space.noffH.initData.size +
          (construct cfg executable hdr junk w).state.space.noffH.uninitData.size +
          cfg.UserStackSize)) ≤
      ((construct cfg executable hdr junk w).state.space.numPages : Int) * cfg.PageSize) ∧
    (∀ n : Nat,
      toInt32 (toUInt32
        ((construct cfg executable hdr junk w).state.space.noffH.code.size +
          (construct cfg executable hdr junk w).state.space.noffH.initData.size +
          (construct cfg executable hdr junk w).state.space.noffH.uninitData.size +
          cfg.UserStackSize)) ≤ (n : Int) * cfg.PageSize →
      (construct cfg executable hdr junk w).state.space.numPages ≤ n) ∧
    (-2147483648 ≤
        (construct cfg executable hdr junk w).state.space.noffH.code.size +
          (construct cfg executable hdr junk w).state.space.noffH.initData.size +
          (construct cfg executable hdr junk w).state.space.noffH.uninitData.size +
          cfg.UserStackSize ∧
      (construct cfg executable hdr junk w).state.space.noffH.code.size +
          (construct cfg executable hdr junk w).state.space.noffH.initData.size +
          (construct cfg executable hdr junk w).state.space.noffH.uninitData.size +
          cfg.UserStackSize < 2147483648 →
      toInt32 (toUInt32
        ((construct cfg executable hdr junk w).state.space.noffH.code.size +
          (construct cfg executable hdr junk w).state.space.noffH.initData.size +
          (construct cfg executable hdr junk w).state.space.noffH.uninitData.size +
          cfg.UserStackSize)) =
      (construct cfg executable hdr junk w).state.space.noffH.code.size +
        (construct cfg executable hdr junk w).state.space.noffH.initData.size +
        (construct cfg executable hdr junk w).state.space.noffH.uninitData.size +
        cfg.UserStackSize) := by
  obtain ⟨_, hH, hN⟩ := construct_fixed cfg executable hdr junk w hmagic
  have hsmall := toUInt32_sizeSum_small cfg hsane _ _ hbits hframes
  rw [hH, hN]
  have hS : (normalizeHeader cfg hdr).code.size + (normalizeHeader cfg hdr).initData.size +
      (normalizeHeader cfg hdr).uninitData.size + cfg.UserStackSize =
      sizeSum cfg (normalizeHeader cfg hdr) := rfl
  rw [hS, toInt32_of_lt hsmall]
  refine ⟨?_, ?_, ?_⟩
  · have := le_divRoundUp_mul (toUInt32 (sizeSum cfg (normalizeHeader cfg hdr))) hsane.1
    unfold numPagesOf
    exact_mod_cast this
  · intro n hn
    unfold numPagesOf
    exact divRoundUp_le_of_le_mul hsane.1 (by exact_mod_cast hn)
  · intro hrep
    unfold toUInt32 at hsmall ⊢
    omega

theorem C1_numPages_is_ceiling_witness :
    (smallConfig true id).Sane ∧
    smallWorld.memoryBitMap.length ≤ (smallConfig true id).NumPhysPages ∧
    (normalizeHeader (smallConfig true id) smallHeader).noffMagic = (smallConfig true id).NOFFMAGIC ∧
    numPagesOf (smallConfig true id) (normalizeHeader (smallConfig true id) smallHeader) ≤
      NumClear smallWorld.memoryBitMap ∧
    (construct (smallConfig true id) smallFile smallHeader junkEntry smallWorld).state.space.numPages
      ≤ 4 ∧
    toInt32 (toUInt32 (5 + 3 + 2 + 4)) = 5 + 3 + 2 + 4 :=
  ⟨by decide, by decide, by decide, by decide,
    (C1_numPages_is_ceiling (smallConfig true id) (by decide) smallFile smallHeader junkEntry
      smallWorld (by decide) (by decide) (by decide)).2.1 4 (by decide),
    (C1_numPages_is_ceiling (smallConfig true id) (by decide) smallFile smallHeader junkEntry
      smallWorld (by decide) (by decide) (by decide)).2.2 (by decide)⟩

/-! ## Which errors the parts of the constructor can raise -/

theorem lazyInitEntry_ne_fail (e : Err) (he : e ≠ .OutOfBounds) (i : Nat) (w t : World) :
    lazyInitEntry i w ≠ .fail e t :=
  updEntry_ne_fail e he i _ w t

theorem directInitEntry_ne_fail (e : Err) (he : e ≠ .OutOfBounds) (hm : e ≠ .OutOfMemory)
    (i : Nat) (w t : World) : directInitEntry i w ≠ .fail e t := by
  unfold directInitEntry
  apply bind_ne_fail e _ _ (updEntry_ne_fail e he i _ w)
  intro s t1
  cases h2 : Find s.memoryBitMap with
  | none => intro h; injection h with h1 _; exact hm h1.symm
  | some p => exact updEntry_ne_fail e he i _ _ t1

theorem zeroPage_ne_fail (cfg : Config) (e : Err) (he : e ≠ .OutOfBounds) (i : Nat)
    (w t : World) : zeroPage cfg i w ≠ .fail e t := by
  unfold zeroPage
  split
  · intro h; injection h with h1 _; exact he h1.symm
  · split
    · intro h; injection h with h1 _; exact he h1.symm
    · intro h; cases h

theorem copyByte_ne_fail (cfg : Config) (e : Err) (he : e ≠ .OutOfBounds) (va fa : Int)
    (i : Nat) (w t : World) : copyByte cfg va fa i w ≠ .fail e t := by
  unfold copyByte
  simp only []
  split
  · intro h; injection h with h1 _; exact he h1.symm
  · split
    · intro h; injection h with h1 _; exact he h1.symm
    · split
      · intro h; cases h
      · split
        · intro h; cases h
        · intro h; injection h with h1 _; exact he h1.symm

theorem CopyToMemory_ne_fail (cfg : Config) (e : Err) (he : e ≠ .OutOfBounds)
    (ha : e ≠ .AssertFailed) (va fa size : Int) (w t : World) :
    CopyToMemory cfg va fa size w ≠ .fail e t := by
  unfold CopyToMemory
  split
  · intro h; injection h with h1 _; exact ha h1.symm
  · exact forLoop_ne_fail e _ (copyByte_ne_fail cfg e he va fa) _ w t

theorem copyCode_ne_fail (cfg : Config) (e : Err) (he : e ≠ .OutOfBounds)
    (ha : e ≠ .AssertFailed) (w t : World) : copyCode cfg w ≠ .fail e t := by
  unfold copyCode
  split
  · exact CopyToMemory_ne_fail cfg e he ha _ _ _ w t
  · intro h; cases h

theorem copyInitData_ne_fail (cfg : Config) (e : Err) (he : e ≠ .OutOfBounds)
    (ha : e ≠ .AssertFailed) (w t : World) : copyInitData cfg w ≠ .fail e t := by
  unfold copyInitData
  split
  · exact CopyToMemory_ne_fail cfg e he ha _ _ _ w t
  · intro h; cases h

/-- After the two checks of the constructor, neither loop nor copy stops with
one of the two errors the checks raise. -/
theorem construct_body_ne_fail (cfg : Config) (e : Err) (he : e ≠ .OutOfBounds)
    (hm : e ≠ .OutOfMemory) (ha : e ≠ .AssertFailed) (n : Nat) (w1 w2 t : World) :
    (if cfg.USE_TLB then forLoop n lazyInitEntry w1
      else (((forLoop n directInitEntry w2).bind (forLoop n (zeroPage cfg))).bind
        (copyCode cfg)).bind (copyInitData cfg)) ≠ .fail e t := by
  split
  · exact forLoop_ne_fail e _ (lazyInitEntry_ne_fail e he) n w1 t
  · apply bind_ne_fail e _ _ _ (copyInitData_ne_fail cfg e he ha)
    apply bind_ne_fail e _ _ _ (copyCode_ne_fail cfg e he ha)
    apply bind_ne_fail e _ _ _ (fun s => forLoop_ne_fail e _ (zeroPage_ne_fail cfg e he) n s)
    exact forLoop_ne_fail e _ (directInitEntry_ne_fail e he hm) n w2

theorem normalizeHeader_magic (cfg : Config) (hdr : NoffHeader) :
    (normalizeHeader cfg hdr).noffMagic ≠ cfg.NOFFMAGIC ↔
      (hdr.noffMagic ≠ cfg.NOFFMAGIC ∧ wordToHost cfg hdr.noffMagic ≠ cfg.NOFFMAGIC) := by
  unfold normalizeHeader
  by_cases h1 : hdr.noffMagic = cfg.NOFFMAGIC
  · simp [h1]
  · by_cases h2 : wordToHost cfg hdr.noffMagic = cfg.NOFFMAGIC
    · simp [h1, h2, SwapHeader]
    · simp [h1, h2]

/-- The constructor stops with `InvalidExecutable` exactly when the magic word
of the normalized header is wrong. -/
theorem construct_invalid_iff (cfg : Config) (executable : List Nat) (hdr : NoffHeader)
    (junk : TranslationEntry) (w : World) :
    (∃ s, construct cfg executable hdr junk w = .fail .InvalidExecutable s) ↔
      (normalizeHeader cfg hdr).noffMagic ≠ cfg.NOFFMAGIC := by
  constructor
  · rintro ⟨s, hs⟩ hmagic
    unfold construct at hs
    simp only [hmagic, ne_eq, not_true_eq_false, if_false] at hs
    split at hs
    · cases hs
    · exact construct_body_ne_fail cfg .InvalidExecutable (by decide) (by decide) (by decide)
        _ _ _ s hs
  · intro hmagic
    unfold construct
    simp only [ne_eq, hmagic, not_false_eq_true, if_true]
    exact ⟨_, rfl⟩

/-- C2: the constructor fails with `InvalidExecutable` exactly when the magic
word equals `NOFFMAGIC` neither as read nor after `WordToHost`; and when only
the converted magic matches, the header the address space keeps and uses has
all ten words converted, and `numPages` is computed from the converted sizes. -/
theorem C2_magic_check_and_swap (cfg : Config) (executable : List Nat) (hdr : NoffHeader)
    (junk : TranslationEntry) (w : World) :
    ((∃ s, construct cfg executable hdr junk w = .fail .InvalidExecutable s) ↔
      (hdr.noffMagic ≠ cfg.NOFFMAGIC ∧ wordToHost cfg hdr.noffMagic ≠ cfg.NOFFMAGIC)) ∧
    (hdr.noffMagic ≠ cfg.NOFFMAGIC → wordToHost cfg hdr.noffMagic = cfg.NOFFMAGIC →
      (construct cfg executable hdr junk w).state.space.noffH =
        { noffMagic := wordToHost cfg hdr.noffMagic
          code :=
            { size := wordToHost cfg hdr.code.size
              virtualAddr := wordToHost cfg hdr.code.virtualAddr
              inFileAddr := wordToHost cfg hdr.code.inFileAddr }
          initData :=
            { size := wordToHost cfg hdr.initData.size
              virtualAddr := wordToHost cfg hdr.initData.virtualAddr
              inFileAddr := wordToHost cfg hdr.initData.inFileAddr }
          uninitData :=
            { size := wordToHost cfg hdr.uninitData.size
              virtualAddr := wordToHost cfg hdr.uninitData.virtualAddr
              inFileAddr := wordToHost cfg hdr.uninitData.inFileAddr } } ∧
      (construct cfg executable hdr junk w).state.space.numPages =
        divRoundUp (toUInt32 (wordToHost cfg hdr.code.size + wordToHost cfg hdr.initData.size +
          wordToHost cfg hdr.uninitData.size + cfg.UserStackSize)) cfg.PageSize) := by
  constructor
  · rw [construct_invalid_iff, normalizeHeader_magic]
  · intro h1 h2
    have hn : normalizeHeader cfg hdr = SwapHeader cfg hdr := by
      unfold normalizeHeader; simp [h1, h2]
    have hmagic : (normalizeHeader cfg hdr).noffMagic = cfg.NOFFMAGIC := by
      rw [hn]; exact h2
    obtain ⟨_, hH, hN⟩ := construct_fixed cfg executable hdr junk w hmagic
    rw [hH, hN, hn]
    exact ⟨rfl, rfl⟩

/-- A header written in the foreign byte order: `smallHeader` with the bytes of
every word reversed. -/
theorem C2_magic_check_and_swap_witness :
    (⟨-1377846784, ⟨0, 167772160, 83886080⟩, ⟨83886080, 251658240, 50331648⟩,
        ⟨134217728, 0, 33554432⟩⟩ : NoffHeader).noffMagic ≠
      (smallConfig false swapBytes).NOFFMAGIC ∧
    wordToHost (smallConfig false swapBytes) (-1377846784) =
      (smallConfig false swapBytes).NOFFMAGIC ∧
    (construct (smallConfig false swapBytes) smallFile
        ⟨-1377846784, ⟨0, 167772160, 83886080⟩, ⟨83886080, 251658240, 50331648⟩,
          ⟨134217728, 0, 33554432⟩⟩ junkEntry smallWorld).state.space.noffH = smallHeader :=
  ⟨by decide, by decide,
    ((C2_magic_check_and_swap (smallConfig false swapBytes) smallFile
        ⟨-1377846784, ⟨0, 167772160, 83886080⟩, ⟨83886080, 251658240, 50331648⟩,
          ⟨134217728, 0, 33554432⟩⟩ junkEntry smallWorld).2 (by decide) (by decide)).1.trans
      (by decide)⟩

/-- C3 (as stated) fails: in lazy mode (`USE_TLB`) the constructor, given a
header with valid magic that needs four pages while one frame is free, stops
with `TooLarge`. -/
theorem C3_lazy_mode_counterexample :
    (smallConfig true id).USE_TLB = true ∧
    (normalizeHeader (smallConfig true id) smallHeader).noffMagic =
      (smallConfig true id).NOFFMAGIC ∧
    numPagesOf (smallConfig true id) (normalizeHeader (smallConfig true id) smallHeader) = 4 ∧
    NumClear crowdedWorld.memoryBitMap = 1 ∧
    construct (smallConfig true id) smallFile smallHeader junkEntry crowdedWorld =
      .fail .TooLarge
        (construct (smallConfig true id) smallFile smallHeader junkEntry crowdedWorld).state := by
  decide

/-- C3 (amended): construction from a header with valid magic fails with
`TooLarge` if and only if `numPages` exceeds the free-frame count at
construction time, in direct mode and in lazy mode alike. -/
theorem C3_too_large_in_both_modes (cfg : Config) (executable : List Nat) (hdr : NoffHeader)
    (junk : TranslationEntry) (w : World)
    (hmagic : (normalizeHeader cfg hdr).noffMagic = cfg.NOFFMAGIC) :
    (∃ s, construct cfg executable hdr junk w = .fail .TooLarge s) ↔
      NumClear w.memoryBitMap <
        divRoundUp (toUInt32 ((normalizeHeader cfg hdr).code.size +
          (normalizeHeader cfg hdr).initData.size + (normalizeHeader cfg hdr).uninitData.size +
          cfg.UserStackSize)) cfg.PageSize := by
  show _ ↔ NumClear w.memoryBitMap < numPagesOf cfg (normalizeHeader cfg hdr)
  constructor
  · rintro ⟨s, hs⟩
    by_contra hle
    unfold construct at hs
    simp only [hmagic, ne_eq, not_true_eq_false, if_false] at hs
    rw [if_neg (by omega)] at hs
    exact construct_body_ne_fail cfg .TooLarge (by decide) (by decide) (by decide) _ _ _ s hs
  · intro hlt
    unfold construct
    simp only [hmagic, ne_eq, not_true_eq_false, if_false]
    rw [if_pos (by omega)]
    exact ⟨_, rfl⟩

theorem C3_too_large_in_both_modes_witness :
    (normalizeHeader (smallConfig false id) smallHeader).noffMagic =
      (smallConfig false id).NOFFMAGIC ∧
    ((∃ s, construct (smallConfig false id) smallFile smallHeader junkEntry crowdedWorld =
        .fail .TooLarge s) ↔
      NumClear crowdedWorld.memoryBitMap <
        divRoundUp (toUInt32 ((normalizeHeader (smallConfig false id) smallHeader).code.size +
          (normalizeHeader (smallConfig false id) smallHeader).initData.size +
          (normalizeHeader (smallConfig false id) smallHeader).uninitData.size +
          (smallConfig false id).UserStackSize)) (smallConfig false id).PageSize) :=
  ⟨by decide,
    C3_too_large_in_both_modes (smallConfig false id) smallFile smallHeader junkEntry
      crowdedWorld (by decide)⟩

/-! ## The lazy-mode loop of the constructor -/

/-- After `k` iterations of the loop at lines 89-96 the first `k` entries are
unmapped and nothing else has changed. -/
theorem forLoop_lazyInitEntry (w : World) (k : Nat) (hk : k ≤ w.space.pageTable.length) :
    ∃ pt : List TranslationEntry,
      forLoop k lazyInitEntry w = .ok { w with space := { w.space with pageTable := pt } } ∧
      pt.length = w.space.pageTable.length ∧
      (∀ i, i < k → pt[i]? = some
        { virtualPage := i, physicalPage := -1, valid := false, use := false, dirty := false,
          readOnly := false }) ∧
      (∀ i, k ≤ i → pt[i]? = w.space.pageTable[i]?) := by
  induction k with
  | zero => exact ⟨w.space.pageTable, rfl, rfl, fun i hi => absurd hi (Nat.not_lt_zero i),
      fun i _ => rfl⟩
  | succ k ih =>
    obtain ⟨pt, hrun, hlen, hlow, hhigh⟩ := ih (by omega)
    have hklt : k < pt.length := by omega
    refine ⟨pt.set k ⟨(k : Int), -1, false, false, false, false⟩, ?_, ?_, ?_, ?_⟩
    · show (forLoop k lazyInitEntry w).bind (lazyInitEntry k) = _
      rw [hrun]
      simp only [Outcome.bind, lazyInitEntry, updEntry]
      rw [List.getElem?_eq_getElem hklt]
    · rw [List.length_set, hlen]
    · intro i hi
      by_cases hik : i = k
      · subst hik
        rw [List.getElem?_set_self hklt]
      · rw [List.getElem?_set_ne (Ne.symm hik)]
        exact hlow i (by omega)
    · intro i hi
      rw [List.getElem?_set_ne (by omega)]
      exact hhigh i (by omega)

/-- C4: in lazy mode, when the magic check and the frame check pass, the
constructor runs to its end; afterwards the page table has `numPages` entries,
entry `i` has virtual page `i`, physical page `-1`, and `valid`, `use`, `dirty`,
`readOnly` all false, and the frame bitmap and the machine (main memory
included) are exactly as before. -/
theorem C4_lazy_construction (cfg : Config) (executable : List Nat) (hdr : NoffHeader)
    (junk : TranslationEntry) (w : World) (hlazy : cfg.USE_TLB = true)
    (hmagic : (normalizeHeader cfg hdr).noffMagic = cfg.NOFFMAGIC)
    (hframes : numPagesOf cfg (normalizeHeader cfg hdr) ≤ NumClear w.memoryBitMap) :
    ∃ w1 : World, construct cfg executable hdr junk w = .ok w1 ∧
      w1.space.pageTable.length = w1.space.numPages ∧
      (∀ i, i < w1.space.numPages → w1.space.pageTable[i]? = some
        { virtualPage := i, physicalPage := -1, valid := false, use := false, dirty := false,
          readOnly := false }) ∧
      w1.memoryBitMap = w.memoryBitMap ∧
      w1.machine = w.machine ∧
      w1.machine.mainMemory = w.machine.mainMemory := by
  unfold construct
  simp only [hmagic, ne_eq, not_true_eq_false, if_false, hlazy, if_true]
  rw [if_neg (by omega)]
  obtain ⟨pt, hrun, hlen, hlow, _⟩ := forLoop_lazyInitEntry
    { space :=
        { executable := executable, noffH := normalizeHeader cfg hdr,
          numPages := numPagesOf cfg (normalizeHeader cfg hdr),
          pageTable := List.replicate (numPagesOf cfg (normalizeHeader cfg hdr)) junk,
          last_modify := 0, argc := w.space.argc, argv := w.space.argv },
      memoryBitMap := w.memoryBitMap, machine := w.machine }
    (numPagesOf cfg (normalizeHeader cfg hdr)) (by simp)
  refine ⟨_, hrun, ?_, ?_, rfl, rfl, rfl⟩
  · simpa using hlen
  · exact hlow

theorem C4_lazy_construction_witness :
    (smallConfig true id).USE_TLB = true ∧
    (normalizeHeader (smallConfig true id) smallHeader).noffMagic =
      (smallConfig true id).NOFFMAGIC ∧
    numPagesOf (smallConfig true id) (normalizeHeader (smallConfig true id) smallHeader) ≤
      NumClear smallWorld.memoryBitMap ∧
    ∃ w1 : World,
      construct (smallConfig true id) smallFile smallHeader junkEntry smallWorld = .ok w1 ∧
      w1.space.pageTable.length = w1.space.numPages ∧
      (∀ i, i < w1.space.numPages → w1.space.pageTable[i]? = some
        { virtualPage := i, physicalPage := -1, valid := false, use := false, dirty := false,
          readOnly := false }) ∧
      w1.memoryBitMap = smallWorld.memoryBitMap ∧
      w1.machine = smallWorld.machine ∧
      w1.machine.mainMemory = smallWorld.machine.mainMemory :=
  ⟨by decide, by decide, by decide,
    C4_lazy_construction (smallConfig true id) smallFile smallHeader junkEntry smallWorld
      (by decide) (by decide) (by decide)⟩

/-! ## `CopyToMemory` -/

theorem frame_offset_inj {P a b o1 o2 : Nat} (h1 : o1 < P) (h2 : o2 < P)
    (h : a * P + o1 = b * P + o2) : a = b ∧ o1 = o2 := by
  have hP : 0 < P := by omega
  have ha : (a * P + o1) / P = a := by
    rw [Nat.add_comm, Nat.add_mul_div_right _ _ hP, Nat.div_eq_of_lt h1]; simp
  have hb : (b * P + o2) / P = b := by
    rw [Nat.add_comm, Nat.add_mul_div_right _ _ hP, Nat.div_eq_of_lt h2]; simp
  have hab : a = b := by rw [← ha, ← hb, h]
  subst hab
  exact ⟨rfl, by omega⟩

/-- Two addresses of a range whose pages have distinct frames are backed by
distinct memory cells. -/
theorem target_ne {P : Nat} (hP : 0 < P) (fr : Nat → Nat) (x y : Nat) (hxy : x ≠ y)
    (hinj : x / P ≠ y / P → fr (x / P) ≠ fr (y / P)) :
    fr (x / P) * P + x % P ≠ fr (y / P) * P + y % P := by
  intro h
  obtain ⟨h1, h2⟩ := frame_offset_inj (Nat.mod_lt x hP) (Nat.mod_lt y hP) h
  by_cases hpage : x / P = y / P
  · apply hxy
    rw [← Nat.div_add_mod x P, ← Nat.div_add_mod y P, hpage, h2]
  · exact hinj hpage h1

/-- The step of `CopyToMemory` at a non-negative address whose page is mapped
to a frame inside memory. -/
theorem copyByte_mapped (cfg : Config) (hP : 0 < cfg.PageSize) (w : World) (va : Nat)
    (fa : Int) (i f : Nat) (e : TranslationEntry)
    (he : w.space.pageTable[(va + i) / cfg.PageSize]? = some e)
    (hf : e.physicalPage = (f : Int))
    (hin : (f + 1) * cfg.PageSize ≤ w.machine.mainMemory.length) (mem1 : List Nat)
    (hmem1 : mem1 = (readAt w.space.executable (fa + i)).elim w.machine.mainMemory
      (fun b => w.machine.mainMemory.set (f * cfg.PageSize + (va + i) % cfg.PageSize) b)) :
    copyByte cfg (va : Int) fa i w =
      .ok { w with machine := { w.machine with mainMemory := mem1 } } := by
  subst hmem1
  have hPz : (0 : Int) < (cfg.PageSize : Int) := by exact_mod_cast hP
  have hdiv : Int.tdiv ((va : Int) + (i : Int)) (cfg.PageSize : Int) =
      (((va + i) / cfg.PageSize : Nat) : Int) := by
    rw [Int.tdiv_eq_ediv (by omega) (by omega)]
    push_cast; rfl
  have hoff : ((va : Int) + (i : Int)) - (((va + i) / cfg.PageSize : Nat) : Int) * cfg.PageSize =
      (((va + i) % cfg.PageSize : Nat) : Int) := by
    have := Nat.div_add_mod (va + i) cfg.PageSize
    have h2 : ((cfg.PageSize * ((va + i) / cfg.PageSize) + (va + i) % cfg.PageSize : Nat) : Int) =
        ((va + i : Nat) : Int) := by rw [this]
    push_cast at h2
    push_cast
    linarith
  have hmod := Nat.mod_lt (va + i) hP
  unfold copyByte
  simp only [hdiv, hoff]
  rw [if_neg (not_lt.mpr (Nat.cast_nonneg _))]
  simp only [Int.toNat_ofNat, he, hf]
  cases hr : readAt w.space.executable (fa + ↑i) with
  | none => rfl
  | some b =>
    simp only []
    have hdest : (f : Int) * cfg.PageSize + (((va + i) % cfg.PageSize : Nat) : Int) =
        ((f * cfg.PageSize + (va + i) % cfg.PageSize : Nat) : Int) := by push_cast; rfl
    rw [hdest]
    have hlt : f * cfg.PageSize + (va + i) % cfg.PageSize < w.machine.mainMemory.length := by
      have : (f + 1) * cfg.PageSize = f * cfg.PageSize + cfg.PageSize := by ring
      omega
    rw [if_pos ⟨Nat.cast_nonneg _, by exact_mod_cast hlt⟩]
    simp only [Int.toNat_ofNat]
    rfl

/-- The loop of `CopyToMemory` over a range whose pages are mapped, through
`fr`, to distinct frames inside memory: it runs to its end, every byte the file
has lands in the cell backing its address, and no other cell changes. -/
theorem copyLoop_spec (cfg : Config) (hP : 0 < cfg.PageSize) (w : World) (va : Nat) (fa : Int)
    (fr : Nat → Nat) (n : Nat)
    (hmap : ∀ i, i < n → ∃ e, w.space.pageTable[(va + i) / cfg.PageSize]? = some e ∧
      e.physicalPage = (fr ((va + i) / cfg.PageSize) : Int) ∧
      (fr ((va + i) / cfg.PageSize) + 1) * cfg.PageSize ≤ w.machine.mainMemory.length)
    (hinj : ∀ i j, i < n → j < n → (va + i) / cfg.PageSize ≠ (va + j) / cfg.PageSize →
      fr ((va + i) / cfg.PageSize) ≠ fr ((va + j) / cfg.PageSize)) :
    ∃ mem1 : List Nat,
      forLoop n (copyByte cfg va fa) w =
        .ok { w with machine := { w.machine with mainMemory := mem1 } } ∧
      mem1.length = w.machine.mainMemory.length ∧
      (∀ i, i < n → ∀ b, readAt w.space.executable (fa + i) = some b →
        mem1[fr ((va + i) / cfg.PageSize) * cfg.PageSize + (va + i) % cfg.PageSize]? = some b) ∧
      (∀ i, i < n → readAt w.space.executable (fa + i) = none →
        mem1[fr ((va + i) / cfg.PageSize) * cfg.PageSize + (va + i) % cfg.PageSize]? =
          w.machine.mainMemory[fr ((va + i) / cfg.PageSize) * cfg.PageSize +
            (va + i) % cfg.PageSize]?) ∧
      (∀ a, (∀ i, i < n →
          a ≠ fr ((va + i) / cfg.PageSize) * cfg.PageSize + (va + i) % cfg.PageSize) →
        mem1[a]? = w.machine.mainMemory[a]?) := by
  induction n with
  | zero =>
    exact ⟨w.machine.mainMemory, rfl, rfl, fun i hi => absurd hi (Nat.not_lt_zero i),
      fun i hi => absurd hi (Nat.not_lt_zero i), fun a _ => rfl⟩
  | succ n ih =>
    obtain ⟨mem0, hrun, hlen, hsome, hnone, hother⟩ :=
      ih (fun i hi => hmap i (by omega)) (fun i j hi hj => hinj i j (by omega) (by omega))
    obtain ⟨e, he, hf, hin⟩ := hmap n (by omega)
    have hne : ∀ i, i < n →
        fr ((va + i) / cfg.PageSize) * cfg.PageSize + (va + i) % cfg.PageSize ≠
        fr ((va + n) / cfg.PageSize) * cfg.PageSize + (va + n) % cfg.PageSize := fun i hi =>
      target_ne hP fr (va + i) (va + n) (by omega) (hinj i n (by omega) (by omega))
    have hlt : fr ((va + n) / cfg.PageSize) * cfg.PageSize + (va + n) % cfg.PageSize <
        mem0.length := by
      have h1 := Nat.mod_lt (va + n) hP
      have h2 : (fr ((va + n) / cfg.PageSize) + 1) * cfg.PageSize =
          fr ((va + n) / cfg.PageSize) * cfg.PageSize + cfg.PageSize := by ring
      omega
    have hstep := copyByte_mapped cfg hP
      { w with machine := { w.machine with mainMemory := mem0 } } va fa n
      (fr ((va + n) / cfg.PageSize)) e he hf (by rw [hlen]; exact hin) _ rfl
    refine ⟨(readAt w.space.executable (fa + n)).elim mem0 (fun b => mem0.set
      (fr ((va + n) / cfg.PageSize) * cfg.PageSize + (va + n) % cfg.PageSize) b),
      ?_, ?_, ?_, ?_, ?_⟩
    · show (forLoop n (copyByte cfg va fa) w).bind (copyByte cfg va fa n) = _
      rw [hrun]
      exact hstep
    · show ((readAt w.space.executable (fa + n)).elim mem0 _).length = _
      cases readAt w.space.executable (fa + n) with
      | none => exact hlen
      | some b => simp only [Option.elim, List.length_set]; exact hlen
    · intro i hi b hb
      show ((readAt w.space.executable (fa + n)).elim mem0 _)[_]? = _
      by_cases hin : i = n
      · subst hin
        rw [hb]
        simp only [Option.elim]
        exact List.getElem?_set_self hlt
      · have h1 := hsome i (by omega) b hb
        cases readAt w.space.executable (fa + n) with
        | none => exact h1
        | some c =>
          simp only [Option.elim]
          rw [List.getElem?_set_ne (Ne.symm (hne i (by omega)))]
          exact h1
    · intro i hi hb
      show ((readAt w.space.executable (fa + n)).elim mem0 _)[_]? = _
      by_cases hin : i = n
      · subst hin
        rw [hb]
        simp only [Option.elim]
        exact hother _ (fun j hj => Ne.symm (hne j hj))
      · have h1 := hnone i (by omega) hb
        cases readAt w.space.executable (fa + n) with
        | none => exact h1
        | some c =>
          simp only [Option.elim]
          rw [List.getElem?_set_ne (Ne.symm (hne i (by omega)))]
          exact h1
    · intro a ha
      show ((readAt w.space.executable (fa + n)).elim mem0 _)[_]? = _
      have h1 := hother a (fun i hi => ha i (by omega))
      cases readAt w.space.executable (fa + n) with
      | none => exact h1
      | some c =>
        simp only [Option.elim]
        rw [List.getElem?_set_ne (Ne.symm (ha n (by omega)))]
        exact h1

/-! ## The frame allocator -/

theorem firstClear_some (bm : List Bool) (k f : Nat) (h : firstClear bm k = some f) :
    k ≤ f ∧ bm[f - k]? = some false := by
  induction bm generalizing k with
  | nil => simp [firstClear] at h
  | cons b bs ih =>
    unfold firstClear at h
    split at h
    · rename_i hb
      injection h with h
      subst h
      simp [hb]
    · obtain ⟨h1, h2⟩ := ih (k + 1) h
      refine ⟨by omega, ?_⟩
      have : f - k = (f - (k + 1)) + 1 := by omega
      rw [this, List.getElem?_cons_succ]
      exact h2

theorem firstClear_none (bm : List Bool) (k : Nat) (h : firstClear bm k = none) :
    NumClear bm = 0 := by
  induction bm generalizing k with
  | nil => rfl
  | cons b bs ih =>
    unfold firstClear at h
    split at h
    · cases h
    · rename_i hb
      have hb1 : b = true := by simpa using hb
      have := ih (k + 1) h
      unfold NumClear at this ⊢
      rw [hb1, List.count_cons_of_ne (by decide)]
      exact this

theorem NumClear_set (bm : List Bool) (f : Nat) (h : bm[f]? = some false) :
    NumClear (bm.set f true) + 1 = NumClear bm := by
  have hlt : f < bm.length := by
    by_contra hge
    rw [List.getElem?_eq_none (by omega)] at h
    cases h
  have hget : bm[f] = false := by
    rw [List.getElem?_eq_getElem hlt] at h
    exact Option.some.inj h
  have hpos : 0 < List.count false bm :=
    List.count_pos_iff.mpr (hget ▸ List.getElem_mem hlt)
  unfold NumClear
  rw [List.count_set true false bm f hlt]
  simp only [hget, beq_self_eq_true, if_true]
  simp
  omega

/-- What a successful `Find` does: the frame it yields was clear, is set
afterwards, and one frame fewer is free. -/
theorem Find_some (bm bm1 : List Bool) (f : Nat) (h : Find bm = some (f, bm1)) :
    f < bm.length ∧ bm[f]? = some false ∧ bm1 = bm.set f true ∧
      NumClear bm1 + 1 = NumClear bm := by
  unfold Find at h
  cases hfc : firstClear bm 0 with
  | none => rw [hfc] at h; cases h
  | some g =>
    rw [hfc] at h
    simp only [Option.some.injEq, Prod.mk.injEq] at h
    obtain ⟨h1, h2⟩ := h
    subst h1
    obtain ⟨_, hg⟩ := firstClear_some bm 0 g hfc
    simp only [Nat.sub_zero] at hg
    have hlt : g < bm.length := by
      by_contra hge
      rw [List.getElem?_eq_none (by omega)] at hg
      cases hg
    exact ⟨hlt, hg, h2.symm, by rw [← h2]; exact NumClear_set bm g hg⟩

/-- The allocator fails exactly when no frame is free. -/
theorem Find_none_iff (bm : List Bool) : Find bm = none ↔ NumClear bm = 0 := by
  constructor
  · intro h
    unfold Find at h
    cases hfc : firstClear bm 0 with
    | none => exact firstClear_none bm 0 hfc
    | some g => rw [hfc] at h; cases h
  · intro h
    cases hF : Find bm with
    | none => rfl
    | some p =>
      obtain ⟨f, bm1⟩ := p
      have := (Find_some bm bm1 f hF).2.2.2
      omega

/-! ## The direct-mode loops of the constructor -/

/-- One iteration of the allocation loop at an index inside the table, with a
free frame left. -/
theorem directInitEntry_ok (i : Nat) (w : World) (hi : i < w.space.pageTable.length)
    (hfree : 0 < NumClear w.memoryBitMap) :
    ∃ f bm, Find w.memoryBitMap = some (f, bm) ∧
      directInitEntry i w = .ok
        { w with
          memoryBitMap := bm
          space := { w.space with
            pageTable := w.space.pageTable.set i ⟨(i : Int), (f : Int), true, false, false, false⟩ } } := by
  cases hF : Find w.memoryBitMap with
  | none => rw [Find_none_iff] at hF; omega
  | some p =>
    obtain ⟨f, bm⟩ := p
    refine ⟨f, bm, rfl, ?_⟩
    unfold directInitEntry updEntry
    rw [List.getElem?_eq_getElem hi]
    simp only [Outcome.bind, hF]
    rw [List.getElem?_set_self hi]
    simp only [List.set_set]

/-- After `k` iterations of the loop at lines 101-110 the first `k` entries are
valid and mapped, through `fr`, to distinct frames that were free before and
are taken now; no other bit of the bitmap has changed. -/
theorem forLoop_directInitEntry (w : World) (k : Nat) (hk : k ≤ w.space.pageTable.length)
    (hfree : k ≤ NumClear w.memoryBitMap) :
    ∃ (pt : List TranslationEntry) (bm : List Bool) (fr : Nat → Nat),
      forLoop k directInitEntry w =
        .ok { w with memoryBitMap := bm, space := { w.space with pageTable := pt } } ∧
      pt.length = w.space.pageTable.length ∧
      bm.length = w.memoryBitMap.length ∧
      NumClear bm + k = NumClear w.memoryBitMap ∧
      (∀ i, i < k → pt[i]? = some ⟨(i : Int), (fr i : Int), true, false, false, false⟩ ∧
        fr i < w.memoryBitMap.length ∧ w.memoryBitMap[fr i]? = some false ∧
        bm[fr i]? = some true) ∧
      (∀ i, k ≤ i → pt[i]? = w.space.pageTable[i]?) ∧
      (∀ j, (∀ i, i < k → j ≠ fr i) → bm[j]? = w.memoryBitMap[j]?) ∧
      (∀ i j, i < k → j < k → i ≠ j → fr i ≠ fr j) := by
  induction k with
  | zero =>
    exact ⟨w.space.pageTable, w.memoryBitMap, fun _ => 0, rfl, rfl, rfl, rfl,
      fun i hi => absurd hi (Nat.not_lt_zero i), fun _ _ => rfl, fun _ _ => rfl,
      fun i _ hi => absurd hi (Nat.not_lt_zero i)⟩
  | succ k ih =>
    obtain ⟨pt, bm, fr, hrun, hlen, hbl, hcount, hlow, hhigh, hsame, hinj⟩ :=
      ih (by omega) (by omega)
    obtain ⟨f, bm1, hF, hstep⟩ := directInitEntry_ok k
      { w with memoryBitMap := bm, space := { w.space with pageTable := pt } }
      (by show k < pt.length; omega) (by show 0 < NumClear bm; omega)
    obtain ⟨hflt, hfclear, hbm1, hcount1⟩ := Find_some bm bm1 f hF
    have hfne : ∀ i, i < k → f ≠ fr i := by
      intro i hi hfi
      have := (hlow i hi).2.2.2
      rw [← hfi, hfclear] at this
      cases this
    have hklt : k < pt.length := by omega
    refine ⟨pt.set k ⟨(k : Int), (f : Int), true, false, false, false⟩, bm1,
      Function.update fr k f, ?_, ?_, ?_, ?_, ?_, ?_, ?_, ?_⟩
    · show (forLoop k directInitEntry w).bind (directInitEntry k) = _
      rw [hrun]
      exact hstep
    · rw [List.length_set, hlen]
    · rw [hbm1, List.length_set, hbl]
    · omega
    · intro i hi
      by_cases hik : i = k
      · subst hik
        rw [List.getElem?_set_self hklt, Function.update_same]
        refine ⟨rfl, by omega, ?_, ?_⟩
        · rw [← hsame f hfne]; exact hfclear
        · rw [hbm1]; exact List.getElem?_set_self hflt
      · rw [List.getElem?_set_ne (Ne.symm hik), Function.update_noteq hik]
        obtain ⟨h1, h2, h3, h4⟩ := hlow i (by omega)
        refine ⟨h1, h2, h3, ?_⟩
        rw [hbm1, List.getElem?_set_ne (hfne i (by omega))]
        exact h4
    · intro i hi
      rw [List.getElem?_set_ne (by omega)]
      exact hhigh i (by omega)
    · intro j hj
      have hjf : j ≠ f := by
        have := hj k (by omega)
        rwa [Function.update_same] at this
      rw [hbm1, List.getElem?_set_ne (Ne.symm hjf)]
      apply hsame
      intro i hi
      have := hj i (by omega)
      rwa [Function.update_noteq (by omega)] at this
    · intro i j hi hj hij
      by_cases hik : i = k
      · subst hik
        rw [Function.update_same, Function.update_noteq (Ne.symm hij)]
        exact hfne j (by omega)
      · by_cases hjk : j = k
        · subst hjk
          rw [Function.update_same, Function.update_noteq hik]
          exact Ne.symm (hfne i (by omega))
        · rw [Function.update_noteq hik, Function.update_noteq hjk]
          exact hinj i j (by omega) (by omega) hij

theorem zeroRange_length (mem : List Nat) (s n : Nat) : (zeroRange mem s n).length = mem.length := by
  induction n with
  | zero => rfl
  | succ k ih => simp only [zeroRange, List.length_set]; exact ih

theorem zeroRange_inside (mem : List Nat) (s n a : Nat) (h1 : s ≤ a) (h2 : a < s + n)
    (h3 : a < mem.length) : (zeroRange mem s n)[a]? = some 0 := by
  induction n with
  | zero => omega
  | succ k ih =>
    simp only [zeroRange]
    by_cases hak : a = s + k
    · subst hak
      exact List.getElem?_set_self (by rw [zeroRange_length]; exact h3)
    · rw [List.getElem?_set_ne (Ne.symm hak)]
      exact ih (by omega)

theorem zeroRange_outside (mem : List Nat) (s n a : Nat) (h : ¬ (s ≤ a ∧ a < s + n)) :
    (zeroRange mem s n)[a]? = mem[a]? := by
  induction n with
  | zero => rfl
  | succ k ih =>
    simp only [zeroRange]
    rw [List.getElem?_set_ne (by omega)]
    exact ih (by omega)

/-- The call `bzero` on a frame that lies inside memory. -/
theorem bzero_frame (mem : List Nat) (f P : Nat) (h : (f + 1) * P ≤ mem.length) :
    bzero mem ((f : Int) * (P : Int)) P = some (zeroRange mem (f * P) P) := by
  unfold bzero
  have h1 : (f + 1) * P = f * P + P := by ring
  have h2 : ((f : Int) * (P : Int)) = ((f * P : Nat) : Int) := by push_cast; rfl
  rw [h2, if_pos ⟨Nat.cast_nonneg _, by exact_mod_cast (by omega : f * P + P ≤ mem.length)⟩]
  simp only [Int.toNat_ofNat]

/-- After `n` iterations of the loop at lines 114-116 the frames of the first
`n` pages are zero and the rest of memory is as before. -/
theorem forLoop_zeroPage (cfg : Config) (w : World) (fr : Nat → Nat) (n : Nat)
    (hmap : ∀ i, i < n → ∃ e, w.space.pageTable[i]? = some e ∧ e.physicalPage = (fr i : Int) ∧
      (fr i + 1) * cfg.PageSize ≤ w.machine.mainMemory.length) :
    ∃ mem1 : List Nat,
      forLoop n (zeroPage cfg) w =
        .ok { w with machine := { w.machine with mainMemory := mem1 } } ∧
      mem1.length = w.machine.mainMemory.length ∧
      (∀ i o, i < n → o < cfg.PageSize → mem1[fr i * cfg.PageSize + o]? = some 0) ∧
      (∀ a, (∀ i, i < n → ¬ (fr i * cfg.PageSize ≤ a ∧ a < fr i * cfg.PageSize + cfg.PageSize)) →
        mem1[a]? = w.machine.mainMemory[a]?) := by
  induction n with
  | zero =>
    exact ⟨w.machine.mainMemory, rfl, rfl, fun i _ hi => absurd hi (Nat.not_lt_zero i),
      fun _ _ => rfl⟩
  | succ n ih =>
    obtain ⟨mem0, hrun, hlen, hzero, hother⟩ := ih (fun i hi => hmap i (by omega))
    obtain ⟨e, he, hf, hin⟩ := hmap n (by omega)
    have hin1 : (fr n + 1) * cfg.PageSize = fr n * cfg.PageSize + cfg.PageSize := by ring
    refine ⟨zeroRange mem0 (fr n * cfg.PageSize) cfg.PageSize, ?_, ?_, ?_, ?_⟩
    · show (forLoop n (zeroPage cfg) w).bind (zeroPage cfg n) = _
      rw [hrun]
      simp only [Outcome.bind, zeroPage, he, hf]
      rw [bzero_frame mem0 (fr n) cfg.PageSize (by rw [hlen]; exact hin)]
    · rw [zeroRange_length, hlen]
    · intro i o hi ho
      by_cases hcell : fr n * cfg.PageSize ≤ fr i * cfg.PageSize + o ∧
          fr i * cfg.PageSize + o < fr n * cfg.PageSize + cfg.PageSize
      · exact zeroRange_inside mem0 _ _ _ hcell.1 hcell.2 (by omega)
      · rw [zeroRange_outside mem0 _ _ _ hcell]
        by_cases hin2 : i = n
        · subst hin2; omega
        · exact hzero i o (by omega) ho
    · intro a ha
      rw [zeroRange_outside mem0 _ _ _ (ha n (by omega))]
      exact hother a (fun i hi => ha i (by omega))

theorem page_lt {P N a : Nat} (h : a < N * P) : a / P < N :=
  (Nat.div_lt_iff_lt_mul (by
    rcases Nat.eq_zero_or_pos P with h0 | h0
    · subst h0; simp at h
    · exact h0)).mpr h

/-- Copy of one segment into an address space of `N` pages that are mapped,
through `fr`, to distinct frames inside memory: the copy runs to its end; a cell
backing an address of the segment holds the file byte for that address when the
file has one, and every other cell is as before. -/
theorem CopyToMemory_segment (cfg : Config) (hP : 0 < cfg.PageSize) (w : World) (N : Nat)
    (fr : Nat → Nat) (va fa size : Int)
    (hpt : ∀ p, p < N → ∃ e, w.space.pageTable[p]? = some e ∧ e.physicalPage = (fr p : Int) ∧
      (fr p + 1) * cfg.PageSize ≤ w.machine.mainMemory.length)
    (hinj : ∀ p q, p < N → q < N → p ≠ q → fr p ≠ fr q)
    (hseg : size > 0 → 0 ≤ va ∧ va + size ≤ ((N * cfg.PageSize : Nat) : Int)) :
    ∃ mem1 : List Nat,
      (if size > 0 then CopyToMemory cfg va fa size w else .ok w) =
        .ok { w with machine := { w.machine with mainMemory := mem1 } } ∧
      mem1.length = w.machine.mainMemory.length ∧
      (∀ a : Nat, a < N * cfg.PageSize →
        (va ≤ a ∧ (a : Int) < va + size →
          ∀ b, readAt w.space.executable (fa + ((a : Int) - va)) = some b →
            mem1[fr (a / cfg.PageSize) * cfg.PageSize + a % cfg.PageSize]? = some b) ∧
        (va ≤ a ∧ (a : Int) < va + size →
          readAt w.space.executable (fa + ((a : Int) - va)) = none →
            mem1[fr (a / cfg.PageSize) * cfg.PageSize + a % cfg.PageSize]? =
              w.machine.mainMemory[fr (a / cfg.PageSize) * cfg.PageSize + a % cfg.PageSize]?) ∧
        (¬ (va ≤ a ∧ (a : Int) < va + size) →
          mem1[fr (a / cfg.PageSize) * cfg.PageSize + a % cfg.PageSize]? =
            w.machine.mainMemory[fr (a / cfg.PageSize) * cfg.PageSize + a % cfg.PageSize]?)) ∧
      (∀ c, (∀ a, a < N * cfg.PageSize →
          c ≠ fr (a / cfg.PageSize) * cfg.PageSize + a % cfg.PageSize) →
        mem1[c]? = w.machine.mainMemory[c]?) := by
  by_cases hsz : size > 0
  · obtain ⟨hva, hend⟩ := hseg hsz
    lift va to Nat using hva
    lift size to Nat using (by omega)
    have hrange : ∀ i, i < size → va + i < N * cfg.PageSize := fun i hi => by
      have : ((va + size : Nat) : Int) ≤ ((N * cfg.PageSize : Nat) : Int) := by
        push_cast; push_cast at hend; exact hend
      have := Int.ofNat_le.mp this
      omega
    obtain ⟨mem1, hrun, hlen, hsome, hnone, hother⟩ := copyLoop_spec cfg hP w va fa fr size
      (fun i hi => hpt _ (page_lt (hrange i hi)))
      (fun i j hi hj hij => hinj _ _ (page_lt (hrange i hi)) (page_lt (hrange j hj)) hij)
    refine ⟨mem1, ?_, hlen, ?_, ?_⟩
    · rw [if_pos hsz]
      unfold CopyToMemory
      rw [if_neg (by omega)]
      simpa using hrun
    · intro a ha
      refine ⟨?_, ?_, ?_⟩
      · rintro ⟨h1, h2⟩ b hb
        have h1n : va ≤ a := by exact_mod_cast h1
        have h2n : a - va < size := by omega
        have hidx : ((a : Int) - (va : Int)) = ((a - va : Nat) : Int) := by omega
        rw [hidx] at hb
        have := hsome (a - va) h2n b hb
        rwa [Nat.add_sub_cancel' h1n] at this
      · rintro ⟨h1, h2⟩ hb
        have h1n : va ≤ a := by exact_mod_cast h1
        have h2n : a - va < size := by omega
        have hidx : ((a : Int) - (va : Int)) = ((a - va : Nat) : Int) := by omega
        rw [hidx] at hb
        have := hnone (a - va) h2n hb
        rwa [Nat.add_sub_cancel' h1n] at this
      · intro hout
        apply hother
        intro i hi
        apply target_ne hP fr a (va + i) (by omega)
        exact hinj _ _ (page_lt ha) (page_lt (hrange i hi))
    · intro c hc
      exact hother c (fun i hi => hc (va + i) (hrange i hi))
  · refine ⟨w.machine.mainMemory, by rw [if_neg hsz], rfl, ?_, fun _ _ => rfl⟩
    intro a _
    exact ⟨fun h => absurd h (by omega), fun _ _ => rfl, fun _ => rfl⟩

/-- Direct-mode construction from a header whose two file-backed segments lie
inside the address space, on a machine whose memory holds a frame for every bit
of the bitmap: the constructor runs to its end; every page is valid and mapped,
through `fr`, to a frame of its own that was free before; and the cell backing
an address holds the data byte, else the code byte, else zero. -/
theorem construct_direct_spec (cfg : Config) (hP : 0 < cfg.PageSize) (executable : List Nat)
    (hdr : NoffHeader) (junk : TranslationEntry) (w : World) (hdirect : cfg.USE_TLB = false)
    (hmagic : (normalizeHeader cfg hdr).noffMagic = cfg.NOFFMAGIC)
    (hframes : numPagesOf cfg (normalizeHeader cfg hdr) ≤ NumClear w.memoryBitMap)
    (hmem : w.memoryBitMap.length * cfg.PageSize ≤ w.machine.mainMemory.length)
    (hcode : (normalizeHeader cfg hdr).code.size > 0 →
      0 ≤ (normalizeHeader cfg hdr).code.virtualAddr ∧
      (normalizeHeader cfg hdr).code.virtualAddr + (normalizeHeader cfg hdr).code.size ≤
        ((numPagesOf cfg (normalizeHeader cfg hdr) * cfg.PageSize : Nat) : Int))
    (hdata : (normalizeHeader cfg hdr).initData.size > 0 →
      0 ≤ (normalizeHeader cfg hdr).initData.virtualAddr ∧
      (normalizeHeader cfg hdr).initData.virtualAddr + (normalizeHeader cfg hdr).initData.size ≤
        ((numPagesOf cfg (normalizeHeader cfg hdr) * cfg.PageSize : Nat) : Int)) :
    ∃ (w1 : World) (fr : Nat → Nat),
      construct cfg executable hdr junk w = .ok w1 ∧
      w1.space.noffH = normalizeHeader cfg hdr ∧
      w1.space.numPages = numPagesOf cfg (normalizeHeader cfg hdr) ∧
      w1.space.executable = executable ∧
      w1.space.pageTable.length = w1.space.numPages ∧
      w1.machine.mainMemory.length = w.machine.mainMemory.length ∧
      (∀ p, p < w1.space.numPages →
        w1.space.pageTable[p]? = some ⟨(p : Int), (fr p : Int), true, false, false, false⟩ ∧
        (fr p + 1) * cfg.PageSize ≤ w.machine.mainMemory.length ∧
        w.memoryBitMap[fr p]? = some false ∧ w1.memoryBitMap[fr p]? = some true) ∧
      (∀ p q, p < w1.space.numPages → q < w1.space.numPages → p ≠ q → fr p ≠ fr q) ∧
      (∀ a : Nat, a < w1.space.numPages * cfg.PageSize →
        (inData w1.space.noffH a = true → ∀ b,
          readAt executable (w1.space.noffH.initData.inFileAddr +
            ((a : Int) - w1.space.noffH.initData.virtualAddr)) = some b →
          w1.machine.mainMemory[fr (a / cfg.PageSize) * cfg.PageSize + a % cfg.PageSize]? =
            some b) ∧
        (inCode w1.space.noffH a = true → inData w1.space.noffH a = false → ∀ b,
          readAt executable (w1.space.noffH.code.inFileAddr +
            ((a : Int) - w1.space.noffH.code.virtualAddr)) = some b →
          w1.machine.mainMemory[fr (a / cfg.PageSize) * cfg.PageSize + a % cfg.PageSize]? =
            some b) ∧
        (inCode w1.space.noffH a = false → inData w1.space.noffH a = false →
          w1.machine.mainMemory[fr (a / cfg.PageSize) * cfg.PageSize + a % cfg.PageSize]? =
            some 0)) := by
  -- the allocation loop
  obtain ⟨pt, bm, fr, hrunA, hlenA, hblA, _, hlowA, _, _, hinjA⟩ := forLoop_directInitEntry
    { space :=
        { executable := executable, noffH := normalizeHeader cfg hdr,
          numPages := numPagesOf cfg (normalizeHeader cfg hdr),
          pageTable := List.replicate (numPagesOf cfg (normalizeHeader cfg hdr)) junk,
          last_modify := w.space.last_modify, argc := w.space.argc, argv := w.space.argv },
      memoryBitMap := w.memoryBitMap, machine := w.machine }
    (numPagesOf cfg (normalizeHeader cfg hdr)) (by simp) hframes
  simp only [List.length_replicate] at hlenA
  have hframe : ∀ p, p < numPagesOf cfg (normalizeHeader cfg hdr) →
      (fr p + 1) * cfg.PageSize ≤ w.machine.mainMemory.length := fun p hp => by
    have h1 : fr p + 1 ≤ w.memoryBitMap.length := (hlowA p hp).2.1
    exact le_trans (Nat.mul_le_mul_right _ h1) hmem
  have hpt : ∀ p, p < numPagesOf cfg (normalizeHeader cfg hdr) →
      ∃ e, pt[p]? = some e ∧ e.physicalPage = (fr p : Int) ∧
        (fr p + 1) * cfg.PageSize ≤ w.machine.mainMemory.length := fun p hp =>
    ⟨_, (hlowA p hp).1, rfl, hframe p hp⟩
  -- the zeroing loop
  obtain ⟨memB, hrunB, hlenB, hzeroB, _⟩ := forLoop_zeroPage cfg
    { space :=
        { executable := executable, noffH := normalizeHeader cfg hdr,
          numPages := numPagesOf cfg (normalizeHeader cfg hdr),
          pageTable := pt,
          last_modify := w.space.last_modify, argc := w.space.argc, argv := w.space.argv },
      memoryBitMap := bm, machine := w.machine }
    fr (numPagesOf cfg (normalizeHeader cfg hdr)) hpt
  -- the two copies
  obtain ⟨memC, hrunC, hlenC, hcellC, _⟩ := CopyToMemory_segment cfg hP
    { space :=
        { executable := executable, noffH := normalizeHeader cfg hdr,
          numPages := numPagesOf cfg (normalizeHeader cfg hdr),
          pageTable := pt,
          last_modify := w.space.last_modify, argc := w.space.argc, argv := w.space.argv },
      memoryBitMap := bm, machine := { w.machine with mainMemory := memB } }
    (numPagesOf cfg (normalizeHeader cfg hdr)) fr
    (normalizeHeader cfg hdr).code.virtualAddr (normalizeHeader cfg hdr).code.inFileAddr
    (normalizeHeader cfg hdr).code.size
    (fun p hp => ⟨_, (hlowA p hp).1, rfl, by show _ ≤ memB.length; rw [hlenB]; exact hframe p hp⟩)
    hinjA hcode
  obtain ⟨memD, hrunD, hlenD, hcellD, _⟩ := CopyToMemory_segment cfg hP
    { space :=
        { executable := executable, noffH := normalizeHeader cfg hdr,
          numPages := numPagesOf cfg (normalizeHeader cfg hdr),
          pageTable := pt,
          last_modify := w.space.last_modify, argc := w.space.argc, argv := w.space.argv },
      memoryBitMap := bm, machine := { w.machine with mainMemory := memC } }
    (numPagesOf cfg (normalizeHeader cfg hdr)) fr
    (normalizeHeader cfg hdr).initData.virtualAddr (normalizeHeader cfg hdr).initData.inFileAddr
    (normalizeHeader cfg hdr).initData.size
    (fun p hp => ⟨_, (hlowA p hp).1, rfl, by
      show _ ≤ memC.length; rw [hlenC]; show _ ≤ memB.length; rw [hlenB]; exact hframe p hp⟩)
    hinjA hdata
  refine ⟨
    { space :=
        { executable := executable, noffH := normalizeHeader cfg hdr,
          numPages := numPagesOf cfg (normalizeHeader cfg hdr),
          pageTable := pt,
          last_modify := w.space.last_modify, argc := w.space.argc, argv := w.space.argv },
      memoryBitMap := bm, machine := { w.machine with mainMemory := memD } },
    fr, ?_, rfl, rfl, rfl, hlenA, ?_, ?_, hinjA, ?_⟩
  · unfold construct
    simp only [hmagic, ne_eq, not_true_eq_false, if_false, hdirect]
    rw [if_neg (by omega)]
    simp only [Bool.false_eq_true, if_false]
    rw [hrunA]
    simp only [Outcome.bind]
    rw [hrunB]
    simp only [Outcome.bind, copyCode]
    rw [hrunC]
    simp only [Outcome.bind, copyInitData]
    rw [hrunD]
  · show memD.length = _
    rw [hlenD]; show memC.length = _
    rw [hlenC]; show memB.length = _
    rw [hlenB]
  · intro p hp
    obtain ⟨h1, _, h3, h4⟩ := hlowA p hp
    exact ⟨h1, hframe p hp, h3, h4⟩
  · intro a ha
    obtain ⟨hC1, hC2, hC3⟩ := hcellC a ha
    obtain ⟨hD1, hD2, hD3⟩ := hcellD a ha
    have hz := hzeroB (a / cfg.PageSize) (a % cfg.PageSize) (page_lt ha) (Nat.mod_lt a hP)
    refine ⟨?_, ?_, ?_⟩
    · intro hd b hb
      simp only [inData, decide_eq_true_eq, ge_iff_le] at hd
      exact hD1 hd b hb
    · intro hc hd b hb
      simp only [inData, decide_eq_false_iff_not, ge_iff_le] at hd
      simp only [inCode, decide_eq_true_eq, ge_iff_le] at hc
      exact (hD3 hd).trans (hC1 hc b hb)
    · intro hc hd
      simp only [inData, decide_eq_false_iff_not, ge_iff_le] at hd
      simp only [inCode, decide_eq_false_iff_not, ge_iff_le] at hc
      exact ((hD3 hd).trans (hC3 hc)).trans hz

/-- C5: `CopyToMemory(virtualAddr, inFileAddr, size)` on a range every page of
which is mapped (through `fr`) to a frame of its own inside memory runs to its
end; for every `i` below `size` the cell
`frame * PageSize + (virtualAddr + i) mod PageSize` of the page of
`virtualAddr + i` holds the file byte at `inFileAddr + i` (where the file has
one), whether or not the range starts or ends inside a page or spans several
pages, and every cell outside those positions, like the rest of the state, is
unchanged. Hence after direct-mode construction from a header whose code and
initialized data lie inside the address space, the cells backing the
initialized data hold its file bytes, and the cells backing code not overlaid
by data hold the code's file bytes. -/
theorem C5_copy_fidelity (cfg : Config) (hP : 0 < cfg.PageSize) :
    (∀ (w : World) (virtualAddr size : Nat) (inFileAddr : Int) (fr : Nat → Nat),
      (∀ i, i < size →
        (w.space.pageTable[(virtualAddr + i) / cfg.PageSize]?).map
            TranslationEntry.physicalPage =
          some (fr ((virtualAddr + i) / cfg.PageSize) : Int) ∧
        (fr ((virtualAddr + i) / cfg.PageSize) + 1) * cfg.PageSize ≤
          w.machine.mainMemory.length) →
      (∀ i j, i < size → j < size →
        (virtualAddr + i) / cfg.PageSize ≠ (virtualAddr + j) / cfg.PageSize →
        fr ((virtualAddr + i) / cfg.PageSize) ≠ fr ((virtualAddr + j) / cfg.PageSize)) →
      ∃ w1 : World,
        CopyToMemory cfg virtualAddr inFileAddr size w = .ok w1 ∧
        w1.space = w.space ∧ w1.memoryBitMap = w.memoryBitMap ∧
        w1.machine.registers = w.machine.registers ∧ w1.machine.tlb = w.machine.tlb ∧
        w1.machine.mainMemory.length = w.machine.mainMemory.length ∧
        (∀ i, i < size → ∀ b, readAt w.space.executable (inFileAddr + i) = some b →
          w1.machine.mainMemory[fr ((virtualAddr + i) / cfg.PageSize) * cfg.PageSize +
            (virtualAddr + i) % cfg.PageSize]? = some b) ∧
        (∀ c, (∀ i, i < size → c ≠ fr ((virtualAddr + i) / cfg.PageSize) * cfg.PageSize +
            (virtualAddr + i) % cfg.PageSize) →
          w1.machine.mainMemory[c]? = w.machine.mainMemory[c]?)) ∧
    (∀ (executable : List Nat) (hdr : NoffHeader) (junk : TranslationEntry) (w : World),
      cfg.USE_TLB = false →
      (normalizeHeader cfg hdr).noffMagic = cfg.NOFFMAGIC →
      numPagesOf cfg (normalizeHeader cfg hdr) ≤ NumClear w.memoryBitMap →
      w.memoryBitMap.length * cfg.PageSize ≤ w.machine.mainMemory.length →
      ((normalizeHeader cfg hdr).code.size > 0 →
        0 ≤ (normalizeHeader cfg hdr).code.virtualAddr ∧
        (normalizeHeader cfg hdr).code.virtualAddr + (normalizeHeader cfg hdr).code.size ≤
          ((numPagesOf cfg (normalizeHeader cfg hdr) * cfg.PageSize : Nat) : Int)) →
      ((normalizeHeader cfg hdr).initData.size > 0 →
        0 ≤ (normalizeHeader cfg hdr).initData.virtualAddr ∧
        (normalizeHeader cfg hdr).initData.virtualAddr +
            (normalizeHeader cfg hdr).initData.size ≤
          ((numPagesOf cfg (normalizeHeader cfg hdr) * cfg.PageSize : Nat) : Int)) →
      ∃ (w1 : World) (fr : Nat → Nat),
        construct cfg executable hdr junk w = .ok w1 ∧
        (∀ p, p < w1.space.numPages →
          (w1.space.pageTable[p]?).map TranslationEntry.physicalPage = some (fr p : Int)) ∧
        (∀ a : Nat, a < w1.space.numPages * cfg.PageSize →
          (inData w1.space.noffH a = true → ∀ b,
            readAt executable (w1.space.noffH.initData.inFileAddr +
              ((a : Int) - w1.space.noffH.initData.virtualAddr)) = some b →
            w1.machine.mainMemory[fr (a / cfg.PageSize) * cfg.PageSize + a % cfg.PageSize]? =
              some b) ∧
          (inCode w1.space.noffH a = true → inData w1.space.noffH a = false → ∀ b,
            readAt executable (w1.space.noffH.code.inFileAddr +
              ((a : Int) - w1.space.noffH.code.virtualAddr)) = some b →
            w1.machine.mainMemory[fr (a / cfg.PageSize) * cfg.PageSize + a % cfg.PageSize]? =
              some b))) := by
  constructor
  · intro w va size fa fr hmap hinj
    have hmap1 : ∀ i, i < size → ∃ e, w.space.pageTable[(va + i) / cfg.PageSize]? = some e ∧
        e.physicalPage = (fr ((va + i) / cfg.PageSize) : Int) ∧
        (fr ((va + i) / cfg.PageSize) + 1) * cfg.PageSize ≤ w.machine.mainMemory.length := by
      intro i hi
      obtain ⟨h1, h2⟩ := hmap i hi
      cases he : w.space.pageTable[(va + i) / cfg.PageSize]? with
      | none => rw [he] at h1; cases h1
      | some e =>
        rw [he] at h1
        exact ⟨e, rfl, Option.some.inj h1, h2⟩
    obtain ⟨mem1, hrun, hlen, hsome, _, hother⟩ := copyLoop_spec cfg hP w va fa fr size hmap1 hinj
    refine ⟨{ w with machine := { w.machine with mainMemory := mem1 } }, ?_, rfl, rfl, rfl, rfl,
      hlen, hsome, hother⟩
    unfold CopyToMemory
    rw [if_neg (by omega)]
    simpa using hrun
  · intro executable hdr junk w hdirect hmagic hframes hmem hcode hdata
    obtain ⟨w1, fr, hrun, _, _, _, _, _, hpt, _, hcells⟩ :=
      construct_direct_spec cfg hP executable hdr junk w hdirect hmagic hframes hmem hcode hdata
    refine ⟨w1, fr, hrun, ?_, ?_⟩
    · intro p hp
      rw [(hpt p hp).1]
      rfl
    · intro a ha
      exact ⟨(hcells a ha).1, (hcells a ha).2.1⟩

/-- Five bytes copied to addresses 2 to 6 of `loadedWorld`, a range that starts
inside page 0 and ends inside page 1; and the constructor in direct mode. -/
theorem C5_copy_fidelity_witness :
    0 < (smallConfig false id).PageSize ∧
    (∀ i, i < 5 →
      (loadedWorld.space.pageTable[(2 + i) / (smallConfig false id).PageSize]?).map
          TranslationEntry.physicalPage =
        some (loadedFrames ((2 + i) / (smallConfig false id).PageSize) : Int) ∧
      (loadedFrames ((2 + i) / (smallConfig false id).PageSize) + 1) *
          (smallConfig false id).PageSize ≤ loadedWorld.machine.mainMemory.length) ∧
    (∃ w1 : World,
      CopyToMemory (smallConfig false id) ((2 : Nat) : Int) 20 ((5 : Nat) : Int) loadedWorld =
        .ok w1 ∧
      w1.machine.mainMemory[6]? = some 120 ∧ w1.machine.mainMemory[12]? = some 122 ∧
      w1.machine.mainMemory[5]? = loadedWorld.machine.mainMemory[5]?) ∧
    (smallConfig false id).USE_TLB = false ∧
    (normalizeHeader (smallConfig false id) smallHeader).noffMagic =
      (smallConfig false id).NOFFMAGIC ∧
    numPagesOf (smallConfig false id) (normalizeHeader (smallConfig false id) smallHeader) ≤
      NumClear smallWorld.memoryBitMap ∧
    smallWorld.memoryBitMap.length * (smallConfig false id).PageSize ≤
      smallWorld.machine.mainMemory.length ∧
    (∃ w1 : World,
      construct (smallConfig false id) smallFile smallHeader junkEntry smallWorld = .ok w1) :=
  ⟨by decide, by decide,
    by
      obtain ⟨w1, hrun, _, _, _, _, _, hbytes, hrest⟩ :=
        (C5_copy_fidelity (smallConfig false id) (by decide)).1 loadedWorld 2 5 20 loadedFrames
          (by decide)
          (fun i j hi hj => by interval_cases i <;> interval_cases j <;> decide)
      exact ⟨w1, hrun, hbytes 0 (by decide) 120 (by decide), hbytes 2 (by decide) 122 (by decide),
        hrest 5 (fun i hi => by interval_cases i <;> decide)⟩,
    by decide, by decide, by decide, by decide,
    by
      obtain ⟨w1, _, hrun, _⟩ :=
        (C5_copy_fidelity (smallConfig false id) (by decide)).2 smallFile smallHeader junkEntry
          smallWorld (by decide) (by decide) (by decide) (by decide) (by decide) (by decide)
      exact ⟨w1, hrun⟩⟩

/-! ## `LoadPage` -/

/-- A one-byte `CopyToMemory` at a non-negative address whose page is mapped to
a frame inside memory. -/
theorem CopyToMemory_one (cfg : Config) (hP : 0 < cfg.PageSize) (w : World) (va : Nat)
    (fa : Int) (f : Nat) (e : TranslationEntry)
    (he : w.space.pageTable[va / cfg.PageSize]? = some e) (hf : e.physicalPage = (f : Int))
    (hin : (f + 1) * cfg.PageSize ≤ w.machine.mainMemory.length) :
    ∃ mem1 : List Nat,
      CopyToMemory cfg (va : Int) fa 1 w =
        .ok { w with machine := { w.machine with mainMemory := mem1 } } ∧
      mem1.length = w.machine.mainMemory.length ∧
      mem1[f * cfg.PageSize + va % cfg.PageSize]? =
        (w.machine.mainMemory[f * cfg.PageSize + va % cfg.PageSize]?).map
          (fun old => (readAt w.space.executable fa).getD old) ∧
      (∀ c, c ≠ f * cfg.PageSize + va % cfg.PageSize → mem1[c]? = w.machine.mainMemory[c]?) := by
  have hstep := copyByte_mapped cfg hP w va fa 0 f e (by simpa using he) hf hin _ rfl
  have hlt : f * cfg.PageSize + va % cfg.PageSize < w.machine.mainMemory.length := by
    have h1 := Nat.mod_lt va hP
    have h2 : (f + 1) * cfg.PageSize = f * cfg.PageSize + cfg.PageSize := by ring
    omega
  simp only [Nat.cast_zero, add_zero, Nat.add_zero] at hstep
  refine ⟨(readAt w.space.executable fa).elim w.machine.mainMemory (fun b =>
    w.machine.mainMemory.set (f * cfg.PageSize + va % cfg.PageSize) b), ?_, ?_, ?_, ?_⟩
  · unfold CopyToMemory
    rw [if_neg (by decide)]
    show (forLoop 0 (copyByte cfg va fa) w).bind (copyByte cfg va fa 0) = _
    simp only [forLoop, Outcome.bind, Nat.cast_zero, add_zero]
    exact hstep
  · cases readAt w.space.executable fa with
    | none => rfl
    | some b => simp [Option.elim]
  · cases readAt w.space.executable fa with
    | none => simp [Option.elim]
    | some b =>
      simp only [Option.elim, Option.getD_some]
      rw [List.getElem?_set_self hlt, List.getElem?_eq_getElem hlt]
      rfl
  · intro c hc
    cases readAt w.space.executable fa with
    | none => rfl
    | some b =>
      simp only [Option.elim]
      exact List.getElem?_set_ne (Ne.symm hc)

theorem page_offset {P : Nat} (hP : 0 < P) (p i : Nat) (hi : i < P) :
    (p * P + i) / P = p ∧ (p * P + i) % P = i := by
  constructor
  · rw [Nat.add_comm, Nat.add_mul_div_right _ _ hP, Nat.div_eq_of_lt hi]; simp
  · rw [Nat.add_comm, Nat.add_mul_mod_self_right, Nat.mod_eq_of_lt hi]

/-- One iteration of the loop of `LoadPage` on a page that is mapped to frame
`f`: only the cell of byte `i` of the frame can change, and it receives
`loadedByte`. -/
theorem loadByte_spec (cfg : Config) (hP : 0 < cfg.PageSize) (w : World) (page i f : Nat)
    (e : TranslationEntry) (hi : i < cfg.PageSize)
    (he : w.space.pageTable[page]? = some e) (hf : e.physicalPage = (f : Int))
    (hin : (f + 1) * cfg.PageSize ≤ w.machine.mainMemory.length) :
    ∃ mem1 : List Nat,
      loadByte cfg ((page * cfg.PageSize : Nat) : Int) i w =
        .ok { w with machine := { w.machine with mainMemory := mem1 } } ∧
      mem1.length = w.machine.mainMemory.length ∧
      mem1[f * cfg.PageSize + i]? =
        (w.machine.mainMemory[f * cfg.PageSize + i]?).map
          (loadedByte w.space.noffH w.space.executable ((page * cfg.PageSize + i : Nat) : Int)) ∧
      (∀ c, c ≠ f * cfg.PageSize + i → mem1[c]? = w.machine.mainMemory[c]?) := by
  obtain ⟨hdiv, hmod⟩ := page_offset hP page i hi
  have hadd : ((page * cfg.PageSize : Nat) : Int) + (i : Int) =
      ((page * cfg.PageSize + i : Nat) : Int) := by push_cast; rfl
  -- the code byte
  obtain ⟨memC, hrunC, hlenC, hcellC, hrestC⟩ := CopyToMemory_one cfg hP w
    (page * cfg.PageSize + i)
    (w.space.noffH.code.inFileAddr +
      (((page * cfg.PageSize + i : Nat) : Int) - w.space.noffH.code.virtualAddr))
    f e (by rw [hdiv]; exact he) hf hin
  rw [hmod] at hcellC hrestC
  -- the data byte, after either outcome of the code test
  have hdataStep : ∀ mem0 : List Nat, mem0.length = w.machine.mainMemory.length →
      ∃ mem1 : List Nat,
        CopyToMemory cfg ((page * cfg.PageSize + i : Nat) : Int)
          (w.space.noffH.initData.inFileAddr +
            (((page * cfg.PageSize + i : Nat) : Int) - w.space.noffH.initData.virtualAddr)) 1
          { w with machine := { w.machine with mainMemory := mem0 } } =
          .ok { w with machine := { w.machine with mainMemory := mem1 } } ∧
        mem1.length = mem0.length ∧
        mem1[f * cfg.PageSize + i]? = (mem0[f * cfg.PageSize + i]?).map
          (fun old => (readAt w.space.executable (w.space.noffH.initData.inFileAddr +
            (((page * cfg.PageSize + i : Nat) : Int) -
              w.space.noffH.initData.virtualAddr))).getD old) ∧
        (∀ c, c ≠ f * cfg.PageSize + i → mem1[c]? = mem0[c]?) := by
    intro mem0 hlen0
    obtain ⟨mem1, h1, h2, h3, h4⟩ := CopyToMemory_one cfg hP
      { w with machine := { w.machine with mainMemory := mem0 } }
      (page * cfg.PageSize + i)
      (w.space.noffH.initData.inFileAddr +
        (((page * cfg.PageSize + i : Nat) : Int) - w.space.noffH.initData.virtualAddr))
      f e (by rw [hdiv]; exact he) hf (by show _ ≤ mem0.length; rw [hlen0]; exact hin)
    rw [hmod] at h3 h4
    exact ⟨mem1, h1, h2, h3, h4⟩
  have hposC : w.space.noffH.code.inFileAddr +
      (((page * cfg.PageSize : Nat) : Int) - w.space.noffH.code.virtualAddr + (i : Int)) =
      w.space.noffH.code.inFileAddr +
        (((page * cfg.PageSize + i : Nat) : Int) - w.space.noffH.code.virtualAddr) := by
    push_cast; ring
  have hposD : w.space.noffH.initData.inFileAddr +
      (((page * cfg.PageSize : Nat) : Int) - w.space.noffH.initData.virtualAddr + (i : Int)) =
      w.space.noffH.initData.inFileAddr +
        (((page * cfg.PageSize + i : Nat) : Int) - w.space.noffH.initData.virtualAddr) := by
    push_cast; ring
  unfold loadByte
  rw [hadd, hposC]
  by_cases hc : isCode w.space.noffH ((page * cfg.PageSize + i : Nat) : Int) = true
  · rw [if_pos hc, hrunC]
    simp only [Outcome.bind]
    rw [hposD]
    by_cases hd : isData w.space.noffH ((page * cfg.PageSize + i : Nat) : Int) = true
    · rw [if_pos hd]
      obtain ⟨mem1, h1, h2, h3, h4⟩ := hdataStep memC hlenC
      refine ⟨mem1, h1, by rw [h2, hlenC], ?_, fun c hcne => (h4 c hcne).trans (hrestC c hcne)⟩
      rw [h3, hcellC, Option.map_map]
      congr 1
      funext old
      simp only [loadedByte, hc, hd, if_true, if_false, Function.comp_apply, Bool.false_eq_true]
    · rw [if_neg hd]
      refine ⟨memC, rfl, hlenC, ?_, hrestC⟩
      rw [hcellC]
      congr 1
      funext old
      simp only [loadedByte, hc, hd, if_true, if_false, Function.comp_apply, Bool.false_eq_true]
  · rw [if_neg hc]
    simp only [Outcome.bind]
    rw [hposD]
    by_cases hd : isData w.space.noffH ((page * cfg.PageSize + i : Nat) : Int) = true
    · rw [if_pos hd]
      obtain ⟨mem1, h1, h2, h3, h4⟩ := hdataStep w.machine.mainMemory rfl
      refine ⟨mem1, h1, h2, ?_, h4⟩
      rw [h3]
      congr 1
      funext old
      simp only [loadedByte, hc, hd, if_true, if_false, Function.comp_apply, Bool.false_eq_true]
    · rw [if_neg hd]
      refine ⟨w.machine.mainMemory, rfl, rfl, ?_, fun _ _ => rfl⟩
      have : loadedByte w.space.noffH w.space.executable
          ((page * cfg.PageSize + i : Nat) : Int) = id := by
        funext old
        simp only [loadedByte, hc, hd, if_true, if_false, Function.comp_apply, Bool.false_eq_true]
        rfl
      rw [this, Option.map_id]
      rfl

/-- After `n` iterations of the loop of `LoadPage` on a page mapped to frame
`f`, the first `n` cells of the frame hold `loadedByte` of what they held and
no other cell has changed. -/
theorem forLoop_loadByte (cfg : Config) (hP : 0 < cfg.PageSize) (w : World) (page f : Nat)
    (e : TranslationEntry) (he : w.space.pageTable[page]? = some e)
    (hf : e.physicalPage = (f : Int))
    (hin : (f + 1) * cfg.PageSize ≤ w.machine.mainMemory.length) (n : Nat)
    (hn : n ≤ cfg.PageSize) :
    ∃ mem1 : List Nat,
      forLoop n (loadByte cfg ((page * cfg.PageSize : Nat) : Int)) w =
        .ok { w with machine := { w.machine with mainMemory := mem1 } } ∧
      mem1.length = w.machine.mainMemory.length ∧
      (∀ o, o < n → mem1[f * cfg.PageSize + o]? =
        (w.machine.mainMemory[f * cfg.PageSize + o]?).map
          (loadedByte w.space.noffH w.space.executable ((page * cfg.PageSize + o : Nat) : Int))) ∧
      (∀ c, (∀ o, o < n → c ≠ f * cfg.PageSize + o) → mem1[c]? = w.machine.mainMemory[c]?) := by
  induction n with
  | zero =>
    exact ⟨w.machine.mainMemory, rfl, rfl, fun o ho => absurd ho (Nat.not_lt_zero o),
      fun _ _ => rfl⟩
  | succ n ih =>
    obtain ⟨mem0, hrun, hlen, hcells, hrest⟩ := ih (by omega)
    obtain ⟨mem1, hstep, hlen1, hcell1, hrest1⟩ := loadByte_spec cfg hP
      { w with machine := { w.machine with mainMemory := mem0 } } page n f e (by omega) he hf
      (by show _ ≤ mem0.length; rw [hlen]; exact hin)
    refine ⟨mem1, ?_, by rw [hlen1]; exact hlen, ?_, ?_⟩
    · show (forLoop n _ w).bind (loadByte cfg _ n) = _
      rw [hrun]
      exact hstep
    · intro o ho
      by_cases hon : o = n
      · subst hon
        rw [hcell1]
        show Option.map _ mem0[_]? = _
        rw [hrest _ (fun o1 ho1 => by omega)]
      · rw [hrest1 _ (by omega)]
        exact hcells o (by omega)
    · intro c hc
      rw [hrest1 c (hc n (by omega))]
      exact hrest c (fun o ho => hc o (by omega))

theorem intValue_of_fits (x : Int) (h : -2147483648 ≤ x ∧ x < 2147483648) :
    intValue x = x := by
  unfold intValue toInt32 toUInt32
  split <;> omega

theorem isCode_eq_inCode (noffH : NoffHeader) (h : SumsFit noffH) (a : Int) :
    isCode noffH a = inCode noffH a := by
  unfold isCode inCode
  rw [intValue_of_fits _ h.1]

theorem isData_eq_inData (noffH : NoffHeader) (h : SumsFit noffH) (a : Int) :
    isData noffH a = inData noffH a := by
  unfold isData inData
  rw [intValue_of_fits _ h.2]

theorem FindValue_some (bm bm1 : List Bool) (f : Nat) (h : Find bm = some (f, bm1)) :
    FindValue bm = ((f : Int), bm1) := by
  unfold FindValue
  rw [h]

theorem FindValue_none (bm : List Bool) (h : Find bm = none) : FindValue bm = (-1, bm) := by
  unfold FindValue
  rw [h]

theorem zeroFrame_nat (cfg : Config) (mem : List Nat) (f : Nat) :
    zeroFrame cfg mem (f : Int) = zeroRange mem (f * cfg.PageSize) cfg.PageSize := by
  unfold zeroFrame
  rw [if_pos (Int.natCast_nonneg f), ← Nat.cast_mul, Int.toNat_natCast]

theorem zeroFrame_marker (cfg : Config) (mem : List Nat) : zeroFrame cfg mem (-1) = mem := by
  unfold zeroFrame
  rw [if_neg (by decide)]

/-- `LoadPage` on a page of the table that is unmapped, with a free frame: the
allocator's frame is zeroed and filled, the entry becomes valid with that
frame, and nothing else changes. -/
theorem LoadPage_fresh (cfg : Config) (hP : 0 < cfg.PageSize) (w : World) (badAddr : Int)
    (e : TranslationEntry) (f : Nat) (bm1 : List Bool)
    (he : w.space.pageTable[virtPageOf cfg badAddr]? = some e)
    (hunmapped : e.physicalPage = -1)
    (hF : Find w.memoryBitMap = some (f, bm1))
    (hmem : w.memoryBitMap.length * cfg.PageSize ≤ w.machine.mainMemory.length)
    (hsmall : virtPageOf cfg badAddr * cfg.PageSize < 2147483648) :
    ∃ mem1 : List Nat,
      LoadPage cfg badAddr w = .ok
        { space := { w.space with
            pageTable := w.space.pageTable.set (virtPageOf cfg badAddr)
              { e with physicalPage := f, valid := true } }
          memoryBitMap := bm1
          machine := { w.machine with mainMemory := mem1 } } ∧
      mem1.length = w.machine.mainMemory.length ∧
      (∀ o, o < cfg.PageSize → mem1[f * cfg.PageSize + o]? =
        some (loadedByte w.space.noffH w.space.executable
          ((virtPageOf cfg badAddr * cfg.PageSize + o : Nat) : Int) 0)) ∧
      (∀ c, ¬ (f * cfg.PageSize ≤ c ∧ c < f * cfg.PageSize + cfg.PageSize) →
        mem1[c]? = w.machine.mainMemory[c]?) := by
  have hlt : virtPageOf cfg badAddr < w.space.pageTable.length := by
    by_contra hge
    rw [List.getElem?_eq_none (by omega)] at he
    cases he
  have hfin : (f + 1) * cfg.PageSize ≤ w.machine.mainMemory.length :=
    le_trans (Nat.mul_le_mul_right _ (Find_some _ _ _ hF).1) hmem
  have hz := bzero_frame w.machine.mainMemory f cfg.PageSize hfin
  obtain ⟨mem1, hrun, hlen, hcells, hrest⟩ := forLoop_loadByte cfg hP
    { space := { w.space with
        pageTable := w.space.pageTable.set (virtPageOf cfg badAddr)
          { e with physicalPage := f, valid := true } }
      memoryBitMap := bm1
      machine := { w.machine with
        mainMemory := zeroRange w.machine.mainMemory (f * cfg.PageSize) cfg.PageSize } }
    (virtPageOf cfg badAddr) f { e with physicalPage := f, valid := true }
    (List.getElem?_set_self hlt) rfl
    (by show _ ≤ (zeroRange _ _ _).length; rw [zeroRange_length]; exact hfin)
    cfg.PageSize (le_refl _)
  refine ⟨mem1, ?_, by rw [hlen]; exact zeroRange_length _ _ _, ?_, ?_⟩
  · unfold LoadPage
    simp only [he, hunmapped, if_true, FindValue_some _ _ _ hF, zeroFrame_nat,
      toInt32_of_lt hsmall]
    simp only [Outcome.bind, updEntry, List.getElem?_set_self hlt, List.set_set]
    exact hrun
  · intro o ho
    rw [hcells o ho]
    show Option.map _ (zeroRange _ _ _)[_]? = _
    rw [zeroRange_inside _ _ _ _ (by omega) (by omega) (by
      have : (f + 1) * cfg.PageSize = f * cfg.PageSize + cfg.PageSize := by ring
      omega)]
    rfl
  · intro c hc
    rw [hrest c (fun o ho => by omega)]
    exact zeroRange_outside _ _ _ _ hc

/-- C6: a fault on an address whose page is within `numPages` and unmapped,
with a free frame, with code and initialized data not overlapping and with a
header whose `int` sums `virtualAddr + size` do not overflow: `LoadPage`
runs to its end, the entry is valid with the frame `f` the allocator yields,
and for every offset `i` of the page, with `addr = page * PageSize + i`, the
cell `f * PageSize + i` holds the file byte at
`code.inFileAddr + (addr - code.virtualAddr)` when `addr` is in the code range,
and the file byte at `initData.inFileAddr + (addr - initData.virtualAddr)` when
`addr` is in the initialized-data range (where the file has that byte). -/
theorem C6_LoadPage_fidelity (cfg : Config) (hP : 0 < cfg.PageSize) (w : World)
    (badAddr : Int)
    (hpage : virtPageOf cfg badAddr < w.space.numPages)
    (hunmapped : (w.space.pageTable[virtPageOf cfg badAddr]?).map
      TranslationEntry.physicalPage = some (-1))
    (hfree : 0 < NumClear w.memoryBitMap)
    (hmem : w.memoryBitMap.length * cfg.PageSize ≤ w.machine.mainMemory.length)
    (hsmall : w.space.numPages * cfg.PageSize < 2147483648)
    (hsums : SumsFit w.space.noffH)
    (hdisj : ∀ a : Int, ¬ (inCode w.space.noffH a = true ∧ inData w.space.noffH a = true)) :
    ∃ (f : Nat) (bm1 : List Bool) (w1 : World),
      Find w.memoryBitMap = some (f, bm1) ∧
      LoadPage cfg badAddr w = .ok w1 ∧
      w1.memoryBitMap = bm1 ∧
      (w1.space.pageTable[virtPageOf cfg badAddr]?).map (fun e => (e.physicalPage, e.valid)) =
        some ((f : Int), true) ∧
      ∀ i, i < cfg.PageSize →
        (w.space.noffH.code.virtualAddr ≤
            ((virtPageOf cfg badAddr * cfg.PageSize + i : Nat) : Int) ∧
          ((virtPageOf cfg badAddr * cfg.PageSize + i : Nat) : Int) <
            w.space.noffH.code.virtualAddr + w.space.noffH.code.size →
          ∀ b, readAt w.space.executable (w.space.noffH.code.inFileAddr +
              (((virtPageOf cfg badAddr * cfg.PageSize + i : Nat) : Int) -
                w.space.noffH.code.virtualAddr)) = some b →
            w1.machine.mainMemory[f * cfg.PageSize + i]? = some b) ∧
        (w.space.noffH.initData.virtualAddr ≤
            ((virtPageOf cfg badAddr * cfg.PageSize + i : Nat) : Int) ∧
          ((virtPageOf cfg badAddr * cfg.PageSize + i : Nat) : Int) <
            w.space.noffH.initData.virtualAddr + w.space.noffH.initData.size →
          ∀ b, readAt w.space.executable (w.space.noffH.initData.inFileAddr +
              (((virtPageOf cfg badAddr * cfg.PageSize + i : Nat) : Int) -
                w.space.noffH.initData.virtualAddr)) = some b →
            w1.machine.mainMemory[f * cfg.PageSize + i]? = some b) := by
  cases he : w.space.pageTable[virtPageOf cfg badAddr]? with
  | none => rw [he] at hunmapped; cases hunmapped
  | some e =>
    rw [he] at hunmapped
    have hun : e.physicalPage = -1 := Option.some.inj hunmapped
    cases hF : Find w.memoryBitMap with
    | none => rw [Find_none_iff] at hF; omega
    | some p =>
      obtain ⟨f, bm1⟩ := p
      have hsm : virtPageOf cfg badAddr * cfg.PageSize < 2147483648 :=
        lt_of_le_of_lt (Nat.mul_le_mul_right _ (le_of_lt hpage)) hsmall
      obtain ⟨mem1, hrun, _, hcells, _⟩ := LoadPage_fresh cfg hP w badAddr e f bm1 he hun hF hmem hsm
      have hlt : virtPageOf cfg badAddr < w.space.pageTable.length := by
        by_contra hge
        rw [List.getElem?_eq_none (by omega)] at he
        cases he
      refine ⟨f, bm1, _, rfl, hrun, rfl, ?_, ?_⟩
      · show Option.map _ (List.set _ _ _)[_]? = _
        rw [List.getElem?_set_self hlt]
        rfl
      · intro i hi
        have hcell := hcells i hi
        constructor
        · intro hc b hb
          have hcode : isCode w.space.noffH
              ((virtPageOf cfg badAddr * cfg.PageSize + i : Nat) : Int) = true := by
            rw [isCode_eq_inCode _ hsums]
            simp only [inCode, decide_eq_true_eq, ge_iff_le]; exact hc
          have hdata : isData w.space.noffH
              ((virtPageOf cfg badAddr * cfg.PageSize + i : Nat) : Int) = false := by
            cases hd : isData w.space.noffH
              ((virtPageOf cfg badAddr * cfg.PageSize + i : Nat) : Int) with
            | false => rfl
            | true =>
              rw [isCode_eq_inCode _ hsums] at hcode
              rw [isData_eq_inData _ hsums] at hd
              exact absurd ⟨hcode, hd⟩ (hdisj _)
          show mem1[_]? = _
          rw [hcell]
          simp only [loadedByte, hcode, hdata, if_true, hb, Option.getD_some,
            Bool.false_eq_true, if_false]
        · intro hd b hb
          have hdata : isData w.space.noffH
              ((virtPageOf cfg badAddr * cfg.PageSize + i : Nat) : Int) = true := by
            rw [isData_eq_inData _ hsums]
            simp only [inData, decide_eq_true_eq, ge_iff_le]; exact hd
          show mem1[_]? = _
          rw [hcell]
          simp only [loadedByte, hdata, if_true, hb, Option.getD_some]

theorem C6_LoadPage_fidelity_witness :
    0 < (smallConfig true id).PageSize ∧
    virtPageOf (smallConfig true id) 5 < lazyWorld.space.numPages ∧
    0 < NumClear lazyWorld.memoryBitMap ∧
    SumsFit lazyWorld.space.noffH ∧
    ∃ w1 : World,
      LoadPage (smallConfig true id) 5 lazyWorld = .ok w1 ∧
      w1.machine.mainMemory[4]? = some 114 ∧ w1.machine.mainMemory[5]? = some 115 :=
  ⟨by decide, by decide, by decide, by decide,
    by
      obtain ⟨f, bm1, w1, hF, hrun, _, _, hbytes⟩ :=
        C6_LoadPage_fidelity (smallConfig true id) (by decide) lazyWorld 5
          (by decide) (by decide) (by decide) (by decide) (by decide) (by decide)
          (fun a => by
            have h1 : lazyWorld.space.noffH = smallHeader := by decide
            rw [h1]
            simp only [inCode, inData, smallHeader, decide_eq_true_eq]
            omega)
      have hf : f = 1 := by
        have h2 : Find lazyWorld.memoryBitMap =
            some (1, [true, true, true, false, false, false, false, false]) := by decide
        rw [h2] at hF
        simp only [Option.some.injEq, Prod.mk.injEq] at hF
        exact hF.1.symm
      subst hf
      exact ⟨w1, hrun, (hbytes 0 (by decide)).1 (by decide) 114 (by decide),
        (hbytes 1 (by decide)).2 (by decide) 115 (by decide)⟩⟩

/-- C7: zero fill. After direct-mode construction (from a header whose code and
initialized data lie inside the address space) every cell backing an address of
the address space that is neither code nor initialized data holds zero; and
after `LoadPage` has faulted in an unmapped page with a free frame to take, for
a header whose `int` sums `virtualAddr + size` do not overflow, every cell of
the new frame whose address is neither code nor initialized data holds zero,
whatever memory held before. -/
theorem C7_zero_fill (cfg : Config) (hP : 0 < cfg.PageSize) :
    (∀ (executable : List Nat) (hdr : NoffHeader) (junk : TranslationEntry) (w : World),
      cfg.USE_TLB = false →
      (normalizeHeader cfg hdr).noffMagic = cfg.NOFFMAGIC →
      numPagesOf cfg (normalizeHeader cfg hdr) ≤ NumClear w.memoryBitMap →
      w.memoryBitMap.length * cfg.PageSize ≤ w.machine.mainMemory.length →
      ((normalizeHeader cfg hdr).code.size > 0 →
        0 ≤ (normalizeHeader cfg hdr).code.virtualAddr ∧
        (normalizeHeader cfg hdr).code.virtualAddr + (normalizeHeader cfg hdr).code.size ≤
          ((numPagesOf cfg (normalizeHeader cfg hdr) * cfg.PageSize : Nat) : Int)) →
      ((normalizeHeader cfg hdr).initData.size > 0 →
        0 ≤ (normalizeHeader cfg hdr).initData.virtualAddr ∧
        (normalizeHeader cfg hdr).initData.virtualAddr +
            (normalizeHeader cfg hdr).initData.size ≤
          ((numPagesOf cfg (normalizeHeader cfg hdr) * cfg.PageSize : Nat) : Int)) →
      ∃ (w1 : World) (fr : Nat → Nat),
        construct cfg executable hdr junk w = .ok w1 ∧
        (∀ p, p < w1.space.numPages →
          (w1.space.pageTable[p]?).map TranslationEntry.physicalPage = some (fr p : Int)) ∧
        (∀ a : Nat, a < w1.space.numPages * cfg.PageSize →
          inCode w1.space.noffH a = false → inData w1.space.noffH a = false →
          w1.machine.mainMemory[fr (a / cfg.PageSize) * cfg.PageSize + a % cfg.PageSize]? =
            some 0)) ∧
    (∀ (w : World) (badAddr : Int),
      virtPageOf cfg badAddr < w.space.numPages →
      (w.space.pageTable[virtPageOf cfg badAddr]?).map TranslationEntry.physicalPage =
        some (-1) →
      0 < NumClear w.memoryBitMap →
      w.memoryBitMap.length * cfg.PageSize ≤ w.machine.mainMemory.length →
      w.space.numPages * cfg.PageSize < 2147483648 →
      SumsFit w.space.noffH →
      ∃ (f : Nat) (bm1 : List Bool) (w1 : World),
        Find w.memoryBitMap = some (f, bm1) ∧
        LoadPage cfg badAddr w = .ok w1 ∧
        (w1.space.pageTable[virtPageOf cfg badAddr]?).map TranslationEntry.physicalPage =
          some (f : Int) ∧
        ∀ i, i < cfg.PageSize →
          inCode w.space.noffH ((virtPageOf cfg badAddr * cfg.PageSize + i : Nat) : Int) = false →
          inData w.space.noffH ((virtPageOf cfg badAddr * cfg.PageSize + i : Nat) : Int) = false →
          w1.machine.mainMemory[f * cfg.PageSize + i]? = some 0) := by
  constructor
  · intro executable hdr junk w hdirect hmagic hframes hmem hcode hdata
    obtain ⟨w1, fr, hrun, _, _, _, _, _, hpt, _, hcells⟩ :=
      construct_direct_spec cfg hP executable hdr junk w hdirect hmagic hframes hmem hcode hdata
    refine ⟨w1, fr, hrun, ?_, ?_⟩
    · intro p hp
      rw [(hpt p hp).1]
      rfl
    · intro a ha
      exact (hcells a ha).2.2
  · intro w badAddr hpage hunmapped hfree hmem hsmall hsums
    cases he : w.space.pageTable[virtPageOf cfg badAddr]? with
    | none => rw [he] at hunmapped; cases hunmapped
    | some e =>
      rw [he] at hunmapped
      have hun : e.physicalPage = -1 := Option.some.inj hunmapped
      cases hF : Find w.memoryBitMap with
      | none => rw [Find_none_iff] at hF; omega
      | some p =>
        obtain ⟨f, bm1⟩ := p
        have hsm : virtPageOf cfg badAddr * cfg.PageSize < 2147483648 :=
          lt_of_le_of_lt (Nat.mul_le_mul_right _ (le_of_lt hpage)) hsmall
        obtain ⟨mem1, hrun, _, hcells, _⟩ :=
          LoadPage_fresh cfg hP w badAddr e f bm1 he hun hF hmem hsm
        have hlt : virtPageOf cfg badAddr < w.space.pageTable.length := by
          by_contra hge
          rw [List.getElem?_eq_none (by omega)] at he
          cases he
        refine ⟨f, bm1, _, rfl, hrun, ?_, ?_⟩
        · show Option.map _ (List.set _ _ _)[_]? = _
          rw [List.getElem?_set_self hlt]
          rfl
        · intro i hi hc hd
          rw [← isCode_eq_inCode _ hsums] at hc
          rw [← isData_eq_inData _ hsums] at hd
          show mem1[_]? = _
          rw [hcells i hi]
          simp only [loadedByte, hc, hd, Bool.false_eq_true, if_false]

/-- Direct-mode construction in `smallWorld` (addresses 8 to 15 are neither code
nor data), and a fault on page 2 of `lazyWorld`, whose frame held the byte 9. -/
theorem C7_zero_fill_witness :
    0 < (smallConfig false id).PageSize ∧
    (∃ (w1 : World) (fr : Nat → Nat),
      construct (smallConfig false id) smallFile smallHeader junkEntry smallWorld = .ok w1 ∧
      w1.machine.mainMemory[fr (9 / (smallConfig false id).PageSize) *
        (smallConfig false id).PageSize + 9 % (smallConfig false id).PageSize]? = some 0) ∧
    virtPageOf (smallConfig true id) 8 < lazyWorld.space.numPages ∧
    0 < NumClear lazyWorld.memoryBitMap ∧
    SumsFit lazyWorld.space.noffH ∧
    (∃ (f : Nat) (w1 : World),
      LoadPage (smallConfig true id) 8 lazyWorld = .ok w1 ∧
      w1.machine.mainMemory[f * (smallConfig true id).PageSize + 3]? = some 0) :=
  ⟨by decide,
    by
      obtain ⟨w1, fr, hrun, _, hzero⟩ :=
        (C7_zero_fill (smallConfig false id) (by decide)).1 smallFile smallHeader junkEntry
          smallWorld (by decide) (by decide) (by decide) (by decide) (by decide) (by decide)
      have hn : w1.space.numPages = 4 := by
        have h1 : construct (smallConfig false id) smallFile smallHeader junkEntry smallWorld =
            .ok loadedWorld := by decide
        rw [h1] at hrun
        injection hrun with h2
        rw [← h2]
        decide
      have hH : w1.space.noffH = smallHeader := by
        have h1 : construct (smallConfig false id) smallFile smallHeader junkEntry smallWorld =
            .ok loadedWorld := by decide
        rw [h1] at hrun
        injection hrun with h2
        rw [← h2]
        decide
      exact ⟨w1, fr, hrun, hzero 9 (by rw [hn]; decide) (by rw [hH]; decide)
        (by rw [hH]; decide)⟩,
    by decide, by decide, by decide,
    by
      obtain ⟨f, _, w1, _, hrun, _, hzero⟩ :=
        (C7_zero_fill (smallConfig true id) (by decide)).2 lazyWorld 8 (by decide) (by decide)
          (by decide) (by decide) (by decide) (by decide)
      exact ⟨f, w1, hrun, hzero 3 (by decide) (by decide) (by decide)⟩⟩

/-! ## What a successful `LoadPage` has done -/

theorem copyByte_keeps (cfg : Config) (va fa : Int) (i : Nat) (w : World) :
    spaceAndFrames (copyByte cfg va fa i w).state = spaceAndFrames w := by
  unfold copyByte
  simp only []
  split
  · rfl
  · split
    · rfl
    · split
      · rfl
      · split <;> rfl

theorem CopyToMemory_keeps (cfg : Config) (va fa size : Int) (w : World) :
    spaceAndFrames (CopyToMemory cfg va fa size w).state = spaceAndFrames w := by
  unfold CopyToMemory
  split
  · rfl
  · exact state_forLoop_eq spaceAndFrames _ (copyByte_keeps cfg va fa) _ _

theorem loadByte_keeps (cfg : Config) (virtAddr : Int) (i : Nat) (w : World) :
    spaceAndFrames (loadByte cfg virtAddr i w).state = spaceAndFrames w := by
  unfold loadByte
  have h1 : spaceAndFrames
      (if isCode w.space.noffH (virtAddr + i) = true then
        CopyToMemory cfg (virtAddr + i)
          (w.space.noffH.code.inFileAddr + (virtAddr - w.space.noffH.code.virtualAddr + i)) 1 w
      else Outcome.ok w).state = spaceAndFrames w := by
    split
    · exact CopyToMemory_keeps cfg _ _ _ w
    · rfl
  rw [state_bind_eq spaceAndFrames _ _ (fun s => by
    split
    · exact CopyToMemory_keeps cfg _ _ _ s
    · rfl)]
  exact h1

theorem copyByte_machineRest (cfg : Config) (va fa : Int) (i : Nat) (w : World) :
    machineRest (copyByte cfg va fa i w).state = machineRest w := by
  unfold copyByte
  simp only []
  split
  · rfl
  · split
    · rfl
    · split
      · rfl
      · split <;> rfl

theorem CopyToMemory_machineRest (cfg : Config) (va fa size : Int) (w : World) :
    machineRest (CopyToMemory cfg va fa size w).state = machineRest w := by
  unfold CopyToMemory
  split
  · rfl
  · exact state_forLoop_eq machineRest _ (copyByte_machineRest cfg va fa) _ _

theorem loadByte_machineRest (cfg : Config) (virtAddr : Int) (i : Nat) (w : World) :
    machineRest (loadByte cfg virtAddr i w).state = machineRest w := by
  unfold loadByte
  have h1 : machineRest
      (if isCode w.space.noffH (virtAddr + i) = true then
        CopyToMemory cfg (virtAddr + i)
          (w.space.noffH.code.inFileAddr + (virtAddr - w.space.noffH.code.virtualAddr + i)) 1 w
      else Outcome.ok w).state = machineRest w := by
    split
    · exact CopyToMemory_machineRest cfg _ _ _ w
    · rfl
  rw [state_bind_eq machineRest _ _ (fun s => by
    split
    · exact CopyToMemory_machineRest cfg _ _ _ s
    · rfl)]
  exact h1

/-- `LoadPage` never touches the registers, the TLB or the installed page
table, however it ends. -/
theorem LoadPage_machineRest (cfg : Config) (badAddr : Int) (w : World) :
    machineRest (LoadPage cfg badAddr w).state = machineRest w := by
  unfold LoadPage
  simp only []
  split
  · rfl
  · split
    · rw [state_bind_eq machineRest _ _ (fun s =>
        state_forLoop_eq machineRest _ (loadByte_machineRest cfg _) _ s)]
      unfold updEntry
      split <;> rfl
    · rfl

theorem copyByte_memSize (cfg : Config) (va fa : Int) (i : Nat) (w : World) :
    memSize (copyByte cfg va fa i w).state = memSize w := by
  unfold copyByte
  simp only []
  split
  · rfl
  · split
    · rfl
    · split
      · rfl
      · split
        · exact List.length_set _ _ _
        · rfl

theorem CopyToMemory_memSize (cfg : Config) (va fa size : Int) (w : World) :
    memSize (CopyToMemory cfg va fa size w).state = memSize w := by
  unfold CopyToMemory
  split
  · rfl
  · exact state_forLoop_eq memSize _ (copyByte_memSize cfg va fa) _ _

theorem loadByte_memSize (cfg : Config) (virtAddr : Int) (i : Nat) (w : World) :
    memSize (loadByte cfg virtAddr i w).state = memSize w := by
  unfold loadByte
  have h1 : memSize
      (if isCode w.space.noffH (virtAddr + i) = true then
        CopyToMemory cfg (virtAddr + i)
          (w.space.noffH.code.inFileAddr + (virtAddr - w.space.noffH.code.virtualAddr + i)) 1 w
      else Outcome.ok w).state = memSize w := by
    split
    · exact CopyToMemory_memSize cfg _ _ _ w
    · rfl
  rw [state_bind_eq memSize _ _ (fun s => by
    split
    · exact CopyToMemory_memSize cfg _ _ _ s
    · rfl)]
  exact h1

/-- Inversion of a successful `LoadPage`: either the page was mapped and nothing
changed, or it was unmapped and the entry received what `Find` returned, a
frame or the value -1, and was marked valid. -/
theorem LoadPage_ok_inv (cfg : Config) (badAddr : Int) (w w1 : World)
    (hrun : LoadPage cfg badAddr w = .ok w1) :
    ∃ e, w.space.pageTable[virtPageOf cfg badAddr]? = some e ∧
      ((e.physicalPage ≠ -1 ∧ w1 = w) ∨
       (e.physicalPage = -1 ∧
          w1.memoryBitMap = (FindValue w.memoryBitMap).2 ∧
          w1.space = { w.space with
            pageTable := w.space.pageTable.set (virtPageOf cfg badAddr)
              { e with physicalPage := (FindValue w.memoryBitMap).1, valid := true } } ∧
          forLoop cfg.PageSize (loadByte cfg (toInt32 (virtPageOf cfg badAddr * cfg.PageSize)))
            { space := { w.space with
                pageTable := w.space.pageTable.set (virtPageOf cfg badAddr)
                  { e with physicalPage := (FindValue w.memoryBitMap).1, valid := true } },
              memoryBitMap := (FindValue w.memoryBitMap).2,
              machine := { w.machine with
                mainMemory := zeroFrame cfg w.machine.mainMemory (FindValue w.memoryBitMap).1 } }
            = .ok w1)) := by
  unfold LoadPage at hrun
  simp only [] at hrun
  cases he : w.space.pageTable[virtPageOf cfg badAddr]? with
  | none => rw [he] at hrun; cases hrun
  | some e =>
    rw [he] at hrun
    simp only [] at hrun
    refine ⟨e, rfl, ?_⟩
    have hlt : virtPageOf cfg badAddr < w.space.pageTable.length := by
      by_contra hge
      rw [List.getElem?_eq_none (by omega)] at he
      cases he
    by_cases hun : e.physicalPage = -1
    · right
      rw [if_pos hun] at hrun
      simp only [updEntry, List.getElem?_set_self hlt, Outcome.bind, List.set_set] at hrun
      have hkeep := state_forLoop_eq spaceAndFrames _
        (loadByte_keeps cfg (toInt32 (virtPageOf cfg badAddr * cfg.PageSize))) cfg.PageSize
        { space := { w.space with
            pageTable := w.space.pageTable.set (virtPageOf cfg badAddr)
              { e with physicalPage := (FindValue w.memoryBitMap).1, valid := true } }
          memoryBitMap := (FindValue w.memoryBitMap).2
          machine := { w.machine with
            mainMemory := zeroFrame cfg w.machine.mainMemory (FindValue w.memoryBitMap).1 } }
      rw [hrun] at hkeep
      simp only [spaceAndFrames, Outcome.state, Prod.mk.injEq] at hkeep
      exact ⟨hun, hkeep.2, hkeep.1, hrun⟩
    · left
      rw [if_neg hun] at hrun
      injection hrun with h
      exact ⟨hun, h.symm⟩

/-! ## Running the loop of `LoadPage` a second time -/

theorem twin_bind (m0 m1 : List Nat) (ra rb : Outcome World) (f : World → Outcome World)
    (h : TwinOutcome m0 m1 ra rb)
    (hf : ∀ a b, Twin m0 m1 a b → TwinOutcome m0 m1 (f a) (f b)) :
    TwinOutcome m0 m1 (ra.bind f) (rb.bind f) := by
  cases ra with
  | ok a =>
    cases rb with
    | ok b => exact hf a b h
    | fail e b => exact False.elim h
  | fail e a =>
    cases rb with
    | ok b => exact False.elim h
    | fail e1 b => exact True.intro

theorem twin_forLoop (m0 m1 : List Nat) (body : Nat → World → Outcome World)
    (hbody : ∀ i a b, Twin m0 m1 a b → TwinOutcome m0 m1 (body i a) (body i b))
    (n : Nat) (a b : World) (h : Twin m0 m1 a b) :
    TwinOutcome m0 m1 (forLoop n body a) (forLoop n body b) := by
  induction n with
  | zero => exact h
  | succ k ih => exact twin_bind m0 m1 _ _ _ ih (hbody k)

theorem copyByte_twin (m0 m1 : List Nat) (cfg : Config) (va fa : Int) (i : Nat) (a b : World)
    (h : Twin m0 m1 a b) : TwinOutcome m0 m1 (copyByte cfg va fa i a) (copyByte cfg va fa i b) := by
  obtain ⟨hsp, hbm, hrest, hlen, hcells⟩ := h
  have hlen1 : a.machine.mainMemory.length = b.machine.mainMemory.length := hlen
  unfold copyByte
  simp only []
  rw [← hsp, ← hlen1]
  by_cases hneg : Int.tdiv (va + i) cfg.PageSize < 0
  · rw [if_pos hneg, if_pos hneg]
    exact True.intro
  · rw [if_neg hneg, if_neg hneg]
    cases he : a.space.pageTable[(Int.tdiv (va + i) cfg.PageSize).toNat]? with
    | none => exact True.intro
    | some e =>
      simp only []
      cases hr : readAt a.space.executable (fa + i) with
      | none => exact ⟨hsp, hbm, hrest, hlen, hcells⟩
      | some byte =>
        simp only []
        split
        · refine ⟨rfl, hbm, ?_, ?_, ?_⟩
          · simp only [machineRest, Prod.mk.injEq] at hrest ⊢
            exact hrest
          · show (List.set _ _ _).length = (List.set _ _ _).length
            rw [List.length_set, List.length_set]
            exact hlen
          · intro c
            show (List.set _ _ _)[c]? = (List.set _ _ _)[c]? ∨
              ((List.set _ _ _)[c]? = _ ∧ (List.set _ _ _)[c]? = _)
            by_cases hc : (e.physicalPage * cfg.PageSize +
                (va + i - Int.tdiv (va + i) cfg.PageSize * cfg.PageSize)).toNat = c
            · left
              subst hc
              rw [List.getElem?_set_self (by omega), List.getElem?_set_self (by omega)]
            · rw [List.getElem?_set_ne hc, List.getElem?_set_ne hc]
              exact hcells c
        · exact True.intro

theorem CopyToMemory_twin (m0 m1 : List Nat) (cfg : Config) (va fa size : Int) (a b : World)
    (h : Twin m0 m1 a b) :
    TwinOutcome m0 m1 (CopyToMemory cfg va fa size a) (CopyToMemory cfg va fa size b) := by
  unfold CopyToMemory
  split
  · exact True.intro
  · exact twin_forLoop m0 m1 _ (copyByte_twin m0 m1 cfg va fa) _ a b h

theorem loadByte_twin (m0 m1 : List Nat) (cfg : Config) (virtAddr : Int) (i : Nat) (a b : World)
    (h : Twin m0 m1 a b) :
    TwinOutcome m0 m1 (loadByte cfg virtAddr i a) (loadByte cfg virtAddr i b) := by
  unfold loadByte
  refine twin_bind m0 m1 _ _ _ ?_ ?_
  · have hsp : a.space = b.space := by
      obtain ⟨h1, _⟩ := h
      exact h1
    rw [← hsp]
    split
    · exact CopyToMemory_twin m0 m1 cfg _ _ _ a b h
    · exact h
  · intro a1 b1 h1
    have hsp : a1.space = b1.space := by
      obtain ⟨h2, _⟩ := h1
      exact h2
    rw [← hsp]
    split
    · exact CopyToMemory_twin m0 m1 cfg _ _ _ a1 b1 h1
    · exact h1

/-- A loop of `LoadPage` that ran from `a` to its end in `w1` runs from `w1` to
its end in `w1`: the stores it makes do not depend on what memory holds. -/
theorem forLoop_loadByte_again (cfg : Config) (virtAddr : Int) (n : Nat) (a w1 : World)
    (hrun : forLoop n (loadByte cfg virtAddr) a = .ok w1) :
    forLoop n (loadByte cfg virtAddr) w1 = .ok w1 := by
  have hsf := state_forLoop_eq spaceAndFrames _ (loadByte_keeps cfg virtAddr) n a
  have hmr := state_forLoop_eq machineRest _ (loadByte_machineRest cfg virtAddr) n a
  have hms := state_forLoop_eq memSize _ (loadByte_memSize cfg virtAddr) n a
  rw [hrun] at hsf hmr hms
  simp only [spaceAndFrames, Outcome.state, Prod.mk.injEq] at hsf
  have hstart : Twin a.machine.mainMemory w1.machine.mainMemory a w1 :=
    ⟨hsf.1.symm, hsf.2.symm, hmr.symm, hms.symm, fun c => Or.inr ⟨rfl, rfl⟩⟩
  have hend := twin_forLoop a.machine.mainMemory w1.machine.mainMemory _
    (loadByte_twin _ _ cfg virtAddr) n a w1 hstart
  rw [hrun] at hend
  cases hsecond : forLoop n (loadByte cfg virtAddr) w1 with
  | fail e s =>
    rw [hsecond] at hend
    exact absurd hend id
  | ok w2 =>
    rw [hsecond] at hend
    obtain ⟨hsp, hbm, hrest, hlen, hcells⟩ := hend
    have hmem : w2.machine.mainMemory = w1.machine.mainMemory := by
      apply List.ext_getElem?
      intro c
      rcases hcells c with h | h
      · exact h
      · exact h.2
    simp only [machineRest, Prod.mk.injEq] at hrest
    congr 1
    obtain ⟨sp1, bm1, ⟨mm1, rg1, tl1, pt1, ps1⟩⟩ := w1
    obtain ⟨sp2, bm2, ⟨mm2, rg2, tl2, pt2, ps2⟩⟩ := w2
    simp only [] at hsp hbm hrest hmem
    obtain ⟨h1, h2, h3, h4⟩ := hrest
    subst hsp hbm hmem h1 h2 h3 h4
    rfl

theorem set_same {α : Type} (l : List α) (i : Nat) (x : α) (h : l[i]? = some x) :
    l.set i x = l := by
  apply List.ext_getElem?
  intro j
  by_cases hij : i = j
  · subst hij
    have hlt : i < l.length := by
      by_contra hge
      rw [List.getElem?_eq_none (by omega)] at h
      cases h
    rw [List.getElem?_set_self hlt, h]
  · rw [List.getElem?_set_ne hij]

/-- C8: idempotence. Whenever a first `LoadPage(addr)` runs to its end, a second
`LoadPage` on any address of the same virtual page runs to its end in the very
same state: page table, frame bitmap and main memory are exactly as the first
call left them. -/
theorem C8_LoadPage_idempotent (cfg : Config) (w w1 : World) (addr addr2 : Int)
    (hfirst : LoadPage cfg addr w = .ok w1)
    (hsame : virtPageOf cfg addr2 = virtPageOf cfg addr) :
    LoadPage cfg addr2 w1 = .ok w1 ∧
    (LoadPage cfg addr2 w1).state.space.pageTable = w1.space.pageTable ∧
    (LoadPage cfg addr2 w1).state.memoryBitMap = w1.memoryBitMap ∧
    (LoadPage cfg addr2 w1).state.machine.mainMemory = w1.machine.mainMemory := by
  obtain ⟨e, he, hcase⟩ := LoadPage_ok_inv cfg addr w w1 hfirst
  have hlt : virtPageOf cfg addr < w.space.pageTable.length := by
    by_contra hge
    rw [List.getElem?_eq_none (by omega)] at he
    cases he
  have hsecond : LoadPage cfg addr2 w1 = .ok w1 := by
    rcases hcase with ⟨hne, hw⟩ | ⟨_, hbm, hsp, hloop⟩
    · -- the page was mapped before the first call
      unfold LoadPage
      simp only [hsame, hw, he]
      rw [if_neg hne]
    · have he1 : w1.space.pageTable[virtPageOf cfg addr]? = some
          { e with physicalPage := (FindValue w.memoryBitMap).1, valid := true } := by
        rw [hsp]
        exact List.getElem?_set_self hlt
      cases hF : Find w.memoryBitMap with
      | some pr =>
        -- the first call took a frame: the page is mapped now
        obtain ⟨f, bm1⟩ := pr
        rw [FindValue_some _ _ _ hF] at he1
        unfold LoadPage
        simp only [hsame, he1]
        rw [if_neg (by show (f : Int) ≠ -1; omega)]
      | none =>
        -- the first call stored the marker: the second call does the same again
        rw [FindValue_none _ hF] at he1 hbm hsp hloop
        rw [zeroFrame_marker] at hloop
        have hagain := forLoop_loadByte_again cfg _ _ _ w1 hloop
        have hlt1 : virtPageOf cfg addr < w1.space.pageTable.length := by
          by_contra hge
          rw [List.getElem?_eq_none (by omega)] at he1
          cases he1
        have hbm1 : w1.memoryBitMap = w.memoryBitMap := hbm
        unfold LoadPage
        simp only [hsame, he1, if_true, hbm1, FindValue_none _ hF, zeroFrame_marker,
          updEntry, List.getElem?_set_self hlt1, Outcome.bind, List.set_set]
        rw [set_same _ _ _ he1]
        rw [← hbm1]
        exact hagain
  rw [hsecond]
  exact ⟨rfl, rfl, rfl, rfl⟩

theorem C8_LoadPage_idempotent_witness :
    LoadPage (smallConfig true id) 5 lazyWorld =
      .ok (LoadPage (smallConfig true id) 5 lazyWorld).state ∧
    virtPageOf (smallConfig true id) 7 = virtPageOf (smallConfig true id) 5 ∧
    LoadPage (smallConfig true id) 7 (LoadPage (smallConfig true id) 5 lazyWorld).state =
      .ok (LoadPage (smallConfig true id) 5 lazyWorld).state :=
  ⟨by decide, by decide,
    (C8_LoadPage_idempotent (smallConfig true id) lazyWorld
      (LoadPage (smallConfig true id) 5 lazyWorld).state 5 7 (by decide) (by decide)).1⟩

/-! ## A fault when no frame is free -/

/-- C9 (the code at the failing input): in `starvedWorld` two frames, 6 and 7,
are free; the faults at addresses 0 and 4 take them. The fault at address 8, on
page 2, then finds no frame: `LoadPage` does not stop with `OutOfMemory` but
runs to its end, having stored the -1 that `Find` returned in the entry and
marked the entry valid (the bitmap and main memory are as before). A fault on
a page that holds code, with no frame free, gets as far: the entry of page 0 is
valid with frame -1 when the first byte of code is stored outside main
memory. -/
theorem C9_exhausted_allocator_goes_unnoticed :
    NumClear starvedWorld.memoryBitMap = 2 ∧
    faultAll (smallConfig true id) [0, 4] starvedWorld =
      .ok (faultAll (smallConfig true id) [0, 4] starvedWorld).state ∧
    NumClear (faultAll (smallConfig true id) [0, 4] starvedWorld).state.memoryBitMap = 0 ∧
    (faultAll (smallConfig true id) [0, 4] starvedWorld).state.space.pageTable.map
      (fun e => (e.physicalPage, e.valid)) = [(6, true), (7, true), (-1, false), (-1, false)] ∧
    LoadPage (smallConfig true id) 8 (faultAll (smallConfig true id) [0, 4] starvedWorld).state =
      .ok (LoadPage (smallConfig true id) 8
        (faultAll (smallConfig true id) [0, 4] starvedWorld).state).state ∧
    (LoadPage (smallConfig true id) 8
        (faultAll (smallConfig true id) [0, 4] starvedWorld).state).state.space.pageTable.map
      (fun e => (e.physicalPage, e.valid)) = [(6, true), (7, true), (-1, true), (-1, false)] ∧
    (LoadPage (smallConfig true id) 8
        (faultAll (smallConfig true id) [0, 4] starvedWorld).state).state.memoryBitMap =
      (faultAll (smallConfig true id) [0, 4] starvedWorld).state.memoryBitMap ∧
    (LoadPage (smallConfig true id) 8
        (faultAll (smallConfig true id) [0, 4] starvedWorld).state).state.machine.mainMemory =
      (faultAll (smallConfig true id) [0, 4] starvedWorld).state.machine.mainMemory ∧
    faultAll (smallConfig true id) [8, 12] starvedWorld =
      .ok (faultAll (smallConfig true id) [8, 12] starvedWorld).state ∧
    LoadPage (smallConfig true id) 0 (faultAll (smallConfig true id) [8, 12] starvedWorld).state =
      .fail .OutOfBounds (LoadPage (smallConfig true id) 0
        (faultAll (smallConfig true id) [8, 12] starvedWorld).state).state ∧
    (LoadPage (smallConfig true id) 0
        (faultAll (smallConfig true id) [8, 12] starvedWorld).state).state.space.pageTable.map
      (fun e => (e.physicalPage, e.valid)) = [(-1, true), (-1, false), (6, true), (7, true)] := by
  refine ⟨?_, ?_, ?_, ?_, ?_, ?_, ?_, ?_, ?_, ?_, ?_⟩
  · decide
  · decide
  · decide
  · decide
  · decide
  · decide
  · decide
  · decide
  · decide
  · decide
  · decide

/-- C10 (the code at the failing inputs): in `lazyWorld`, an address space of
four pages, a fault at address 16 (page 4) makes `LoadPage` and `UpdateTLB` read
`pageTable[4]`, outside the table; a fault at address `-4` makes `LoadPage` read
the table at index `2^32 - 1`; and a fault at the negative address `-1` is
served as a fault on page 0: a frame is allocated, the entry of page 0 becomes
valid, memory changes, and `UpdateTLB` installs the entry in the TLB. -/
theorem C10_unchecked_fault_address :
    lazyWorld.space.numPages = 4 ∧
    virtPageOf (smallConfig true id) 16 = 4 ∧
    LoadPage (smallConfig true id) 16 lazyWorld = .fail .OutOfBounds lazyWorld ∧
    UpdateTLB (smallConfig true id)
        { lazyWorld with machine := { lazyWorld.machine with
            registers := lazyWorld.machine.registers.set 39 16 } } =
      .fail .OutOfBounds
        { lazyWorld with machine := { lazyWorld.machine with
            registers := lazyWorld.machine.registers.set 39 16 } } ∧
    virtPageOf (smallConfig true id) (-4) = 4294967295 ∧
    LoadPage (smallConfig true id) (-4) lazyWorld = .fail .OutOfBounds lazyWorld ∧
    virtPageOf (smallConfig true id) (-1) = 0 ∧
    LoadPage (smallConfig true id) (-1) lazyWorld =
      .ok (LoadPage (smallConfig true id) (-1) lazyWorld).state ∧
    (LoadPage (smallConfig true id) (-1) lazyWorld).state.space.pageTable[0]? =
      some ⟨0, 1, true, false, false, false⟩ ∧
    (LoadPage (smallConfig true id) (-1) lazyWorld).state.memoryBitMap ≠
      lazyWorld.memoryBitMap ∧
    (LoadPage (smallConfig true id) (-1) lazyWorld).state.machine.mainMemory ≠
      lazyWorld.machine.mainMemory ∧
    (UpdateTLB (smallConfig true id)
        { lazyWorld with machine := { lazyWorld.machine with
            registers := lazyWorld.machine.registers.set 39 (-1) } }).state.machine.tlb[0]? =
      some ⟨0, 1, true, false, false, false⟩ := by
  decide

/-! ## `RestoreState` -/

/-- After `k` iterations of the loop of `RestoreState` the first `k` TLB slots
are invalid, otherwise as they were, and nothing else has changed. -/
theorem forLoop_invalidateSlot (w : World) (k : Nat) (hk : k ≤ w.machine.tlb.length) :
    ∃ t : List TranslationEntry,
      forLoop k invalidateSlot w = .ok { w with machine := { w.machine with tlb := t } } ∧
      t.length = w.machine.tlb.length ∧
      (∀ i, i < k → t[i]? = (w.machine.tlb[i]?).map (fun e => { e with valid := false })) ∧
      (∀ i, k ≤ i → t[i]? = w.machine.tlb[i]?) := by
  induction k with
  | zero => exact ⟨w.machine.tlb, rfl, rfl, fun i hi => absurd hi (Nat.not_lt_zero i), fun _ _ => rfl⟩
  | succ k ih =>
    obtain ⟨t, hrun, hlen, hlow, hhigh⟩ := ih (by omega)
    have hklt : k < t.length := by omega
    have hkw : k < w.machine.tlb.length := by omega
    refine ⟨t.set k { t[k] with valid := false }, ?_, ?_, ?_, ?_⟩
    · show (forLoop k invalidateSlot w).bind (invalidateSlot k) = _
      rw [hrun]
      simp only [Outcome.bind, invalidateSlot]
      rw [List.getElem?_eq_getElem hklt]
    · rw [List.length_set, hlen]
    · intro i hi
      by_cases hik : i = k
      · subst hik
        rw [List.getElem?_set_self hklt]
        have h1 := hhigh i (le_refl i)
        rw [List.getElem?_eq_getElem hklt, List.getElem?_eq_getElem hkw] at h1
        rw [List.getElem?_eq_getElem hkw, Option.some.inj h1]
        rfl
      · rw [List.getElem?_set_ne (Ne.symm hik)]
        exact hlow i (by omega)
    · intro i hi
      rw [List.getElem?_set_ne (by omega)]
      exact hhigh i (by omega)

/-- C12: in lazy mode, whatever the TLB held, after `RestoreState` every one of
the `TLBSize` slots has `valid = false` (its other fields, the address space
and the rest of the machine being untouched); in direct mode `RestoreState`
installs this address space's page table and `numPages` as the machine's page
table and page-table size and changes nothing else. -/
theorem C12_RestoreState (cfg : Config) (w : World) :
    (cfg.USE_TLB = true → w.machine.tlb.length = cfg.TLBSize →
      ∃ w1 : World, RestoreState cfg w = .ok w1 ∧
        w1.space = w.space ∧ w1.memoryBitMap = w.memoryBitMap ∧
        w1.machine.mainMemory = w.machine.mainMemory ∧
        w1.machine.tlb.length = cfg.TLBSize ∧
        ∀ i, i < cfg.TLBSize →
          w1.machine.tlb[i]? =
            (w.machine.tlb[i]?).map (fun e => { e with valid := false }) ∧
          (w1.machine.tlb[i]?).map TranslationEntry.valid = some false) ∧
    (cfg.USE_TLB = false →
      RestoreState cfg w =
        .ok { w with machine :=
                { w.machine with pageTable := w.space.pageTable,
                                 pageTableSize := w.space.numPages } }) := by
  constructor
  · intro hlazy hlen
    obtain ⟨t, hrun, htl, hlow, _⟩ := forLoop_invalidateSlot w cfg.TLBSize (by omega)
    refine ⟨{ w with machine := { w.machine with tlb := t } },
      by unfold RestoreState; rw [if_pos hlazy]; exact hrun, rfl, rfl, rfl,
      by show t.length = _; omega, ?_⟩
    intro i hi
    have h1 := hlow i hi
    refine ⟨h1, ?_⟩
    show Option.map _ t[i]? = _
    rw [h1, List.getElem?_eq_getElem (by omega)]
    rfl
  · intro hdirect
    unfold RestoreState
    rw [hdirect]
    rfl

theorem C12_RestoreState_witness :
    (smallConfig true id).USE_TLB = true ∧
    smallWorld.machine.tlb.length = (smallConfig true id).TLBSize ∧
    (smallWorld.machine.tlb[1]?).map TranslationEntry.valid = some true ∧
    (∃ w1 : World, RestoreState (smallConfig true id) smallWorld = .ok w1 ∧
      (w1.machine.tlb[1]?).map TranslationEntry.valid = some false) ∧
    (smallConfig false id).USE_TLB = false ∧
    (RestoreState (smallConfig false id) loadedWorld).state.machine.pageTable =
      loadedWorld.space.pageTable :=
  ⟨by decide, by decide, by decide,
    by
      obtain ⟨w1, hrun, _, _, _, _, hslots⟩ :=
        (C12_RestoreState (smallConfig true id) smallWorld).1 (by decide) (by decide)
      exact ⟨w1, hrun, (hslots 1 (by decide)).2⟩,
    by decide,
    by rw [(C12_RestoreState (smallConfig false id) loadedWorld).2 (by decide)]; rfl⟩

/-! ## `InitRegisters` -/

/-- After `k` iterations of the loop at lines 169-170 the first `k` registers
are zero and nothing else has changed. -/
theorem forLoop_zeroRegisters (w : World) (k : Nat) (hk : k ≤ w.machine.registers.length) :
    ∃ rs : List Int,
      forLoop k (fun i => WriteRegister i 0) w =
        .ok { w with machine := { w.machine with registers := rs } } ∧
      rs.length = w.machine.registers.length ∧
      (∀ i, i < k → rs[i]? = some 0) ∧
      (∀ i, k ≤ i → rs[i]? = w.machine.registers[i]?) := by
  induction k with
  | zero =>
    exact ⟨w.machine.registers, rfl, rfl, fun i hi => absurd hi (Nat.not_lt_zero i),
      fun _ _ => rfl⟩
  | succ k ih =>
    obtain ⟨rs, hrun, hlen, hlow, hhigh⟩ := ih (by omega)
    have hklt : k < rs.length := by omega
    refine ⟨rs.set k 0, ?_, ?_, ?_, ?_⟩
    · show (forLoop k (fun i => WriteRegister i 0) w).bind (WriteRegister k 0) = _
      rw [hrun]
      simp only [Outcome.bind, WriteRegister]
      rw [if_pos hklt]
    · rw [List.length_set, hlen]
    · intro i hi
      by_cases hik : i = k
      · subst hik
        exact List.getElem?_set_self hklt
      · rw [List.getElem?_set_ne (Ne.symm hik)]
        exact hlow i (by omega)
    · intro i hi
      rw [List.getElem?_set_ne (by omega)]
      exact hhigh i (by omega)

theorem WriteRegister_ok (num : Nat) (value : Int) (w : World)
    (h : num < w.machine.registers.length) :
    WriteRegister num value w =
      .ok { w with machine :=
              { w.machine with registers := w.machine.registers.set num value } } := by
  unfold WriteRegister
  rw [if_pos h]

/-- C14: whatever the registers held, after `InitRegisters` the program counter
register is 0, the next-PC register is 4, the stack register is
`numPages * PageSize - 16`, and every other register is 0; nothing but the
register file changes. The register file has `NumTotalRegs` registers, the
three register numbers are distinct numbers of it, and the size of the address
space fits an `int`. -/
theorem C14_InitRegisters (cfg : Config) (w : World)
    (hregs : w.machine.registers.length = cfg.NumTotalRegs)
    (hPC : cfg.PCReg < cfg.NumTotalRegs) (hNext : cfg.NextPCReg < cfg.NumTotalRegs)
    (hStack : cfg.StackReg < cfg.NumTotalRegs)
    (hd1 : cfg.PCReg ≠ cfg.NextPCReg) (hd2 : cfg.PCReg ≠ cfg.StackReg)
    (hd3 : cfg.NextPCReg ≠ cfg.StackReg)
    (hsmall : w.space.numPages * cfg.PageSize < 2147483648) :
    ∃ w1 : World, InitRegisters cfg w = .ok w1 ∧
      w1.space = w.space ∧ w1.memoryBitMap = w.memoryBitMap ∧
      w1.machine.mainMemory = w.machine.mainMemory ∧ w1.machine.tlb = w.machine.tlb ∧
      w1.machine.registers.length = cfg.NumTotalRegs ∧
      w1.machine.registers[cfg.PCReg]? = some 0 ∧
      w1.machine.registers[cfg.NextPCReg]? = some 4 ∧
      w1.machine.registers[cfg.StackReg]? =
        some ((w.space.numPages : Int) * cfg.PageSize - 16) ∧
      ∀ r, r < cfg.NumTotalRegs → r ≠ cfg.PCReg → r ≠ cfg.NextPCReg → r ≠ cfg.StackReg →
        w1.machine.registers[r]? = some 0 := by
  obtain ⟨rs, hrun, hlen, hzero, _⟩ := forLoop_zeroRegisters w cfg.NumTotalRegs (by omega)
  have hval : toInt32 (toUInt32 ((w.space.numPages : Int) * cfg.PageSize - 16)) =
      (w.space.numPages : Int) * cfg.PageSize - 16 := by
    have h1 : ((w.space.numPages * cfg.PageSize : Nat) : Int) < 2147483648 := by
      exact_mod_cast hsmall
    push_cast at h1
    unfold toInt32 toUInt32
    split <;> omega
  refine ⟨{ w with machine := { w.machine with
      registers := (((rs.set cfg.PCReg 0).set cfg.NextPCReg 4).set cfg.StackReg
        ((w.space.numPages : Int) * cfg.PageSize - 16)) } }, ?_, rfl, rfl, rfl, rfl, ?_, ?_, ?_,
      ?_, ?_⟩
  · unfold InitRegisters
    rw [hrun]
    simp only [Outcome.bind]
    rw [WriteRegister_ok _ _ _ (by show cfg.PCReg < rs.length; omega)]
    simp only []
    rw [WriteRegister_ok _ _ _ (by
      show cfg.NextPCReg < (rs.set cfg.PCReg 0).length
      rw [List.length_set]; omega)]
    simp only []
    rw [WriteRegister_ok _ _ _ (by
      show cfg.StackReg < ((rs.set cfg.PCReg 0).set cfg.NextPCReg 4).length
      simp only [List.length_set]; omega)]
    rw [hval]
  · simp only [List.length_set]; omega
  · show (List.set _ _ _)[_]? = _
    rw [List.getElem?_set_ne (Ne.symm hd2), List.getElem?_set_ne (Ne.symm hd1)]
    exact List.getElem?_set_self (by omega)
  · show (List.set _ _ _)[_]? = _
    rw [List.getElem?_set_ne (Ne.symm hd3)]
    exact List.getElem?_set_self (by simp only [List.length_set]; omega)
  · show (List.set _ _ _)[_]? = _
    exact List.getElem?_set_self (by simp only [List.length_set]; omega)
  · intro r hr h1 h2 h3
    show (List.set _ _ _)[_]? = _
    rw [List.getElem?_set_ne (Ne.symm h3), List.getElem?_set_ne (Ne.symm h2),
      List.getElem?_set_ne (Ne.symm h1)]
    exact hzero r hr

theorem C14_InitRegisters_witness :
    loadedWorld.machine.registers.length = (smallConfig false id).NumTotalRegs ∧
    (smallConfig false id).PCReg < (smallConfig false id).NumTotalRegs ∧
    (smallConfig false id).PCReg ≠ (smallConfig false id).StackReg ∧
    loadedWorld.space.numPages * (smallConfig false id).PageSize < 2147483648 ∧
    ∃ w1 : World, InitRegisters (smallConfig false id) loadedWorld = .ok w1 ∧
      w1.machine.registers[29]? = some 0 ∧ w1.machine.registers[35]? = some 4 :=
  ⟨by decide, by decide, by decide, by decide,
    by
      obtain ⟨w1, hrun, _, _, _, _, _, _, hnext, hstack, _⟩ :=
        C14_InitRegisters (smallConfig false id) loadedWorld (by decide) (by decide)
          (by decide) (by decide) (by decide) (by decide) (by decide) (by decide)
      exact ⟨w1, hrun, hstack.trans (by decide), hnext⟩⟩

/-! ## The destructor -/

/-- C13 (the code at the failing input): in `lazyWorld`, a lazy-mode address
space none of whose pages is mapped, the first iteration of the destructor
hands `pageTable[0].physicalPage = -1` to `Clear`, which is no frame index; the
same happens after page 1 alone has been faulted in. In `loadedWorld`, where
every page is mapped, the destructor returns exactly the four frames. -/
theorem C13_destructor_releases_unmapped_marker :
    (lazyWorld.space.pageTable[0]?).map TranslationEntry.physicalPage = some (-1) ∧
    Clear lazyWorld.memoryBitMap (-1) = none ∧
    destroy lazyWorld = .fail .BadFree lazyWorld ∧
    LoadPage (smallConfig true id) 5 lazyWorld =
      .ok (LoadPage (smallConfig true id) 5 lazyWorld).state ∧
    destroy (LoadPage (smallConfig true id) 5 lazyWorld).state =
      .fail .BadFree (LoadPage (smallConfig true id) 5 lazyWorld).state ∧
    (destroy loadedWorld).state.memoryBitMap = smallWorld.memoryBitMap := by
  decide

/-! ## `mySeek` -/

/-- C20: for a descriptor that is open and owned by the current thread, a file
of length `len >= 0` and a current position in `[0, len]`, `mySeek` leaves the
file position in `[0, len]`: it is `min newPos len` for reference 0 with
`newPos >= 0`, `max (len - newPos) 0` for reference 1 with `newPos >= 0`,
`current + newPos` for reference 2 when that lies in `[0, len]`, and `len` in
every remaining case except reference 2 out of range; for reference 2 with
`current + newPos` outside `[0, len]` it returns `-1` and leaves the table, the
position included, unchanged. The length, the owner and every other
descriptor are never changed. -/
theorem C20_mySeek_stays_inside (setRet : Int → Int) (currentThread : Nat)
    (file_id newPos reference : Int) (openedFiles : FileTable) (fs : FileStruct)
    (hopen : openedFiles file_id = some fs) (howner : fs.owner = currentThread)
    (hlen : 0 ≤ fs.file.length)
    (hpos : 0 ≤ fs.file.position ∧ fs.file.position ≤ fs.file.length) :
    ∃ p : Int,
      (mySeek setRet currentThread file_id newPos reference openedFiles).2 file_id =
        some { fs with file := { fs.file with position := p } } ∧
      0 ≤ p ∧ p ≤ fs.file.length ∧
      (∀ j, j ≠ file_id →
        (mySeek setRet currentThread file_id newPos reference openedFiles).2 j =
          openedFiles j) ∧
      (reference = 0 ∧ newPos ≥ 0 → p = min newPos fs.file.length) ∧
      (reference = 1 ∧ newPos ≥ 0 → p = max (fs.file.length - newPos) 0) ∧
      (reference = 2 ∧ 0 ≤ fs.file.position + newPos ∧
          fs.file.position + newPos ≤ fs.file.length → p = fs.file.position + newPos) ∧
      (reference = 2 ∧ ¬ (0 ≤ fs.file.position + newPos ∧
          fs.file.position + newPos ≤ fs.file.length) →
        mySeek setRet currentThread file_id newPos reference openedFiles = (-1, openedFiles) ∧
        p = fs.file.position) ∧
      (¬ (reference = 0 ∧ newPos ≥ 0) → ¬ (reference = 1 ∧ newPos ≥ 0) → reference ≠ 2 →
        p = fs.file.length) := by
  have hstore : ∀ pos : Int, ∀ j, j ≠ file_id →
      storeFile openedFiles file_id fs (SetCurrentPosition setRet fs.file pos).2 j =
        openedFiles j := by
    intro pos j hj
    simp only [storeFile, if_neg hj]
  have hself : ∀ pos : Int,
      storeFile openedFiles file_id fs (SetCurrentPosition setRet fs.file pos).2 file_id =
        some { fs with file := { fs.file with position := pos } } := by
    intro pos
    simp only [storeFile, if_true, SetCurrentPosition]
  subst howner
  unfold mySeek
  simp only [hopen, ne_eq, not_true_eq_false, if_false]
  by_cases h0 : reference = 0 ∧ newPos ≥ 0
  · rw [if_pos h0]
    by_cases hle : newPos ≤ fs.file.length
    · rw [if_pos hle]
      refine ⟨newPos, hself _, h0.2, hle, hstore _, fun _ => (min_eq_left hle).symm,
        fun h => by omega, fun h => by omega, fun h => by omega, fun h => absurd h0 h⟩
    · rw [if_neg hle]
      refine ⟨fs.file.length, hself _, hlen, le_refl _, hstore _,
        fun _ => (min_eq_right (by omega)).symm,
        fun h => by omega, fun h => by omega, fun h => by omega, fun h => absurd h0 h⟩
  · rw [if_neg h0]
    by_cases h1 : reference = 1 ∧ newPos ≥ 0
    · rw [if_pos h1]
      by_cases hge : fs.file.length ≥ newPos
      · rw [if_pos hge]
        refine ⟨fs.file.length - newPos, hself _, by omega, by omega, hstore _,
          fun h => absurd h h0, fun _ => (max_eq_left (by omega)).symm,
          fun h => by omega, fun h => by omega, fun _ h => absurd h1 h⟩
      · rw [if_neg hge]
        refine ⟨0, hself _, le_refl _, hlen, hstore _,
          fun h => absurd h h0, fun _ => (max_eq_right (by omega)).symm,
          fun h => by omega, fun h => by omega, fun _ h => absurd h1 h⟩
    · rw [if_neg h1]
      by_cases h2 : reference = 2
      · rw [if_pos h2]
        by_cases hin : fs.file.position + newPos ≤ fs.file.length ∧
            fs.file.position + newPos ≥ 0
        · rw [if_pos hin]
          refine ⟨fs.file.position + newPos, hself _, hin.2, hin.1, hstore _,
            fun h => absurd h h0, fun h => absurd h h1, fun _ => rfl,
            fun h => absurd ⟨hin.2, hin.1⟩ h.2, fun _ _ h => absurd h2 h⟩
        · rw [if_neg hin]
          refine ⟨fs.file.position, hopen, hpos.1, hpos.2, fun _ _ => rfl,
            fun h => absurd h h0, fun h => absurd h h1,
            fun h => absurd ⟨h.2.2, h.2.1⟩ hin, fun _ => ⟨rfl, rfl⟩,
            fun _ _ h => absurd h2 h⟩
      · rw [if_neg h2]
        refine ⟨fs.file.length, hself _, hlen, le_refl _, hstore _,
          fun h => absurd h h0, fun h => absurd h h1, fun h => absurd h.1 h2,
          fun h => absurd h.1 h2, fun _ _ _ => rfl⟩

theorem C20_mySeek_stays_inside_witness :
    (fun j : Int => if j = 3 then some (⟨⟨10, 4⟩, 7, 2⟩ : FileStruct) else none) 3 =
      some ⟨⟨10, 4⟩, 7, 2⟩ ∧
    (⟨⟨10, 4⟩, 7, 2⟩ : FileStruct).owner = 7 ∧
    ∃ p : Int,
      (mySeek id 7 3 25 0
          (fun j : Int => if j = 3 then some (⟨⟨10, 4⟩, 7, 2⟩ : FileStruct) else none)).2 3 =
        some ⟨⟨10, p⟩, 7, 2⟩ ∧
      p = 10 :=
  ⟨by decide, by decide,
    by
      obtain ⟨p, h1, _, _, _, h0, _⟩ :=
        C20_mySeek_stays_inside id 7 3 25 0
          (fun j : Int => if j = 3 then some (⟨⟨10, 4⟩, 7, 2⟩ : FileStruct) else none)
          ⟨⟨10, 4⟩, 7, 2⟩ (by decide) (by decide) (by decide) (by decide)
      exact ⟨p, h1, (h0 (by decide)).trans (by decide)⟩⟩

/-! ## `UpdateTLB` -/

/-- Inversion of a successful `UpdateTLB`: the page was loaded, the entry of
the faulting page was copied into the slot the cursor designates, and the
cursor moved one past that slot. -/
theorem UpdateTLB_ok_inv (cfg : Config) (w w1 : World) (hrun : UpdateTLB cfg w = .ok w1) :
    ∃ (badAddr : Int) (wL : World) (e : TranslationEntry),
      w.machine.registers[cfg.BadVAddrReg]? = some badAddr ∧
      LoadPage cfg badAddr w = .ok wL ∧
      wL.space.pageTable[virtPageOf cfg badAddr]? = some e ∧
      0 ≤ cMod w.space.last_modify cfg.TLBSize ∧
      cMod w.space.last_modify cfg.TLBSize < w.machine.tlb.length ∧
      w1.machine.tlb = w.machine.tlb.set (cMod w.space.last_modify cfg.TLBSize).toNat e ∧
      w1.space.last_modify = cMod w.space.last_modify cfg.TLBSize + 1 ∧
      w1.space.pageTable = wL.space.pageTable ∧
      w1.memoryBitMap = wL.memoryBitMap ∧
      w1.machine.mainMemory = wL.machine.mainMemory := by
  unfold UpdateTLB at hrun
  cases hreg : w.machine.registers[cfg.BadVAddrReg]? with
  | none => rw [hreg] at hrun; cases hrun
  | some badAddr =>
    rw [hreg] at hrun
    simp only [] at hrun
    cases hL : LoadPage cfg badAddr w with
    | fail err s => rw [hL] at hrun; cases hrun
    | ok wL =>
      rw [hL] at hrun
      simp only [Outcome.bind] at hrun
      have hrest := LoadPage_machineRest cfg badAddr w
      rw [hL] at hrest
      simp only [machineRest, Outcome.state, Prod.mk.injEq] at hrest
      have hlm : wL.space.last_modify = w.space.last_modify := by
        obtain ⟨e0, _, hcase⟩ := LoadPage_ok_inv cfg badAddr w wL hL
        rcases hcase with ⟨_, hw⟩ | ⟨_, _, hsp, _⟩
        · rw [hw]
        · rw [hsp]
      cases he : wL.space.pageTable[virtPageOf cfg badAddr]? with
      | none => rw [he] at hrun; cases hrun
      | some e =>
        rw [he] at hrun
        simp only [] at hrun
        split at hrun
        · rename_i hslot
          injection hrun with h
          rw [hlm, hrest.2.1] at hslot
          refine ⟨badAddr, wL, e, rfl, hL, he, hslot.1, hslot.2, ?_, ?_, ?_, ?_, ?_⟩
          · rw [← h, ← hrest.2.1, ← hlm]
          · rw [← h, ← hlm]
          · rw [← h]
          · rw [← h]
          · rw [← h]
        · cases hrun

theorem cMod_nonneg (c : Int) (T : Nat) (hc : 0 ≤ c) (hT : 0 < T) :
    cMod c T = c % (T : Int) ∧ 0 ≤ c % (T : Int) ∧ c % (T : Int) < T := by
  have hTz : (0 : Int) < (T : Int) := by exact_mod_cast hT
  exact ⟨Int.tmod_eq_emod hc (le_of_lt hTz), Int.emod_nonneg c (by omega),
    Int.emod_lt_of_pos c hTz⟩

/-- A successful TLB miss: the slot `cursor mod TLBSize` received an entry, no
other slot changed, and the cursor is one past that slot. -/
theorem tlbMiss_ok_inv (cfg : Config) (hT : 0 < cfg.TLBSize) (badAddr : Int) (w w1 : World)
    (hc : 0 ≤ w.space.last_modify) (hrun : tlbMiss cfg badAddr w = .ok w1) :
    ∃ e : TranslationEntry,
      w1.machine.tlb =
        w.machine.tlb.set (w.space.last_modify % (cfg.TLBSize : Int)).toNat e ∧
      w1.space.last_modify = w.space.last_modify % (cfg.TLBSize : Int) + 1 := by
  unfold tlbMiss WriteRegister at hrun
  split at hrun
  · simp only [Outcome.bind] at hrun
    obtain ⟨_, _, e, _, _, _, _, _, htlb, hlm, _⟩ := UpdateTLB_ok_inv cfg _ w1 hrun
    simp only [] at htlb hlm
    rw [(cMod_nonneg _ _ hc hT).1] at htlb hlm
    exact ⟨e, htlb, hlm⟩
  · cases hrun

/-- The cursor after a run of TLB misses that all succeeded. -/
theorem missAll_cursor (cfg : Config) (hT : 0 < cfg.TLBSize) (addrs : List Int) (w w1 : World)
    (hc : 0 ≤ w.space.last_modify) (hrun : missAll cfg addrs w = .ok w1) :
    0 ≤ w1.space.last_modify ∧
    w1.space.last_modify % (cfg.TLBSize : Int) =
      (w.space.last_modify + addrs.length) % (cfg.TLBSize : Int) := by
  induction addrs generalizing w with
  | nil =>
    simp only [missAll] at hrun
    injection hrun with h
    rw [← h]
    simp [hc]
  | cons a rest ih =>
    simp only [missAll] at hrun
    cases hfirst : tlbMiss cfg a w with
    | fail err s => rw [hfirst] at hrun; cases hrun
    | ok w2 =>
      rw [hfirst] at hrun
      simp only [Outcome.bind] at hrun
      obtain ⟨e, _, hlm⟩ := tlbMiss_ok_inv cfg hT a w w2 hc hfirst
      have hm := (cMod_nonneg w.space.last_modify cfg.TLBSize hc hT).2.1
      obtain ⟨h1, h2⟩ := ih w2 (by rw [hlm]; omega) hrun
      refine ⟨h1, ?_⟩
      rw [h2, hlm, add_assoc, Int.emod_add_emod]
      congr 1
      simp only [List.length_cons]
      push_cast
      ring

/-- C11: round-robin refill. In a state with cursor `c >= 0`, on a fault whose
page `p` has an entry `e` numbered `p` that is either mapped and valid or
unmapped with a free frame to take, `UpdateTLB` runs to its end; afterwards
TLB slot `c mod TLBSize` is an exact copy of entry `p` of the page table, which
is valid, numbered `p` and mapped; every other slot is unchanged; and the
cursor is `(c mod TLBSize) + 1`. Consequently, after `k - 1` misses that
started from cursor 0, the `k`-th miss overwrites slot `(k - 1) mod TLBSize`
and no other. -/
theorem C11_round_robin_refill (cfg : Config) (hP : 0 < cfg.PageSize)
    (hT : 0 < cfg.TLBSize) :
    (∀ (w : World) (badAddr : Int) (e : TranslationEntry),
      w.machine.tlb.length = cfg.TLBSize →
      0 ≤ w.space.last_modify →
      w.machine.registers[cfg.BadVAddrReg]? = some badAddr →
      virtPageOf cfg badAddr < w.space.numPages →
      w.space.pageTable[virtPageOf cfg badAddr]? = some e →
      e.virtualPage = (virtPageOf cfg badAddr : Int) →
      (e.physicalPage = -1 ↔ e.valid = false) →
      (e.physicalPage = -1 → 0 < NumClear w.memoryBitMap) →
      w.memoryBitMap.length * cfg.PageSize ≤ w.machine.mainMemory.length →
      w.space.numPages * cfg.PageSize < 2147483648 →
      ∃ (w1 : World) (e1 : TranslationEntry),
        UpdateTLB cfg w = .ok w1 ∧
        w1.space.pageTable[virtPageOf cfg badAddr]? = some e1 ∧
        e1.virtualPage = (virtPageOf cfg badAddr : Int) ∧ e1.valid = true ∧
        e1.physicalPage ≠ -1 ∧
        w1.machine.tlb[(w.space.last_modify % (cfg.TLBSize : Int)).toNat]? = some e1 ∧
        (∀ j, j ≠ (w.space.last_modify % (cfg.TLBSize : Int)).toNat →
          w1.machine.tlb[j]? = w.machine.tlb[j]?) ∧
        w1.space.last_modify = w.space.last_modify % (cfg.TLBSize : Int) + 1) ∧
    (∀ (addrs : List Int) (w w1 w2 : World) (badAddr : Int),
      w.space.last_modify = 0 →
      missAll cfg addrs w = .ok w1 →
      tlbMiss cfg badAddr w1 = .ok w2 →
      ∃ e : TranslationEntry,
        w2.machine.tlb = w1.machine.tlb.set (addrs.length % cfg.TLBSize) e) := by
  constructor
  · intro w badAddr e htlb hc hreg hpage he hnum hinv hres hmem hsmall
    obtain ⟨hcm, hm0, hm1⟩ := cMod_nonneg w.space.last_modify cfg.TLBSize hc hT
    have hslot : (w.space.last_modify % (cfg.TLBSize : Int)).toNat < w.machine.tlb.length := by
      omega
    have hplt : virtPageOf cfg badAddr < w.space.pageTable.length := by
      by_contra hge
      rw [List.getElem?_eq_none (by omega)] at he
      cases he
    -- the outcome of `LoadPage` and the entry it leaves
    have hload : ∃ (wL : World) (e1 : TranslationEntry),
        LoadPage cfg badAddr w = .ok wL ∧
        wL.space.pageTable[virtPageOf cfg badAddr]? = some e1 ∧
        e1.virtualPage = (virtPageOf cfg badAddr : Int) ∧ e1.valid = true ∧
        e1.physicalPage ≠ -1 ∧ wL.space.last_modify = w.space.last_modify ∧
        wL.machine.tlb = w.machine.tlb := by
      by_cases hun : e.physicalPage = -1
      · cases hF : Find w.memoryBitMap with
        | none =>
          rw [Find_none_iff] at hF
          have := hres hun
          omega
        | some pr =>
          obtain ⟨f, bm1⟩ := pr
          have hsm : virtPageOf cfg badAddr * cfg.PageSize < 2147483648 :=
            lt_of_le_of_lt (Nat.mul_le_mul_right _ (le_of_lt hpage)) hsmall
          obtain ⟨mem1, hrun, _⟩ := LoadPage_fresh cfg hP w badAddr e f bm1 he hun hF hmem hsm
          refine ⟨_, { e with physicalPage := f, valid := true }, hrun,
            List.getElem?_set_self hplt, hnum, rfl, ?_, rfl, rfl⟩
          show (f : Int) ≠ -1
          omega
      · refine ⟨w, e, ?_, he, hnum, ?_, hun, rfl, rfl⟩
        · unfold LoadPage
          simp only [he]
          rw [if_neg hun]
        · cases hv : e.valid with
          | true => rfl
          | false => exact absurd (hinv.mpr hv) hun
    obtain ⟨wL, e1, hL, he1, hnum1, hval1, hmap1, hlmL, htlbL⟩ := hload
    refine ⟨{ wL with
        machine := { wL.machine with
          tlb := wL.machine.tlb.set (w.space.last_modify % (cfg.TLBSize : Int)).toNat e1 },
        space := { wL.space with
          last_modify := w.space.last_modify % (cfg.TLBSize : Int) + 1 } },
      e1, ?_, he1, hnum1, hval1, hmap1, ?_, ?_, rfl⟩
    · unfold UpdateTLB
      simp only [hreg, hL, Outcome.bind, he1, hlmL, hcm, htlbL]
      rw [if_pos ⟨hm0, by omega⟩]
    · show (List.set _ _ _)[_]? = _
      rw [htlbL]
      exact List.getElem?_set_self hslot
    · intro j hj
      show (List.set _ _ _)[_]? = _
      rw [htlbL]
      exact List.getElem?_set_ne (Ne.symm hj)
  · intro addrs w w1 w2 badAddr hstart hrun hnext
    obtain ⟨hc1, hmod⟩ := missAll_cursor cfg hT addrs w w1 (by omega) hrun
    obtain ⟨e, htlb, _⟩ := tlbMiss_ok_inv cfg hT badAddr w1 w2 hc1 hnext
    refine ⟨e, ?_⟩
    rw [htlb, hmod, hstart, zero_add]
    congr 1

/-- A fault at address 5 of `lazyWorld` (cursor 0, two TLB slots), and the
fourth of four misses in a row, which lands in slot `3 mod 2`. -/
theorem C11_round_robin_refill_witness :
    0 < (smallConfig true id).PageSize ∧ 0 < (smallConfig true id).TLBSize ∧
    0 ≤ lazyWorld.space.last_modify ∧
    (lazyWorld.machine.registers.set 39 5)[(smallConfig true id).BadVAddrReg]? = some 5 ∧
    lazyWorld.space.pageTable[virtPageOf (smallConfig true id) 5]? =
      some ⟨1, -1, false, false, false, false⟩ ∧
    (∃ (w1 : World) (e1 : TranslationEntry),
      UpdateTLB (smallConfig true id)
          { lazyWorld with machine := { lazyWorld.machine with
              registers := lazyWorld.machine.registers.set 39 5 } } = .ok w1 ∧
      e1.valid = true ∧ w1.machine.tlb[0]? = some e1 ∧
      w1.machine.tlb[1]? = lazyWorld.machine.tlb[1]? ∧ w1.space.last_modify = 1) ∧
    lazyWorld.space.last_modify = 0 ∧
    missAll (smallConfig true id) [0, 4, 8] lazyWorld =
      .ok (missAll (smallConfig true id) [0, 4, 8] lazyWorld).state ∧
    tlbMiss (smallConfig true id) 12 (missAll (smallConfig true id) [0, 4, 8] lazyWorld).state =
      .ok (tlbMiss (smallConfig true id) 12
        (missAll (smallConfig true id) [0, 4, 8] lazyWorld).state).state ∧
    (∃ e : TranslationEntry,
      (tlbMiss (smallConfig true id) 12
          (missAll (smallConfig true id) [0, 4, 8] lazyWorld).state).state.machine.tlb =
        (missAll (smallConfig true id) [0, 4, 8] lazyWorld).state.machine.tlb.set 1 e) :=
  ⟨by decide, by decide, by decide, by decide, by decide,
    by
      obtain ⟨w1, e1, hrun, _, _, hval, _, hslot, hrest, hcur⟩ :=
        (C11_round_robin_refill (smallConfig true id) (by decide) (by decide)).1
          { lazyWorld with machine := { lazyWorld.machine with
              registers := lazyWorld.machine.registers.set 39 5 } }
          5 ⟨1, -1, false, false, false, false⟩ (by decide) (by decide) (by decide) (by decide)
          (by decide) (by decide) (by decide) (by decide) (by decide) (by decide)
      exact ⟨w1, e1, hrun, hval, hslot, hrest 1 (by decide), hcur⟩,
    by decide, by decide, by decide,
    (C11_round_robin_refill (smallConfig true id) (by decide) (by decide)).2 [0, 4, 8] lazyWorld
      (missAll (smallConfig true id) [0, 4, 8] lazyWorld).state
      (tlbMiss (smallConfig true id) 12 (missAll (smallConfig true id) [0, 4, 8] lazyWorld).state).state
      12 (by decide) (by decide) (by decide)⟩

/-! ## Stores to user memory -/

theorem int_div_mod_cast (a P : Nat) :
    ((a : Int) / (P : Int)).toNat = a / P ∧ (a : Int) % (P : Int) = ((a % P : Nat) : Int) := by
  constructor
  · rw [← Int.natCast_div]; exact Int.toNat_ofNat _
  · exact (Int.natCast_mod a P).symm

/-- The cell of an address in a staged page. -/
theorem userCell_staged (cfg : Config) (hP : 0 < cfg.PageSize) (w : World) (lo a : Nat)
    (hst : StagedFrom cfg w lo) (hlo : lo * cfg.PageSize ≤ a)
    (hhi : a < w.space.pageTable.length * cfg.PageSize) :
    ∃ (e : TranslationEntry) (f : Nat),
      w.space.pageTable[a / cfg.PageSize]? = some e ∧ e.physicalPage = (f : Int) ∧
      userCell cfg w a = some (f * cfg.PageSize + a % cfg.PageSize) ∧
      f * cfg.PageSize + a % cfg.PageSize < w.machine.mainMemory.length := by
  have hp1 : lo ≤ a / cfg.PageSize := (Nat.le_div_iff_mul_le hP).mpr hlo
  have hp2 : a / cfg.PageSize < w.space.pageTable.length := page_lt hhi
  obtain ⟨e, f, he, hv, hf, hin, _⟩ := hst.1 _ hp1 hp2
  have hmod := Nat.mod_lt a hP
  have hlt : f * cfg.PageSize + a % cfg.PageSize < w.machine.mainMemory.length := by
    have : (f + 1) * cfg.PageSize = f * cfg.PageSize + cfg.PageSize := by ring
    omega
  refine ⟨e, f, he, hf, ?_, hlt⟩
  obtain ⟨hd, hm⟩ := int_div_mod_cast a cfg.PageSize
  unfold userCell
  rw [if_neg (by omega), hd, he]
  simp only [hm, hf, hv, true_and]
  have hcast : (f : Int) * (cfg.PageSize : Int) + ((a % cfg.PageSize : Nat) : Int) =
      ((f * cfg.PageSize + a % cfg.PageSize : Nat) : Int) := by push_cast; rfl
  rw [hcast, if_pos ⟨Nat.cast_nonneg _, by exact_mod_cast hlt⟩]
  simp only [Int.toNat_ofNat]

/-- Two different addresses in staged pages have different cells. -/
theorem userCell_ne (cfg : Config) (hP : 0 < cfg.PageSize) (w : World) (lo a b : Nat)
    (hst : StagedFrom cfg w lo) (ha : lo * cfg.PageSize ≤ a)
    (ha2 : a < w.space.pageTable.length * cfg.PageSize) (hb : lo * cfg.PageSize ≤ b)
    (hb2 : b < w.space.pageTable.length * cfg.PageSize) (hab : a ≠ b) :
    userCell cfg w a ≠ userCell cfg w b := by
  obtain ⟨e1, f1, he1, hf1, hc1, _⟩ := userCell_staged cfg hP w lo a hst ha ha2
  obtain ⟨e2, f2, he2, hf2, hc2, _⟩ := userCell_staged cfg hP w lo b hst hb hb2
  rw [hc1, hc2]
  intro h
  obtain ⟨h1, h2⟩ := frame_offset_inj (Nat.mod_lt a hP) (Nat.mod_lt b hP) (Option.some.inj h)
  by_cases hpage : a / cfg.PageSize = b / cfg.PageSize
  · apply hab
    rw [← Nat.div_add_mod a cfg.PageSize, ← Nat.div_add_mod b cfg.PageSize, hpage, h2]
  · have := hst.2 _ _ e1 e2 ((Nat.le_div_iff_mul_le hP).mpr ha)
      ((Nat.le_div_iff_mul_le hP).mpr hb) he1 he2 hpage
    apply this
    rw [hf1, hf2, h1]

/-- Translation and staging only depend on the page table, the bitmap and the
size of memory. -/
theorem userCell_mem (cfg : Config) (w : World) (mem1 : List Nat)
    (hlen : mem1.length = w.machine.mainMemory.length) (x : Int) :
    userCell cfg { w with machine := { w.machine with mainMemory := mem1 } } x =
      userCell cfg w x := by
  unfold userCell
  simp only [hlen]

theorem StagedFrom_mem (cfg : Config) (w : World) (mem1 : List Nat) (lo : Nat)
    (hlen : mem1.length = w.machine.mainMemory.length) (hst : StagedFrom cfg w lo) :
    StagedFrom cfg { w with machine := { w.machine with mainMemory := mem1 } } lo := by
  unfold StagedFrom at hst ⊢
  simp only [hlen]
  exact hst

/-- One byte stored at an address of a staged page: only main memory changes;
the address reads back the byte and every other address in a staged page reads
as before. -/
theorem writeUserByte_staged (cfg : Config) (hP : 0 < cfg.PageSize) (w : World) (lo a b : Nat)
    (hst : StagedFrom cfg w lo) (hlo : lo * cfg.PageSize ≤ a)
    (hhi : a < w.space.pageTable.length * cfg.PageSize) :
    ∃ mem1 : List Nat,
      writeUserByte cfg (a : Int) b w =
        .ok { w with machine := { w.machine with mainMemory := mem1 } } ∧
      mem1.length = w.machine.mainMemory.length ∧
      userRead cfg { w with machine := { w.machine with mainMemory := mem1 } } a = some b ∧
      (∀ x : Nat, lo * cfg.PageSize ≤ x → x < w.space.pageTable.length * cfg.PageSize → x ≠ a →
        userRead cfg { w with machine := { w.machine with mainMemory := mem1 } } x =
          userRead cfg w x) := by
  obtain ⟨e, f, _, _, hc, hlt⟩ := userCell_staged cfg hP w lo a hst hlo hhi
  refine ⟨w.machine.mainMemory.set (f * cfg.PageSize + a % cfg.PageSize) b, ?_, ?_, ?_, ?_⟩
  · unfold writeUserByte
    rw [hc]
  · exact List.length_set _ _ _
  · unfold userRead
    rw [userCell_mem cfg w _ (List.length_set _ _ _), hc]
    exact List.getElem?_set_self hlt
  · intro x hx1 hx2 hxa
    have hne := userCell_ne cfg hP w lo x a hst hx1 hx2 hlo hhi hxa
    obtain ⟨_, g, _, _, hcx, _⟩ := userCell_staged cfg hP w lo x hst hx1 hx2
    unfold userRead
    rw [userCell_mem cfg w _ (List.length_set _ _ _), hcx]
    rw [hc, hcx] at hne
    exact List.getElem?_set_ne (fun h => hne (by rw [h]))

/-- The first `n` bytes of a string stored from address `a0` on, all in staged
pages: only main memory changes, the bytes read back, and every other address
in a staged page reads as before. -/
theorem writeBytes_staged (cfg : Config) (hP : 0 < cfg.PageSize) (w : World) (lo a0 : Nat)
    (bs : List Nat) (hst : StagedFrom cfg w lo) (hlo : lo * cfg.PageSize ≤ a0) (n : Nat)
    (hhi : a0 + n ≤ w.space.pageTable.length * cfg.PageSize) :
    ∃ mem1 : List Nat,
      forLoop n (fun k => writeUserByte cfg ((a0 : Int) + k) (bs.getD k 0)) w =
        .ok { w with machine := { w.machine with mainMemory := mem1 } } ∧
      mem1.length = w.machine.mainMemory.length ∧
      (∀ k, k < n →
        userRead cfg { w with machine := { w.machine with mainMemory := mem1 } }
          ((a0 + k : Nat) : Int) = some (bs.getD k 0)) ∧
      (∀ x : Nat, lo * cfg.PageSize ≤ x → x < w.space.pageTable.length * cfg.PageSize →
        (x < a0 ∨ a0 + n ≤ x) →
        userRead cfg { w with machine := { w.machine with mainMemory := mem1 } } x =
          userRead cfg w x) := by
  induction n with
  | zero => exact ⟨w.machine.mainMemory, rfl, rfl, fun k hk => absurd hk (Nat.not_lt_zero k),
      fun _ _ _ _ => rfl⟩
  | succ n ih =>
    obtain ⟨mem0, hrun, hlen, hread, hrest⟩ := ih (by omega)
    obtain ⟨mem1, hstep, hlen1, hself, hother⟩ := writeUserByte_staged cfg hP
      { w with machine := { w.machine with mainMemory := mem0 } } lo (a0 + n) (bs.getD n 0)
      (StagedFrom_mem cfg w mem0 lo hlen hst) (by omega)
      (by show a0 + n < w.space.pageTable.length * cfg.PageSize; omega)
    refine ⟨mem1, ?_, by rw [hlen1]; exact hlen, ?_, ?_⟩
    · show (forLoop n _ w).bind _ = _
      rw [hrun]
      simp only [Outcome.bind]
      have hcast : (a0 : Int) + (n : Int) = ((a0 + n : Nat) : Int) := by push_cast; rfl
      rw [hcast]
      exact hstep
    · intro k hk
      by_cases hkn : k = n
      · subst hkn
        exact hself
      · rw [hother (a0 + k) (by omega)
          (by show a0 + k < w.space.pageTable.length * cfg.PageSize; omega) (by omega)]
        exact hread k (by omega)
    · intro x hx1 hx2 hx3
      rw [hother x hx1 hx2 (by omega)]
      exact hrest x hx1 hx2 (by omega)

/-! ## Staging a page for the arguments -/

theorem cell_outside_frame {P f g o : Nat} (ho : o < P) (hfg : f ≠ g) :
    ¬ (g * P ≤ f * P + o ∧ f * P + o < g * P + P) := by
  rintro ⟨h1, h2⟩
  have hP : 0 < P := by omega
  have hf : (f * P + o) / P = f := by
    rw [Nat.add_comm, Nat.add_mul_div_right _ _ hP, Nat.div_eq_of_lt ho]; simp
  have hg : (f * P + o) / P = g :=
    Nat.div_eq_of_lt_le h1 (by rw [Nat.add_mul, Nat.one_mul]; exact h2)
  exact hfg (hf.symm.trans hg)

/-- Lines 296-299 on the page just below the staged ones, with a free frame:
the page becomes staged with a fresh frame and reads as zero, the pages staged
before read as before, and one frame fewer is free. -/
theorem stageTopPage_spec (cfg : Config) (hP : 0 < cfg.PageSize) (w : World) (q : Nat)
    (hq : q < w.space.pageTable.length) (hst : StagedFrom cfg w (q + 1))
    (hfree : 0 < NumClear w.memoryBitMap)
    (hmem : w.memoryBitMap.length * cfg.PageSize ≤ w.machine.mainMemory.length) :
    ∃ (pt1 : List TranslationEntry) (bm1 : List Bool) (mem1 : List Nat),
      stageTopPage cfg q w = .ok
        { space := { w.space with pageTable := pt1 }, memoryBitMap := bm1,
          machine := { w.machine with mainMemory := mem1 } } ∧
      pt1.length = w.space.pageTable.length ∧
      (∀ p, p ≠ q → pt1[p]? = w.space.pageTable[p]?) ∧
      bm1.length = w.memoryBitMap.length ∧
      NumClear bm1 + 1 = NumClear w.memoryBitMap ∧
      mem1.length = w.machine.mainMemory.length ∧
      StagedFrom cfg
        { space := { w.space with pageTable := pt1 }, memoryBitMap := bm1,
          machine := { w.machine with mainMemory := mem1 } } q ∧
      (∀ x : Nat, (q + 1) * cfg.PageSize ≤ x → x < w.space.pageTable.length * cfg.PageSize →
        userRead cfg
          { space := { w.space with pageTable := pt1 }, memoryBitMap := bm1,
            machine := { w.machine with mainMemory := mem1 } } x = userRead cfg w x) ∧
      (∀ x : Nat, q * cfg.PageSize ≤ x → x < (q + 1) * cfg.PageSize →
        userRead cfg
          { space := { w.space with pageTable := pt1 }, memoryBitMap := bm1,
            machine := { w.machine with mainMemory := mem1 } } x = some 0) := by
  have he : ∃ e, w.space.pageTable[q]? = some e := ⟨_, List.getElem?_eq_getElem hq⟩
  obtain ⟨e, he⟩ := he
  cases hF : Find w.memoryBitMap with
  | none => rw [Find_none_iff] at hF; omega
  | some pr =>
    obtain ⟨g, bm1⟩ := pr
    obtain ⟨hglt, hgclear, hbm1, hcount⟩ := Find_some _ _ _ hF
    have hgin : (g + 1) * cfg.PageSize ≤ w.machine.mainMemory.length :=
      le_trans (Nat.mul_le_mul_right _ hglt) hmem
    have hz := bzero_frame w.machine.mainMemory g cfg.PageSize hgin
    have hframe_ne : ∀ p (e1 : TranslationEntry) (f : Nat), q + 1 ≤ p →
        w.space.pageTable[p]? = some e1 → e1.physicalPage = (f : Int) → f ≠ g := by
      intro p e1 f hp hpe hpf hfg
      have hplt : p < w.space.pageTable.length := by
        by_contra hge
        rw [List.getElem?_eq_none (by omega)] at hpe
        cases hpe
      obtain ⟨e2, f2, h1, _, h3, _, h5⟩ := hst.1 p hp hplt
      rw [hpe] at h1
      have : e1 = e2 := Option.some.inj h1
      subst this
      have hff : f2 = f := by
        rw [hpf] at h3
        exact_mod_cast h3.symm
      subst hff
      rw [hfg, hgclear] at h5
      cases h5
    -- staging of the new state
    have hst1 : StagedFrom cfg
        { space := { w.space with
            pageTable := w.space.pageTable.set q { e with physicalPage := g, valid := true } },
          memoryBitMap := bm1,
          machine := { w.machine with
            mainMemory := zeroRange w.machine.mainMemory (g * cfg.PageSize) cfg.PageSize } }
        q := by
      constructor
      · intro p hp hplt
        simp only [List.length_set] at hplt
        by_cases hpq : p = q
        · subst hpq
          refine ⟨{ e with physicalPage := g, valid := true }, g, List.getElem?_set_self hq, rfl,
            rfl, by simp only [zeroRange_length]; exact hgin, ?_⟩
          show bm1[g]? = some true
          rw [hbm1]
          exact List.getElem?_set_self hglt
        · obtain ⟨e1, f, h1, h2, h3, h4, h5⟩ := hst.1 p (by omega) hplt
          refine ⟨e1, f, by
            show (List.set _ _ _)[p]? = _
            rw [List.getElem?_set_ne (Ne.symm hpq)]; exact h1, h2, h3,
            by simp only [zeroRange_length]; exact h4, ?_⟩
          show bm1[f]? = some true
          rw [hbm1, List.getElem?_set_ne (Ne.symm (hframe_ne p e1 f (by omega) h1 h3))]
          exact h5
      · intro p p2 e1 e2 hp hp2 h1 h2 hne
        simp only [] at h1 h2
        by_cases hpq : p = q
        · subst hpq
          rw [List.getElem?_set_self hq] at h1
          rw [List.getElem?_set_ne hne] at h2
          have hp2lt : p2 < w.space.pageTable.length := by
            by_contra hge
            rw [List.getElem?_eq_none (by omega)] at h2
            cases h2
          obtain ⟨e3, f, h3, _, h4, _, _⟩ := hst.1 p2 (by omega) hp2lt
          rw [h2] at h3
          have he23 : e2 = e3 := Option.some.inj h3
          subst he23
          rw [← Option.some.inj h1, h4]
          show (g : Int) ≠ (f : Int)
          exact_mod_cast Ne.symm (hframe_ne p2 e2 f (by omega) h2 h4)
        · rw [List.getElem?_set_ne (Ne.symm hpq)] at h1
          by_cases hp2q : p2 = q
          · subst hp2q
            rw [List.getElem?_set_self hq] at h2
            have hplt : p < w.space.pageTable.length := by
              by_contra hge
              rw [List.getElem?_eq_none (by omega)] at h1
              cases h1
            obtain ⟨e3, f, h3, _, h4, _, _⟩ := hst.1 p (by omega) hplt
            rw [h1] at h3
            have he13 : e1 = e3 := Option.some.inj h3
            subst he13
            rw [← Option.some.inj h2, h4]
            show (f : Int) ≠ (g : Int)
            exact_mod_cast hframe_ne p e1 f (by omega) h1 h4
          · rw [List.getElem?_set_ne (Ne.symm hp2q)] at h2
            exact hst.2 p p2 e1 e2 (by omega) (by omega) h1 h2 hne
    refine ⟨w.space.pageTable.set q { e with physicalPage := g, valid := true }, bm1,
      zeroRange w.machine.mainMemory (g * cfg.PageSize) cfg.PageSize, ?_, List.length_set _ _ _,
      fun p hp => List.getElem?_set_ne (Ne.symm hp), by rw [hbm1]; exact List.length_set _ _ _,
      hcount, zeroRange_length _ _ _, hst1, ?_, ?_⟩
    · unfold stageTopPage
      simp only [he, FindValue_some _ _ _ hF, zeroFrame_nat]
    · intro x hx1 hx2
      obtain ⟨e1, f, h1, h2, h3, h4⟩ := userCell_staged cfg hP w (q + 1) x hst hx1 hx2
      obtain ⟨e2, f2, k1, k2, k3, k4⟩ := userCell_staged cfg hP _ q x hst1
        (le_trans (Nat.mul_le_mul_right _ (Nat.le_succ q)) hx1)
        (by simp only [List.length_set]; exact hx2)
      have hpage : q + 1 ≤ x / cfg.PageSize := (Nat.le_div_iff_mul_le hP).mpr hx1
      simp only [] at k1
      rw [List.getElem?_set_ne (by omega), h1] at k1
      have he12 : e1 = e2 := Option.some.inj k1
      subst he12
      have hff : f = f2 := by
        rw [h2] at k2
        exact_mod_cast k2
      subst hff
      unfold userRead
      rw [k3, h3]
      exact zeroRange_outside _ _ _ _
        (cell_outside_frame (Nat.mod_lt x hP) (hframe_ne _ e1 f hpage h1 h2))
    · intro x hx1 hx2
      obtain ⟨e2, f2, k1, k2, k3, k4⟩ := userCell_staged cfg hP _ q x hst1 hx1
        (by
          simp only [List.length_set]
          exact lt_of_lt_of_le hx2 (Nat.mul_le_mul_right _ hq))
      have hpage : x / cfg.PageSize = q :=
        Nat.div_eq_of_lt_le hx1 hx2
      simp only [] at k1
      rw [hpage, List.getElem?_set_self hq] at k1
      have hfg : f2 = g := by
        rw [← Option.some.inj k1] at k2
        have k5 : (g : Int) = (f2 : Int) := k2
        exact_mod_cast k5.symm
      subst hfg
      unfold userRead
      rw [k3]
      simp only [zeroRange_length] at k4
      exact zeroRange_inside _ _ _ _ (Nat.le_add_right _ _)
        (Nat.add_lt_add_left (Nat.mod_lt x hP) _) k4

/-! ## The first loop of `LoadArguments` -/

theorem strBytes_succ (argv : List (List Nat)) (i : Nat) (str : List Nat)
    (hs : argv[i]? = some str) : strBytes argv (i + 1) = strBytes argv i + (str.length + 1) := by
  unfold strBytes
  rw [List.take_succ, hs]
  simp

theorem strBytes_zero (argv : List (List Nat)) : strBytes argv 0 = 0 := by
  simp [strBytes]

theorem strBytes_mono (argv : List (List Nat)) (i j : Nat) (hij : i ≤ j) :
    strBytes argv i ≤ strBytes argv j := by
  induction j with
  | zero =>
    have : i = 0 := by omega
    subst this
    exact Nat.le_refl _
  | succ j ih =>
    by_cases h : i = j + 1
    · subst h
      exact Nat.le_refl _
    · refine le_trans (ih (by omega)) ?_
      unfold strBytes
      rw [List.take_succ]
      simp

theorem pagesStaged_step (P : Nat) (argv : List (List Nat)) (i : Nat) :
    pagesStaged P argv i ≤ pagesStaged P argv (i + 1) ∧
      pagesStaged P argv (i + 1) ≤ pagesStaged P argv i + 1 := by
  have h : pagesStaged P argv (i + 1) =
      if 4 * argv.length + strBytes argv (i + 1) > P * pagesStaged P argv i then
        pagesStaged P argv i + 1
      else pagesStaged P argv i := rfl
  rw [h]
  split <;> omega

theorem pagesStaged_mono (P : Nat) (argv : List (List Nat)) (i j : Nat) (hij : i ≤ j) :
    pagesStaged P argv i ≤ pagesStaged P argv j := by
  induction j with
  | zero =>
    have : i = 0 := by omega
    subst this
    exact Nat.le_refl _
  | succ j ih =>
    by_cases h : i = j + 1
    · subst h
      exact Nat.le_refl _
    · exact le_trans (ih (by omega)) (pagesStaged_step P argv j).1

/-- The bytes of a string stored by `writeString` in staged pages read back,
and every other address in a staged page reads as before. -/
theorem writeString_staged (cfg : Config) (hP : 0 < cfg.PageSize) (w : World) (lo a0 : Nat)
    (bs : List Nat) (hst : StagedFrom cfg w lo) (hlo : lo * cfg.PageSize ≤ a0)
    (hhi : a0 + bs.length ≤ w.space.pageTable.length * cfg.PageSize) :
    ∃ mem1 : List Nat,
      writeString cfg (a0 : Int) bs w =
        .ok { w with machine := { w.machine with mainMemory := mem1 } } ∧
      mem1.length = w.machine.mainMemory.length ∧
      (∀ k, k < bs.length →
        userRead cfg { w with machine := { w.machine with mainMemory := mem1 } }
          ((a0 + k : Nat) : Int) = some (bs.getD k 0)) ∧
      (∀ x : Nat, lo * cfg.PageSize ≤ x → x < w.space.pageTable.length * cfg.PageSize →
        (x < a0 ∨ a0 + bs.length ≤ x) →
        userRead cfg { w with machine := { w.machine with mainMemory := mem1 } } x =
          userRead cfg w x) :=
  writeBytes_staged cfg hP w lo a0 bs hst hlo bs.length hhi

theorem toUInt32_of_nat {n : Nat} (h : n < 4294967296) : toUInt32 (n : Int) = n := by
  unfold toUInt32
  omega

/-- One iteration of the first loop of `LoadArguments` whose string fits in the
staged pages: a page is staged if the count asks for one, the string is stored
below the strings before it, and the bytes above it read as before. -/
theorem argStep_spec (cfg : Config) (hP : 0 < cfg.PageSize) (w : World) (l : ArgLocals)
    (i c c1 S T : Nat) (str : List Nat)
    (hs : w.space.argv[i]? = some str)
    (N : Nat) (hN : w.space.pageTable.length = N) (hnp : w.space.numPages = N)
    (hNb : N < 4294967296)
    (hsp : l.sp = ((N * cfg.PageSize - S : Nat) : Int))
    (hcp : l.cantPag = (c : Int))
    (htmp : l.tmpSize = (T : Int))
    (hc1 : c1 = if T + (str.length + 1) > cfg.PageSize * c then c + 1 else c)
    (hc1N : c1 ≤ N)
    (hfit : S + (str.length + 1) ≤ cfg.PageSize * c1)
    (hst : StagedFrom cfg w (N - c))
    (hfree : c1 ≤ c + NumClear w.memoryBitMap)
    (hmem : w.memoryBitMap.length * cfg.PageSize ≤ w.machine.mainMemory.length) :
    ∃ (pt1 : List TranslationEntry) (bm1 : List Bool) (mem1 : List Nat),
      argStep cfg i (w, l) = .ok
        ({ space := { w.space with pageTable := pt1 }, memoryBitMap := bm1,
           machine := { w.machine with mainMemory := mem1 } },
         { sp := ((N * cfg.PageSize - (S + (str.length + 1)) : Nat) : Int),
           cantPag := (c1 : Int), tmpSize := ((T + (str.length + 1) : Nat) : Int),
           args := l.args ++
             [((N * cfg.PageSize - (S + (str.length + 1)) : Nat) : Int)] }) ∧
      pt1.length = N ∧
      bm1.length = w.memoryBitMap.length ∧
      mem1.length = w.machine.mainMemory.length ∧
      NumClear bm1 + c1 = NumClear w.memoryBitMap + c ∧
      StagedFrom cfg
        { space := { w.space with pageTable := pt1 }, memoryBitMap := bm1,
          machine := { w.machine with mainMemory := mem1 } }
        (N - c1) ∧
      (∀ k, k ≤ str.length →
        userRead cfg
          { space := { w.space with pageTable := pt1 }, memoryBitMap := bm1,
            machine := { w.machine with mainMemory := mem1 } }
          ((N * cfg.PageSize - (S + (str.length + 1)) + k : Nat) : Int)
          = some ((str ++ [0]).getD k 0)) ∧
      (∀ x : Nat, (N - c) * cfg.PageSize ≤ x →
        N * cfg.PageSize - S ≤ x →
        x < N * cfg.PageSize →
        userRead cfg
          { space := { w.space with pageTable := pt1 }, memoryBitMap := bm1,
            machine := { w.machine with mainMemory := mem1 } } x = userRead cfg w x) := by
  subst hN
  have hlo : (w.space.pageTable.length - c1) * cfg.PageSize ≤
      w.space.pageTable.length * cfg.PageSize - (S + (str.length + 1)) := by
    rw [Nat.sub_mul, Nat.mul_comm c1]
    omega
  have hc1P : cfg.PageSize * c1 ≤ w.space.pageTable.length * cfg.PageSize := by
    rw [Nat.mul_comm]
    exact Nat.mul_le_mul_right _ hc1N
  have haddr : l.sp - ((str.length : Int) + 1) =
      ((w.space.pageTable.length * cfg.PageSize - (S + (str.length + 1)) : Nat) : Int) := by
    rw [hsp]
    omega
  have hlen : (str ++ [0]).length = str.length + 1 := by simp
  by_cases hc : T + (str.length + 1) > cfg.PageSize * c
  · rw [if_pos hc] at hc1
    subst hc1
    have hInt : (T : Int) + ((str.length : Int) + 1) > (cfg.PageSize : Int) * (c : Int) := by
      exact_mod_cast hc
    have hidx : toUInt32 ((w.space.numPages : Int) - ((c : Int) + 1)) =
        w.space.pageTable.length - (c + 1) := by
      rw [hnp]
      have h1 : ((w.space.pageTable.length : Int) - ((c : Int) + 1)) =
          ((w.space.pageTable.length - (c + 1) : Nat) : Int) := by omega
      rw [h1]
      exact toUInt32_of_nat (by omega)
    have hst0 : StagedFrom cfg w (w.space.pageTable.length - (c + 1) + 1) := by
      have h1 : w.space.pageTable.length - (c + 1) + 1 = w.space.pageTable.length - c := by omega
      rw [h1]
      exact hst
    obtain ⟨pt1, bm1, mem1, hrun, hptl, hpt, hbml, hcnt, hml, hst1, hold, hnew⟩ :=
      stageTopPage_spec cfg hP w (w.space.pageTable.length - (c + 1)) (by omega) hst0
        (by omega) hmem
    obtain ⟨mem2, hw, hl2, hrd, hoth⟩ := writeString_staged cfg hP
      { space := { w.space with pageTable := pt1 }, memoryBitMap := bm1,
        machine := { w.machine with mainMemory := mem1 } }
      (w.space.pageTable.length - (c + 1))
      (w.space.pageTable.length * cfg.PageSize - (S + (str.length + 1))) (str ++ [0]) hst1 hlo
      (by
        show _ ≤ pt1.length * cfg.PageSize
        rw [hlen, hptl]
        omega)
    refine ⟨pt1, bm1, mem2, ?_, hptl, hbml, by rw [← hml]; exact hl2, by omega,
      StagedFrom_mem cfg _ mem2 _ hl2 hst1, ?_, ?_⟩
    · simp only [argStep, hs, hcp, htmp, hInt, if_true, hidx, hrun, withLocals, Outcome.bind,
        haddr, hw]
      simp only [Nat.cast_add, Nat.cast_one, Nat.cast_ofNat]
    · intro k hk
      exact hrd k (by rw [hlen]; omega)
    · intro x hx1 hx2 hx3
      have h1 := hoth x
        (le_trans (Nat.mul_le_mul_right _ (Nat.sub_le_sub_left (Nat.le_succ c) _)) hx1)
        (by show x < pt1.length * cfg.PageSize; rw [hptl]; exact hx3)
        (Or.inr (by rw [hlen]; omega))
      rw [h1]
      exact hold x (by
        have h2 : w.space.pageTable.length - (c + 1) + 1 = w.space.pageTable.length - c := by
          omega
        rw [h2]; exact hx1) hx3
  · rw [if_neg hc] at hc1
    subst hc1
    have hInt : ¬ (T : Int) + ((str.length : Int) + 1) > (cfg.PageSize : Int) * (c1 : Int) := by
      exact_mod_cast hc
    obtain ⟨mem2, hw, hl2, hrd, hoth⟩ := writeString_staged cfg hP w
      (w.space.pageTable.length - c1)
      (w.space.pageTable.length * cfg.PageSize - (S + (str.length + 1))) (str ++ [0]) hst hlo
      (by rw [hlen]; omega)
    refine ⟨w.space.pageTable, w.memoryBitMap, mem2, ?_, rfl, rfl, hl2, rfl,
      StagedFrom_mem cfg _ mem2 _ hl2 hst, ?_, ?_⟩
    · simp only [argStep, hs, hcp, htmp, hInt, if_false, withLocals, Outcome.bind, haddr, hw]
      simp only [Nat.cast_add, Nat.cast_one, Nat.cast_ofNat]
    · intro k hk
      exact hrd k (by rw [hlen]; omega)
    · intro x hx1 hx2 hx3
      exact hoth x hx1 hx3 (Or.inr (by rw [hlen]; omega))

/-- The first loop of `LoadArguments` on arguments that fit: after `i`
iterations the first `i` strings are stored, first argument on top, in pages
staged with frames of their own. -/
theorem argLoop_spec (cfg : Config) (hP : 0 < cfg.PageSize) (w : World) (N : Nat)
    (hN : w.space.pageTable.length = N) (hnp : w.space.numPages = N)
    (hNb : N < 4294967296)
    (hfit : ArgsFit cfg w)
    (hfree : pagesStaged cfg.PageSize w.space.argv w.space.argv.length ≤ NumClear w.memoryBitMap)
    (hmem : w.memoryBitMap.length * cfg.PageSize ≤ w.machine.mainMemory.length)
    (i : Nat) (hi : i ≤ w.space.argv.length) :
    ∃ (pt1 : List TranslationEntry) (bm1 : List Bool) (mem1 : List Nat),
      forLoop i (argStep cfg)
        (w, { sp := ((N * cfg.PageSize : Nat) : Int), cantPag := 0,
              tmpSize := ((4 * w.space.argv.length : Nat) : Int), args := [] }) = .ok
        ({ space := { w.space with pageTable := pt1 }, memoryBitMap := bm1,
           machine := { w.machine with mainMemory := mem1 } },
         { sp := ((N * cfg.PageSize - strBytes w.space.argv i : Nat) : Int),
           cantPag := (pagesStaged cfg.PageSize w.space.argv i : Int),
           tmpSize := ((4 * w.space.argv.length + strBytes w.space.argv i : Nat) : Int),
           args := (List.range i).map fun j =>
             ((N * cfg.PageSize - strBytes w.space.argv (j + 1) : Nat) : Int) }) ∧
      pt1.length = N ∧
      bm1.length = w.memoryBitMap.length ∧
      mem1.length = w.machine.mainMemory.length ∧
      NumClear bm1 + pagesStaged cfg.PageSize w.space.argv i = NumClear w.memoryBitMap ∧
      StagedFrom cfg
        { space := { w.space with pageTable := pt1 }, memoryBitMap := bm1,
          machine := { w.machine with mainMemory := mem1 } }
        (N - pagesStaged cfg.PageSize w.space.argv i) ∧
      (∀ j str k, j < i → w.space.argv[j]? = some str → k ≤ str.length →
        userRead cfg
          { space := { w.space with pageTable := pt1 }, memoryBitMap := bm1,
            machine := { w.machine with mainMemory := mem1 } }
          ((N * cfg.PageSize - strBytes w.space.argv (j + 1) + k : Nat) : Int)
          = some ((str ++ [0]).getD k 0)) := by
  induction i with
  | zero =>
    refine ⟨w.space.pageTable, w.memoryBitMap, w.machine.mainMemory, ?_, hN, rfl, rfl, rfl, ?_,
      fun j _ _ hj => absurd hj (Nat.not_lt_zero j)⟩
    · show Outcome.ok _ = Outcome.ok _
      simp only [strBytes_zero, List.range_zero, List.map_nil, Nat.sub_zero, Nat.add_zero]
      rfl
    · constructor
      · intro p hp hplt
        have h1 : p < N := by rw [← hN]; exact hplt
        have h2 : pagesStaged cfg.PageSize w.space.argv 0 = 0 := rfl
        omega
      · intro p q e1 e2 hp _ h1 _ _
        have h2 : pagesStaged cfg.PageSize w.space.argv 0 = 0 := rfl
        have h3 : w.space.pageTable[p]? = none :=
          List.getElem?_eq_none (by rw [hN]; omega)
        rw [h3] at h1
        cases h1
  | succ i ih =>
    obtain ⟨pt1, bm1, mem1, hrun, hptl, hbml, hml, hcnt, hst, hstr⟩ := ih (by omega)
    obtain ⟨str, hs⟩ : ∃ str, w.space.argv[i]? = some str :=
      ⟨_, List.getElem?_eq_getElem (by omega)⟩
    have hS := strBytes_succ w.space.argv i str hs
    have hc1 : pagesStaged cfg.PageSize w.space.argv (i + 1) =
        if 4 * w.space.argv.length + strBytes w.space.argv i + (str.length + 1) >
            cfg.PageSize * pagesStaged cfg.PageSize w.space.argv i then
          pagesStaged cfg.PageSize w.space.argv i + 1
        else pagesStaged cfg.PageSize w.space.argv i := by
      have h : pagesStaged cfg.PageSize w.space.argv (i + 1) =
          if 4 * w.space.argv.length + strBytes w.space.argv (i + 1) >
              cfg.PageSize * pagesStaged cfg.PageSize w.space.argv i then
            pagesStaged cfg.PageSize w.space.argv i + 1
          else pagesStaged cfg.PageSize w.space.argv i := rfl
      rw [h, hS, Nat.add_assoc]
    have hmono := pagesStaged_mono cfg.PageSize w.space.argv (i + 1) w.space.argv.length hi
    have hcN : pagesStaged cfg.PageSize w.space.argv w.space.argv.length ≤ N := by
      rw [← hnp]
      exact hfit.2.1
    have hstep1 := pagesStaged_step cfg.PageSize w.space.argv i
    have hfit1 := hfit.1 i (by omega)
    rw [hS] at hfit1
    obtain ⟨pt2, bm2, mem2, hstep, hptl2, hbml2, hml2, hcnt2, hst2, hnew, hold⟩ :=
      argStep_spec cfg hP
        { space := { w.space with pageTable := pt1 }, memoryBitMap := bm1,
          machine := { w.machine with mainMemory := mem1 } }
        { sp := ((N * cfg.PageSize - strBytes w.space.argv i : Nat) : Int),
          cantPag := (pagesStaged cfg.PageSize w.space.argv i : Int),
          tmpSize := ((4 * w.space.argv.length + strBytes w.space.argv i : Nat) : Int),
          args := (List.range i).map fun j =>
            ((N * cfg.PageSize - strBytes w.space.argv (j + 1) : Nat) : Int) }
        i (pagesStaged cfg.PageSize w.space.argv i) (pagesStaged cfg.PageSize w.space.argv (i + 1))
        (strBytes w.space.argv i) (4 * w.space.argv.length + strBytes w.space.argv i) str hs
        N hptl hnp hNb rfl rfl rfl hc1 (le_trans hmono hcN) hfit1 hst
        (by
          show _ ≤ _ + NumClear bm1
          omega)
        (by
          show bm1.length * cfg.PageSize ≤ mem1.length
          rw [hbml, hml]
          exact hmem)
    refine ⟨pt2, bm2, mem2, ?_, hptl2, by rw [hbml2]; exact hbml, by rw [hml2]; exact hml,
      ?_, hst2, ?_⟩
    · show (forLoop i _ _).bind _ = _
      rw [hrun]
      show argStep cfg i _ = _
      rw [hstep]
      simp only [List.range_succ, List.map_append, List.map_cons, List.map_nil, hS, Nat.add_assoc]
    · have h1 : NumClear bm2 + pagesStaged cfg.PageSize w.space.argv (i + 1) =
          NumClear bm1 + pagesStaged cfg.PageSize w.space.argv i := hcnt2
      omega
    · intro j str1 k hj hs1 hk
      by_cases hji : j = i
      · subst hji
        rw [hs] at hs1
        have h1 : str = str1 := Option.some.inj hs1
        subst h1
        rw [hS]
        exact hnew k hk
      · have hjlt : j < i := by omega
        have hS1 := strBytes_succ w.space.argv j str1 hs1
        have hm1 := strBytes_mono w.space.argv (j + 1) i (by omega)
        have hf1 := hfit.1 j (by omega)
        have hp1 := pagesStaged_mono cfg.PageSize w.space.argv (j + 1) i (by omega)
        have hp2 : pagesStaged cfg.PageSize w.space.argv i ≤ N :=
          le_trans (le_trans hstep1.1 hmono) hcN
        have hp3 : cfg.PageSize * pagesStaged cfg.PageSize w.space.argv (j + 1) ≤
            cfg.PageSize * pagesStaged cfg.PageSize w.space.argv i :=
          Nat.mul_le_mul_left _ hp1
        have hp4 : cfg.PageSize * pagesStaged cfg.PageSize w.space.argv i ≤ N * cfg.PageSize := by
          rw [Nat.mul_comm]
          exact Nat.mul_le_mul_right _ hp2
        have hp5 : (N - pagesStaged cfg.PageSize w.space.argv i) * cfg.PageSize =
            N * cfg.PageSize - cfg.PageSize * pagesStaged cfg.PageSize w.space.argv i := by
          rw [Nat.sub_mul, Nat.mul_comm (pagesStaged cfg.PageSize w.space.argv i)]
        have h2 := hold (N * cfg.PageSize - strBytes w.space.argv (j + 1) + k)
          (by rw [hp5]; omega) (by omega) (by omega)
        rw [h2]
        exact hstr j str1 k hjlt hs1 hk

/-! ## The pointer table of `LoadArguments` -/

theorem toUInt32_lt (x : Int) : toUInt32 x < 4294967296 := by
  unfold toUInt32
  omega

theorem wordBytes_value (v : Int) :
    (wordBytes v).getD 0 0 + 256 * (wordBytes v).getD 1 0 + 65536 * (wordBytes v).getD 2 0
      + 16777216 * (wordBytes v).getD 3 0 = toUInt32 v := by
  have h := toUInt32_lt v
  simp only [wordBytes, List.getD_cons_zero, List.getD_cons_succ]
  omega

theorem userReadWord_congr (cfg : Config) (w1 w2 : World) (a : Int)
    (h0 : userRead cfg w1 a = userRead cfg w2 a)
    (h1 : userRead cfg w1 (a + 1) = userRead cfg w2 (a + 1))
    (h2 : userRead cfg w1 (a + 2) = userRead cfg w2 (a + 2))
    (h3 : userRead cfg w1 (a + 3) = userRead cfg w2 (a + 3)) :
    userReadWord cfg w1 a = userReadWord cfg w2 a := by
  unfold userReadWord
  rw [h0, h1, h2, h3]

/-- The second loop of `LoadArguments` with the table in staged pages: after
`j` iterations the first `j` words of the table hold the first `j` addresses,
and every other address in a staged page reads as before. -/
theorem tableLoop_spec (cfg : Config) (hP : 0 < cfg.PageSize) (w : World) (lo T : Nat)
    (args : List Int) (hst : StagedFrom cfg w lo) (hlo : lo * cfg.PageSize ≤ T) (j : Nat)
    (hj : j ≤ args.length) (hhi : T + 4 * j ≤ w.space.pageTable.length * cfg.PageSize) :
    ∃ mem1 : List Nat,
      forLoop j (tableStep cfg args) (w, (T : Int)) =
        .ok ({ w with machine := { w.machine with mainMemory := mem1 } },
             ((T + 4 * j : Nat) : Int)) ∧
      mem1.length = w.machine.mainMemory.length ∧
      (∀ i a, i < j → args[i]? = some a →
        userReadWord cfg { w with machine := { w.machine with mainMemory := mem1 } }
          ((T + 4 * i : Nat) : Int) = some (toUInt32 a)) ∧
      (∀ x : Nat, lo * cfg.PageSize ≤ x → x < w.space.pageTable.length * cfg.PageSize →
        (x < T ∨ T + 4 * j ≤ x) →
        userRead cfg { w with machine := { w.machine with mainMemory := mem1 } } x =
          userRead cfg w x) := by
  induction j with
  | zero =>
    exact ⟨w.machine.mainMemory, rfl, rfl, fun i _ hi => absurd hi (Nat.not_lt_zero i),
      fun _ _ _ _ => rfl⟩
  | succ j ih =>
    obtain ⟨mem1, hrun, hl1, hwords, hrest⟩ := ih (by omega) (by omega)
    obtain ⟨a, ha⟩ : ∃ a, args[j]? = some a := ⟨_, List.getElem?_eq_getElem (by omega)⟩
    obtain ⟨mem2, hw, hl2, hrd, hoth⟩ := writeString_staged cfg hP
      { w with machine := { w.machine with mainMemory := mem1 } } lo (T + 4 * j) (wordBytes a)
      (StagedFrom_mem cfg w mem1 lo hl1 hst) (by omega)
      (by
        show T + 4 * j + 4 ≤ w.space.pageTable.length * cfg.PageSize
        omega)
    refine ⟨mem2, ?_, by rw [← hl1]; exact hl2, ?_, ?_⟩
    · show (forLoop j _ _).bind _ = _
      rw [hrun]
      show tableStep cfg args j _ = _
      simp only [tableStep, ha, writeUserWord, hw]
      have h1 : ((T + 4 * j : Nat) : Int) + 4 = ((T + 4 * (j + 1) : Nat) : Int) := by omega
      rw [h1]
    · intro i a1 hi ha1
      by_cases hij : i = j
      · subst hij
        rw [ha] at ha1
        have h1 : a = a1 := Option.some.inj ha1
        subst h1
        have r0 := hrd 0 (show 0 < 4 by omega)
        have r1 := hrd 1 (show 1 < 4 by omega)
        have r2 := hrd 2 (show 2 < 4 by omega)
        have r3 := hrd 3 (show 3 < 4 by omega)
        unfold userReadWord
        have c1 : ((T + 4 * i : Nat) : Int) + 1 = ((T + 4 * i + 1 : Nat) : Int) := by omega
        have c2 : ((T + 4 * i : Nat) : Int) + 2 = ((T + 4 * i + 2 : Nat) : Int) := by omega
        have c3 : ((T + 4 * i : Nat) : Int) + 3 = ((T + 4 * i + 3 : Nat) : Int) := by omega
        rw [c1, c2, c3]
        rw [Nat.add_zero] at r0
        simp only [r0, r1, r2, r3]
        rw [wordBytes_value]
      · have hlt : i < j := by omega
        rw [← hwords i a1 hlt ha1]
        have c1 : ((T + 4 * i : Nat) : Int) + 1 = ((T + 4 * i + 1 : Nat) : Int) := by omega
        have c2 : ((T + 4 * i : Nat) : Int) + 2 = ((T + 4 * i + 2 : Nat) : Int) := by omega
        have c3 : ((T + 4 * i : Nat) : Int) + 3 = ((T + 4 * i + 3 : Nat) : Int) := by omega
        apply userReadWord_congr
        · exact hoth (T + 4 * i) (by omega) (by show _ < w.space.pageTable.length * _; omega)
            (Or.inl (by omega))
        · rw [c1]
          exact hoth (T + 4 * i + 1) (by omega) (by show _ < w.space.pageTable.length * _; omega)
            (Or.inl (by omega))
        · rw [c2]
          exact hoth (T + 4 * i + 2) (by omega) (by show _ < w.space.pageTable.length * _; omega)
            (Or.inl (by omega))
        · rw [c3]
          exact hoth (T + 4 * i + 3) (by omega) (by show _ < w.space.pageTable.length * _; omega)
            (Or.inl (by omega))
    · intro x hx1 hx2 hx3
      have h1 := hoth x hx1 hx2 (by
        have h4 : (wordBytes a).length = 4 := rfl
        rw [h4]
        omega)
      rw [h1]
      exact hrest x hx1 hx2 (by omega)

/-! ## `LoadArguments` on arguments that fit -/

theorem tableBase_eq (cfg : Config) (w : World) (hfit : ArgsFit cfg w)
    (hargc : w.space.argc = (w.space.argv.length : Int)) :
    ((w.space.numPages * cfg.PageSize - strBytes w.space.argv w.space.argv.length : Nat) : Int)
        - w.space.argc * 4
      - cMod (((w.space.numPages * cfg.PageSize
          - strBytes w.space.argv w.space.argv.length : Nat) : Int) - w.space.argc * 4) 4
      = (tableBase cfg w : Int) := by
  have h3 := hfit.2.2.1
  have h1 : ((w.space.numPages * cfg.PageSize
        - strBytes w.space.argv w.space.argv.length : Nat) : Int) - w.space.argc * 4 =
      ((w.space.numPages * cfg.PageSize - strBytes w.space.argv w.space.argv.length
        - 4 * w.space.argv.length : Nat) : Int) := by
    rw [hargc]
    omega
  rw [h1]
  unfold cMod tableBase
  have h2 := Int.ofNat_tmod (w.space.numPages * cfg.PageSize
    - strBytes w.space.argv w.space.argv.length - 4 * w.space.argv.length) 4
  simp only [Int.ofNat_eq_coe, Nat.cast_ofNat] at h2
  rw [← h2]
  omega

/-- The three register writes of `LoadArguments` (lines 308-310). -/
theorem writeArgRegisters (sr : Nat) (v a t : Int) (w : World)
    (hsr : sr < w.machine.registers.length) (h5 : 5 < w.machine.registers.length) :
    ((WriteRegister sr v w).bind (WriteRegister 4 a)).bind (WriteRegister 5 t) = .ok
      { w with machine := { w.machine with
          registers := ((w.machine.registers.set sr v).set 4 a).set 5 t } } := by
  rw [WriteRegister_ok sr v w hsr]
  show (WriteRegister 4 _ _).bind _ = _
  rw [WriteRegister_ok 4 a _ (show 4 < (w.machine.registers.set _ _).length by
    rw [List.length_set]; omega)]
  show WriteRegister 5 _ _ = _
  rw [WriteRegister_ok 5 t _ (show 5 < ((w.machine.registers.set _ _).set _ _).length by
    rw [List.length_set, List.length_set]; omega)]

/-- The three phases of `LoadArguments` in sequence: the strings, the registers
and the pointer table. -/
theorem LoadArguments_ok (cfg : Config) (w : World) (s : World × ArgLocals) (w1 : World)
    (s1 : World × Int)
    (h1 : forLoop w.space.argc.toNat (argStep cfg)
      (w, { sp := toInt32 (w.space.numPages * cfg.PageSize), cantPag := 0,
            tmpSize := 4 * w.space.argc, args := [] }) = .ok s)
    (h2 : ((WriteRegister cfg.StackReg
        (s.2.sp - w.space.argc * 4 - cMod (s.2.sp - w.space.argc * 4) 4 - 4 * 4) s.1).bind
          (WriteRegister 4 w.space.argc)).bind
        (WriteRegister 5 (s.2.sp - w.space.argc * 4 - cMod (s.2.sp - w.space.argc * 4) 4))
        = .ok w1)
    (h3 : forLoop w.space.argc.toNat (tableStep cfg s.2.args)
      (w1, s.2.sp - w.space.argc * 4 - cMod (s.2.sp - w.space.argc * 4) 4) = .ok s1) :
    LoadArguments cfg w = .ok s1.1 := by
  simp only [LoadArguments, h1, h2, h3]

/-- The method `LoadArguments` on arguments that fit in the pages it stages:
it succeeds, only the page table, the bitmap, memory and three registers
change, the strings read back at the addresses `argAddr`, and the words of the
table at `tableBase` hold those addresses. -/
theorem LoadArguments_spec (cfg : Config) (hP : 0 < cfg.PageSize) (w : World)
    (hnp : w.space.pageTable.length = w.space.numPages)
    (hNb : w.space.numPages * cfg.PageSize < 2147483648)
    (hargc : w.space.argc = (w.space.argv.length : Int))
    (hfit : ArgsFit cfg w)
    (hfree : pagesStaged cfg.PageSize w.space.argv w.space.argv.length ≤ NumClear w.memoryBitMap)
    (hmem : w.memoryBitMap.length * cfg.PageSize ≤ w.machine.mainMemory.length)
    (hsr : cfg.StackReg < w.machine.registers.length)
    (h5 : 5 < w.machine.registers.length) :
    ∃ (pt1 : List TranslationEntry) (bm1 : List Bool) (mem1 : List Nat),
      LoadArguments cfg w = .ok
        { space := { w.space with pageTable := pt1 }, memoryBitMap := bm1,
          machine := { w.machine with
            mainMemory := mem1,
            registers := ((w.machine.registers.set cfg.StackReg ((tableBase cfg w : Int) - 4 * 4)).set
              4 w.space.argc).set 5 (tableBase cfg w : Int) } } ∧
      pt1.length = w.space.numPages ∧
      (∀ j str k, j < w.space.argv.length → w.space.argv[j]? = some str → k ≤ str.length →
        userRead cfg
          { space := { w.space with pageTable := pt1 }, memoryBitMap := bm1,
            machine := { w.machine with mainMemory := mem1 } }
          ((argAddr cfg w j + k : Nat) : Int) = some ((str ++ [0]).getD k 0)) ∧
      (∀ j, j < w.space.argv.length →
        userReadWord cfg
          { space := { w.space with pageTable := pt1 }, memoryBitMap := bm1,
            machine := { w.machine with mainMemory := mem1 } }
          ((tableBase cfg w + 4 * j : Nat) : Int) = some (argAddr cfg w j)) := by
  have hNP : w.space.numPages < 4294967296 := by
    have h1 : w.space.numPages * 1 ≤ w.space.numPages * cfg.PageSize :=
      Nat.mul_le_mul_left _ hP
    omega
  obtain ⟨pt1, bm1, mem1, hrun, hptl, hbml, hml, hcnt, hst, hstr⟩ :=
    argLoop_spec cfg hP w w.space.numPages hnp rfl hNP hfit hfree hmem w.space.argv.length
      (Nat.le_refl _)
  have e1 : w.space.argc.toNat = w.space.argv.length := by
    rw [hargc]
    exact Int.toNat_natCast _
  have e2 : toInt32 (w.space.numPages * cfg.PageSize) =
      ((w.space.numPages * cfg.PageSize : Nat) : Int) := toInt32_of_lt hNb
  have e3 : (4 : Int) * w.space.argc = ((4 * w.space.argv.length : Nat) : Int) := by
    rw [hargc]
    omega
  have e4 := tableBase_eq cfg w hfit hargc
  have hregs : ((WriteRegister cfg.StackReg ((tableBase cfg w : Int) - 4 * 4)
        { space := { w.space with pageTable := pt1 }, memoryBitMap := bm1,
          machine := { w.machine with mainMemory := mem1 } }).bind
          (WriteRegister 4 w.space.argc)).bind (WriteRegister 5 (tableBase cfg w : Int)) = .ok
      { space := { w.space with pageTable := pt1 }, memoryBitMap := bm1,
        machine := { w.machine with
          mainMemory := mem1,
          registers := ((w.machine.registers.set cfg.StackReg ((tableBase cfg w : Int) - 4 * 4)).set
            4 w.space.argc).set 5 (tableBase cfg w : Int) } } := by
    exact writeArgRegisters cfg.StackReg _ _ _
      { space := { w.space with pageTable := pt1 }, memoryBitMap := bm1,
        machine := { w.machine with mainMemory := mem1 } } hsr h5
  have hT1 : tableBase cfg w + 4 * w.space.argv.length ≤
      w.space.numPages * cfg.PageSize - strBytes w.space.argv w.space.argv.length := by
    have h3 := hfit.2.2.1
    unfold tableBase
    omega
  obtain ⟨mem2, htab, hl2, hwords, hrest⟩ := tableLoop_spec cfg hP
    { space := { w.space with pageTable := pt1 }, memoryBitMap := bm1,
      machine := { w.machine with
        mainMemory := mem1,
        registers := ((w.machine.registers.set cfg.StackReg ((tableBase cfg w : Int) - 4 * 4)).set
          4 w.space.argc).set 5 (tableBase cfg w : Int) } }
    (w.space.numPages - pagesStaged cfg.PageSize w.space.argv w.space.argv.length)
    (tableBase cfg w)
    ((List.range w.space.argv.length).map fun j =>
      ((w.space.numPages * cfg.PageSize - strBytes w.space.argv (j + 1) : Nat) : Int))
    hst hfit.2.2.2 w.space.argv.length (by simp)
    (by
      show _ ≤ pt1.length * cfg.PageSize
      rw [hptl]
      omega)
  refine ⟨pt1, bm1, mem2, ?_, hptl, ?_, ?_⟩
  · refine LoadArguments_ok cfg w
      ({ space := { w.space with pageTable := pt1 }, memoryBitMap := bm1,
         machine := { w.machine with mainMemory := mem1 } },
       { sp := ((w.space.numPages * cfg.PageSize
           - strBytes w.space.argv w.space.argv.length : Nat) : Int),
         cantPag := (pagesStaged cfg.PageSize w.space.argv w.space.argv.length : Int),
         tmpSize := ((4 * w.space.argv.length
           + strBytes w.space.argv w.space.argv.length : Nat) : Int),
         args := (List.range w.space.argv.length).map fun j =>
           ((w.space.numPages * cfg.PageSize - strBytes w.space.argv (j + 1) : Nat) : Int) })
      { space := { w.space with pageTable := pt1 }, memoryBitMap := bm1,
        machine := { w.machine with
          mainMemory := mem1,
          registers := ((w.machine.registers.set cfg.StackReg
            ((tableBase cfg w : Int) - 4 * 4)).set 4 w.space.argc).set 5 (tableBase cfg w : Int) } }
      ({ space := { w.space with pageTable := pt1 }, memoryBitMap := bm1,
         machine := { w.machine with
           mainMemory := mem2,
           registers := ((w.machine.registers.set cfg.StackReg ((tableBase cfg w : Int) - 4 * 4)).set
             4 w.space.argc).set 5 (tableBase cfg w : Int) } },
       ((tableBase cfg w + 4 * w.space.argv.length : Nat) : Int))
      (by rw [e1, e2, e3]; exact hrun) ?_ ?_
    · dsimp only
      rw [e4]
      exact hregs
    · dsimp only
      rw [e4, e1]
      exact htab
  · intro j str k hj hs hk
    have hS1 := strBytes_succ w.space.argv j str hs
    have hm1 := strBytes_mono w.space.argv (j + 1) w.space.argv.length (by omega)
    have h3 := hfit.2.2.1
    have h4 := hfit.2.2.2
    have h1 := hrest (argAddr cfg w j + k)
      (by unfold argAddr; omega)
      (by
        show _ < pt1.length * cfg.PageSize
        rw [hptl]
        unfold argAddr
        omega)
      (Or.inr (by unfold argAddr; omega))
    exact h1.trans (hstr j str k hj hs hk)
  · intro j hj
    have h1 := hwords j ((w.space.numPages * cfg.PageSize - strBytes w.space.argv (j + 1) : Nat) : Int)
      hj (by
        rw [List.getElem?_map, List.getElem?_range hj]
        rfl)
    rw [toUInt32_of_nat (by omega)] at h1
    exact h1

/-! ## The layout of the arguments -/

set_option maxRecDepth 100000

/-- C15 (the claim at its own example): in lazy mode on the medium machine,
whose initial top of stack is 48, `LoadArguments` with `["prog", "hello"]`
leaves `"prog"` and its terminator in the five addresses ending at the top
(43 to 47), so the six addresses ending at the top hold a terminator followed
by `"prog\0"` and not `"hello\0"`; `"hello\0"` lies in the six addresses
below, 37 to 42. -/
theorem C15_last_argument_not_on_top :
    ∃ w1 : World,
      LoadArguments (mediumConfig true) (stagingWorld true progHello) = .ok w1 ∧
      (stagingWorld true progHello).space.numPages * (mediumConfig true).PageSize = 48 ∧
      (List.range 6).map (fun k => userRead (mediumConfig true) w1 ((42 : Int) + k))
        = [some 0, some 112, some 114, some 111, some 103, some 0] ∧
      (List.range 6).map (fun k => userRead (mediumConfig true) w1 ((42 : Int) + k))
        ≠ [some 104, some 101, some 108, some 108, some 111, some 0] ∧
      (List.range 6).map (fun k => userRead (mediumConfig true) w1 ((37 : Int) + k))
        = [some 104, some 101, some 108, some 108, some 111, some 0] := by
  refine ⟨(LoadArguments (mediumConfig true) (stagingWorld true progHello)).state,
    ?_, ?_, ?_, ?_, ?_⟩
  · decide
  · decide
  · decide
  · decide
  · decide

/-- C15 (as the code has it): for every argument list each of whose strings,
and whose pointer table, is written into pages that `LoadArguments` has staged
before that write (`ArgsFit`), with a free frame for every page staged, the
strings lie below the initial top of the stack first argument first: argument
`j` with its terminator occupies the `strlen + 1` addresses that end where the
strings before it begin, the first one ending at the top
`numPages * PageSize`; the pointer table, whose address register 5 receives,
lies below the last string. -/
theorem C15_first_argument_on_top (cfg : Config) (hP : 0 < cfg.PageSize) (w : World)
    (hnp : w.space.pageTable.length = w.space.numPages)
    (hNb : w.space.numPages * cfg.PageSize < 2147483648)
    (hargc : w.space.argc = (w.space.argv.length : Int))
    (hfit : ArgsFit cfg w)
    (hfree : pagesStaged cfg.PageSize w.space.argv w.space.argv.length ≤ NumClear w.memoryBitMap)
    (hmem : w.memoryBitMap.length * cfg.PageSize ≤ w.machine.mainMemory.length)
    (hsr : cfg.StackReg < w.machine.registers.length)
    (h5 : 5 < w.machine.registers.length) :
    ∃ w1 : World, LoadArguments cfg w = .ok w1 ∧
      (∀ j str, w.space.argv[j]? = some str →
        argAddr cfg w j + (str.length + 1)
          = w.space.numPages * cfg.PageSize - strBytes w.space.argv j ∧
        ∀ k, k ≤ str.length →
          userRead cfg w1 ((argAddr cfg w j + k : Nat) : Int) = some ((str ++ [0]).getD k 0)) ∧
      w1.machine.registers[5]? = some (tableBase cfg w : Int) ∧
      tableBase cfg w + 4 * w.space.argv.length
        ≤ w.space.numPages * cfg.PageSize - strBytes w.space.argv w.space.argv.length := by
  obtain ⟨pt1, bm1, mem1, hrun, _, hstr, _⟩ :=
    LoadArguments_spec cfg hP w hnp hNb hargc hfit hfree hmem hsr h5
  refine ⟨_, hrun, ?_, ?_, ?_⟩
  · intro j str hs
    have hj : j < w.space.argv.length := by
      by_contra hge
      rw [List.getElem?_eq_none (by omega)] at hs
      cases hs
    have hS := strBytes_succ w.space.argv j str hs
    have hm := strBytes_mono w.space.argv (j + 1) w.space.argv.length (by omega)
    have h3 := hfit.2.2.1
    refine ⟨by unfold argAddr; omega, ?_⟩
    intro k hk
    exact hstr j str k hj hs hk
  · show (List.set _ _ _)[5]? = _
    exact List.getElem?_set_self (by
      rw [List.length_set, List.length_set]
      exact h5)
  · have h3 := hfit.2.2.1
    unfold tableBase
    omega

/-- The arguments `["prog", "hello"]` in lazy mode on the medium machine:
`"prog\0"` lies in 43 to 47, just below the top 48, `"hello\0"` in 37 to 42,
and the table is at 28. -/
theorem C15_first_argument_on_top_witness :
    ArgsFit (mediumConfig true) (stagingWorld true progHello) ∧
    pagesStaged 16 progHello 2 ≤ NumClear (stagingWorld true progHello).memoryBitMap ∧
    ∃ w1 : World,
      LoadArguments (mediumConfig true) (stagingWorld true progHello) = .ok w1 ∧
      userRead (mediumConfig true) w1 43 = some 112 ∧
      userRead (mediumConfig true) w1 47 = some 0 ∧
      userRead (mediumConfig true) w1 37 = some 104 ∧
      userRead (mediumConfig true) w1 42 = some 0 ∧
      w1.machine.registers[5]? = some 28 :=
  ⟨by decide, by decide,
    by
      obtain ⟨w1, hrun, hstr, hreg, _⟩ :=
        C15_first_argument_on_top (mediumConfig true) (by decide) (stagingWorld true progHello)
          (by decide) (by decide) (by decide) (by decide) (by decide) (by decide) (by decide)
          (by decide)
      have a0 : argAddr (mediumConfig true) (stagingWorld true progHello) 0 = 43 := by decide
      have a1 : argAddr (mediumConfig true) (stagingWorld true progHello) 1 = 37 := by decide
      have t0 : tableBase (mediumConfig true) (stagingWorld true progHello) = 28 := by decide
      have p0 := (hstr 0 [112, 114, 111, 103] (by decide)).2 0 (by decide)
      have p4 := (hstr 0 [112, 114, 111, 103] (by decide)).2 4 (by decide)
      have q0 := (hstr 1 [104, 101, 108, 108, 111] (by decide)).2 0 (by decide)
      have q5 := (hstr 1 [104, 101, 108, 108, 111] (by decide)).2 5 (by decide)
      rw [a0] at p0 p4
      rw [a1] at q0 q5
      rw [t0] at hreg
      exact ⟨w1, hrun, p0, p4, q0, q5, hreg⟩⟩

/-- Registers and pointer table when every byte is written into a page staged
before the write (`ArgsFit`), with a free frame for every page staged:
afterwards register 4 holds `argc`, register 5 holds the address `tableBase`,
a multiple of four with the `argc` words from it on not above any string, the
stack register holds that address minus 16, and for every `j < argc` the word
at `tableBase + 4 * j` is an address from which the bytes of `argv[j]`
followed by a zero byte are stored. -/
theorem LoadArguments_vector_and_registers (cfg : Config) (hP : 0 < cfg.PageSize) (w : World)
    (hnp : w.space.pageTable.length = w.space.numPages)
    (hNb : w.space.numPages * cfg.PageSize < 2147483648)
    (hargc : w.space.argc = (w.space.argv.length : Int))
    (hfit : ArgsFit cfg w)
    (hfree : pagesStaged cfg.PageSize w.space.argv w.space.argv.length ≤ NumClear w.memoryBitMap)
    (hmem : w.memoryBitMap.length * cfg.PageSize ≤ w.machine.mainMemory.length)
    (hsr : cfg.StackReg < w.machine.registers.length)
    (h5 : 5 < w.machine.registers.length)
    (hs4 : cfg.StackReg ≠ 4) (hs5 : cfg.StackReg ≠ 5) :
    ∃ w1 : World, LoadArguments cfg w = .ok w1 ∧
      w1.machine.registers[4]? = some w.space.argc ∧
      w1.machine.registers[5]? = some (tableBase cfg w : Int) ∧
      tableBase cfg w % 4 = 0 ∧
      (∀ j, j < w.space.argv.length →
        tableBase cfg w + 4 * w.space.argv.length ≤ argAddr cfg w j) ∧
      w1.machine.registers[cfg.StackReg]? = some ((tableBase cfg w : Int) - 16) ∧
      (∀ j str, w.space.argv[j]? = some str →
        ∃ a : Nat, userReadWord cfg w1 ((tableBase cfg w + 4 * j : Nat) : Int) = some a ∧
          ∀ k, k ≤ str.length →
            userRead cfg w1 ((a + k : Nat) : Int) = some ((str ++ [0]).getD k 0)) := by
  obtain ⟨pt1, bm1, mem1, hrun, _, hstr, hwords⟩ :=
    LoadArguments_spec cfg hP w hnp hNb hargc hfit hfree hmem hsr h5
  have h3 := hfit.2.2.1
  refine ⟨_, hrun, ?_, ?_, ?_, ?_, ?_, ?_⟩
  · show (List.set _ _ _)[4]? = _
    rw [List.getElem?_set_ne (by decide)]
    exact List.getElem?_set_self (by
      rw [List.length_set]
      omega)
  · show (List.set _ _ _)[5]? = _
    exact List.getElem?_set_self (by
      rw [List.length_set, List.length_set]
      exact h5)
  · unfold tableBase
    omega
  · intro j hj
    have hm := strBytes_mono w.space.argv (j + 1) w.space.argv.length (by omega)
    unfold tableBase argAddr
    omega
  · show (List.set _ _ _)[cfg.StackReg]? = _
    rw [List.getElem?_set_ne (Ne.symm hs5), List.getElem?_set_ne (Ne.symm hs4)]
    have h16 : (tableBase cfg w : Int) - 16 = (tableBase cfg w : Int) - 4 * 4 := by omega
    rw [h16]
    exact List.getElem?_set_self hsr
  · intro j str hs
    have hj : j < w.space.argv.length := by
      by_contra hge
      rw [List.getElem?_eq_none (by omega)] at hs
      cases hs
    exact ⟨argAddr cfg w j, hwords j hj, fun k hk => hstr j str k hj hs hk⟩

/-- C16 (the code at the failing input): in direct mode on the medium machine
(three pages of sixteen bytes, top of stack 48) the arguments are a string of
twenty characters `a` and the string `"x"`: 23 bytes of strings and 8 of table,
31 in all, which the two pages that `LoadArguments` stages, 1 and 2, can hold.
The run ends normally with register 4 = 2, register 5 = 16, the stack register
0, and the words of the table holding 27 and 25. At 25 lies `"x"` with its
terminator, but the five bytes from 27 on, where `argv[0]` begins, read zero:
the first iteration staged page 2 only and wrote the string from 27 on, into
page 1 as the constructor had mapped it; the second iteration then staged page
1, giving it a fresh frame and zeroing it. The last fifteen characters and the
terminator, in page 2, are in place. -/
theorem C16_restaged_page_loses_argument :
    strBytes [List.replicate 20 97, [120]] 2 + 4 * 2 = 31 ∧
    (stagingWorld false [List.replicate 20 97, [120]]).space.pageTable.map
      (fun e => (e.physicalPage, e.valid)) = [(0, true), (1, true), (2, true)] ∧
    ∃ w1 : World,
      LoadArguments (mediumConfig false) (stagingWorld false [List.replicate 20 97, [120]])
        = .ok w1 ∧
      w1.space.pageTable.map (fun e => (e.physicalPage, e.valid))
        = [(0, true), (4, true), (3, true)] ∧
      w1.machine.registers[4]? = some 2 ∧
      w1.machine.registers[5]? = some 16 ∧
      w1.machine.registers[29]? = some 0 ∧
      userReadWord (mediumConfig false) w1 16 = some 27 ∧
      userReadWord (mediumConfig false) w1 20 = some 25 ∧
      userRead (mediumConfig false) w1 25 = some 120 ∧
      userRead (mediumConfig false) w1 26 = some 0 ∧
      (List.range 5).map (fun k => userRead (mediumConfig false) w1 ((27 : Int) + k))
        = [some 0, some 0, some 0, some 0, some 0] ∧
      (List.range 16).map (fun k => userRead (mediumConfig false) w1 ((32 : Int) + k))
        = List.replicate 15 (some 97) ++ [some 0] := by
  refine ⟨by decide, by decide, (LoadArguments (mediumConfig false)
    (stagingWorld false [List.replicate 20 97, [120]])).state,
    ?_, ?_, ?_, ?_, ?_, ?_, ?_, ?_, ?_, ?_, ?_⟩
  · decide
  · decide
  · decide
  · decide
  · decide
  · decide
  · decide
  · decide
  · decide
  · decide
  · decide

/-! ## Pages and frames of the arguments -/

/-- C17 (the code at the failing input): on the medium machine in lazy mode,
with three pages of sixteen bytes and all eight frames free, one argument of
twenty characters needs `4 + 21 = 25` bytes, two pages, but the test of line
294 runs once per argument and stages one page only, so the string, stored
from address 27 on, begins in page 1, which was never staged: the store
faults with a single valid page. With two arguments of twelve characters,
`8 + 26 = 34` bytes and three pages are needed and two are staged; the
strings fit in them and the pointer table, at address 12, does not. In direct
mode, where the constructor has mapped every page and the stores go through,
the run with the argument of twenty characters takes a single frame, for page
2, and the string begins in page 1, which keeps the frame of the constructor. -/
theorem C17_one_page_per_argument :
    (stagingWorld true [List.replicate 20 97]).space.numPages = 3 ∧
    NumClear (stagingWorld true [List.replicate 20 97]).memoryBitMap = 8 ∧
    divRoundUp (4 * 1 + (20 + 1)) (mediumConfig true).PageSize = 2 ∧
    (∃ w1 : World,
      LoadArguments (mediumConfig true) (stagingWorld true [List.replicate 20 97])
        = .fail .PageFault w1 ∧
      w1.space.pageTable.map TranslationEntry.valid = [false, false, true] ∧
      validPages w1.space.pageTable = 1 ∧
      userCell (mediumConfig true) w1 27 = none) ∧
    divRoundUp (4 * 2 + ((12 + 1) + (12 + 1))) (mediumConfig true).PageSize = 3 ∧
    (∃ w2 : World,
      LoadArguments (mediumConfig true)
          (stagingWorld true [List.replicate 12 97, List.replicate 12 98])
        = .fail .PageFault w2 ∧
      w2.space.pageTable.map TranslationEntry.valid = [false, true, true] ∧
      validPages w2.space.pageTable = 2 ∧
      userCell (mediumConfig true) w2 12 = none) ∧
    (stagingWorld false [List.replicate 20 97]).space.pageTable.map
      TranslationEntry.physicalPage = [0, 1, 2] ∧
    NumClear (stagingWorld false [List.replicate 20 97]).memoryBitMap = 5 ∧
    (∃ w3 : World,
      LoadArguments (mediumConfig false) (stagingWorld false [List.replicate 20 97]) = .ok w3 ∧
      w3.space.pageTable.map TranslationEntry.physicalPage = [0, 1, 3] ∧
      NumClear w3.memoryBitMap = 4 ∧
      w3.machine.registers[5]? = some 20 ∧
      userRead (mediumConfig false) w3 27 = some 97) := by
  refine ⟨by decide, by decide, by decide, ⟨(LoadArguments (mediumConfig true)
    (stagingWorld true [List.replicate 20 97])).state, ?_, ?_, ?_, ?_⟩, by decide,
    ⟨(LoadArguments (mediumConfig true)
      (stagingWorld true [List.replicate 12 97, List.replicate 12 98])).state, ?_, ?_, ?_, ?_⟩,
    by decide, by decide,
    ⟨(LoadArguments (mediumConfig false) (stagingWorld false [List.replicate 20 97])).state,
      ?_, ?_, ?_, ?_, ?_⟩⟩
  · decide
  · decide
  · decide
  · decide
  · decide
  · decide
  · decide
  · decide
  · decide
  · decide
  · decide
  · decide
  · decide

/-- C18 (the code at the failing input): in direct mode on the medium machine
the constructor, starting from an allocator with every frame free, maps the
three pages to frames 0, 1 and 2; `LoadArguments` with `["prog", "hello"]`
then gives pages 2 and 1 the new frames 3 and 4 without looking at the frames
they had, so afterwards the bits of frames 1 and 2 are set and no page-table
entry refers to either. -/
theorem C18_staging_overwrites_mapped_frames :
    freshWorld.memoryBitMap = List.replicate 8 false ∧
    (stagingWorld false progHello).space.pageTable.map TranslationEntry.physicalPage
      = [0, 1, 2] ∧
    (stagingWorld false progHello).memoryBitMap
      = [true, true, true, false, false, false, false, false] ∧
    ∃ w1 : World,
      LoadArguments (mediumConfig false) (stagingWorld false progHello) = .ok w1 ∧
      w1.space.pageTable.map TranslationEntry.physicalPage = [0, 4, 3] ∧
      w1.memoryBitMap = [true, true, true, true, true, false, false, false] ∧
      w1.memoryBitMap[1]? = some true ∧
      (∀ e ∈ w1.space.pageTable, e.physicalPage ≠ 1) ∧
      w1.memoryBitMap[2]? = some true ∧
      (∀ e ∈ w1.space.pageTable, e.physicalPage ≠ 2) := by
  refine ⟨by decide, by decide, by decide,
    (LoadArguments (mediumConfig false) (stagingWorld false progHello)).state,
    ?_, ?_, ?_, ?_, ?_, ?_, ?_⟩
  · decide
  · decide
  · decide
  · decide
  · decide
  · decide
  · decide

/-! ## The lazy-mode invariant of the page table -/

/-- C19 (the code at the failing input): `lazyWorld` is a lazy-mode address
space of four pages as the constructor leaves it; other address spaces then
hold six of the eight frames (`starvedWorld`). The faults at addresses 0 and 4
take the last two frames, and the fault at address 8 runs `LoadPage` to its
end with the -1 that `Find` returned stored in the entry of page 2 and the
entry marked valid: a reachable state in which an entry has
`physicalPage = -1` and `valid = true`. -/
theorem C19_valid_entry_without_frame :
    LazyReachable (smallConfig true id)
      (LoadPage (smallConfig true id) 8
        (LoadPage (smallConfig true id) 4
          (LoadPage (smallConfig true id) 0 starvedWorld).state).state).state ∧
    (LoadPage (smallConfig true id) 8
        (LoadPage (smallConfig true id) 4
          (LoadPage (smallConfig true id) 0 starvedWorld).state).state).state.space.pageTable.map
      (fun e => (e.physicalPage, e.valid)) = [(6, true), (7, true), (-1, true), (-1, false)] ∧
    ∃ e ∈ (LoadPage (smallConfig true id) 8
        (LoadPage (smallConfig true id) 4
          (LoadPage (smallConfig true id) 0 starvedWorld).state).state).state.space.pageTable,
      e.physicalPage = -1 ∧ e.valid = true := by
  refine ⟨?_, ?_, ?_⟩
  · refine .loadPage 8 (LoadPage (smallConfig true id) 4
      (LoadPage (smallConfig true id) 0 starvedWorld).state).state _ ?_ ?_
    · refine .loadPage 4 (LoadPage (smallConfig true id) 0 starvedWorld).state _ ?_ ?_
      · refine .loadPage 0 starvedWorld _ ?_ ?_
        · refine .elsewhere lazyWorld starvedWorld ?_ ?_
          · exact .constructed smallFile smallHeader junkEntry smallWorld lazyWorld
              (by decide) (by decide)
          · decide
        · decide
      · decide
    · decide
  · decide
  · exact ⟨⟨2, -1, true, false, false, false⟩, by decide, rfl, rfl⟩

/-! ## Descriptor ids -/

theorem toInt32_toUInt32_of_small (x : Int) (h0 : 0 ≤ x) (h1 : x < 2147483648) :
    toInt32 (toUInt32 x) = x := by
  unfold toInt32 toUInt32
  have h2 : (x % 4294967296).toNat % 4294967296 < 2147483648 := by omega
  rw [if_pos h2]
  omega

/-- The state after a history with `n` successful opens behind it and not more
than `2^31 - 4` in all: the counter is `3 + ` the number of successful opens,
every descriptor in the table lies from 3 up to below the counter, and so does
every value returned. -/
theorem runCalls_inv (O_RDWR : Int) (calls : List Call) (s : Descriptors) (n : Nat)
    (hid : s.fresh_id = 3 + (n : Int))
    (hkeys : ∀ id fs, s.openedFiles id = some fs → 3 ≤ id ∧ id < 3 + (n : Int))
    (hbound : n + successfulOpens calls ≤ 2147483644) :
    (runCalls O_RDWR calls s).2.fresh_id = 3 + ((n + successfulOpens calls : Nat) : Int) ∧
    (∀ id fs, (runCalls O_RDWR calls s).2.openedFiles id = some fs →
      3 ≤ id ∧ id < 3 + ((n + successfulOpens calls : Nat) : Int)) ∧
    (∀ r ∈ (runCalls O_RDWR calls s).1, r < 3 + ((n + successfulOpens calls : Nat) : Int)) := by
  induction calls generalizing s n with
  | nil =>
    refine ⟨hid, hkeys, ?_⟩
    intro r hr
    cases hr
  | cons c rest ih =>
    cases c with
    | opens opened t =>
      cases opened with
      | none =>
        have hso : successfulOpens (Call.opens none t :: rest) = successfulOpens rest := rfl
        rw [hso] at hbound ⊢
        obtain ⟨h1, h2, h3⟩ := ih s n hid hkeys hbound
        refine ⟨h1, h2, ?_⟩
        intro r hr
        rcases List.mem_cons.mp hr with h | h
        · have h4 : r = -1 := h
          omega
        · exact h3 r h
      | some f =>
        have hso : successfulOpens (Call.opens (some f) t :: rest) = successfulOpens rest + 1 :=
          rfl
        rw [hso] at hbound ⊢
        have hnext : (open_ O_RDWR (some f) t s).2.fresh_id = 3 + ((n + 1 : Nat) : Int) := by
          show toInt32 (toUInt32 (s.fresh_id + 1)) = _
          rw [toInt32_toUInt32_of_small _ (by omega) (by omega), hid]
          omega
        have hkeys1 : ∀ id fs, (open_ O_RDWR (some f) t s).2.openedFiles id = some fs →
            3 ≤ id ∧ id < 3 + ((n + 1 : Nat) : Int) := by
          intro id fs hfs
          have h5 : mapInsert s.openedFiles s.fresh_id
              { file := f, owner := t, mode := O_RDWR } id = some fs := hfs
          unfold mapInsert at h5
          by_cases hidk : id = s.fresh_id
          · omega
          · rw [if_neg hidk] at h5
            have h6 := hkeys id fs h5
            omega
        obtain ⟨h1, h2, h3⟩ := ih (open_ O_RDWR (some f) t s).2 (n + 1) hnext hkeys1 (by omega)
        have hcast : ((n + (successfulOpens rest + 1) : Nat) : Int) =
            ((n + 1 + successfulOpens rest : Nat) : Int) := by omega
        rw [hcast]
        refine ⟨h1, h2, ?_⟩
        intro r hr
        rcases List.mem_cons.mp hr with h | h
        · have h4 : r = s.fresh_id := h
          omega
        · exact h3 r h
    | closes file_id =>
      have hso : successfulOpens (Call.closes file_id :: rest) = successfulOpens rest := rfl
      rw [hso] at hbound ⊢
      cases hfile : s.openedFiles file_id with
      | none =>
        have hstep : stepCall O_RDWR (Call.closes file_id) s = (-1, s) := by
          show close file_id s = _
          unfold close
          rw [hfile]
        obtain ⟨h1, h2, h3⟩ := ih s n hid hkeys hbound
        have hrun : runCalls O_RDWR (Call.closes file_id :: rest) s =
            (-1 :: (runCalls O_RDWR rest s).1, (runCalls O_RDWR rest s).2) := by
          show (_ :: _, _) = _
          rw [hstep]
        rw [hrun]
        refine ⟨h1, h2, ?_⟩
        intro r hr
        rcases List.mem_cons.mp hr with h | h
        · omega
        · exact h3 r h
      | some fs0 =>
        have hstep : stepCall O_RDWR (Call.closes file_id) s =
            (0, { s with openedFiles := mapErase s.openedFiles file_id }) := by
          show close file_id s = _
          unfold close
          rw [hfile]
        have hkeys1 : ∀ id fs,
            ({ s with openedFiles := mapErase s.openedFiles file_id } : Descriptors).openedFiles id
              = some fs → 3 ≤ id ∧ id < 3 + (n : Int) := by
          intro id fs hfs
          have h5 : mapErase s.openedFiles file_id id = some fs := hfs
          unfold mapErase at h5
          by_cases hidk : id = file_id
          · rw [if_pos hidk] at h5
            cases h5
          · rw [if_neg hidk] at h5
            exact hkeys id fs h5
        obtain ⟨h1, h2, h3⟩ := ih { s with openedFiles := mapErase s.openedFiles file_id } n hid
          hkeys1 hbound
        have hrun : runCalls O_RDWR (Call.closes file_id :: rest) s =
            (0 :: (runCalls O_RDWR rest
                { s with openedFiles := mapErase s.openedFiles file_id }).1,
              (runCalls O_RDWR rest { s with openedFiles := mapErase s.openedFiles file_id }).2) := by
          show (_ :: _, _) = _
          rw [hstep]
        rw [hrun]
        refine ⟨h1, h2, ?_⟩
        intro r hr
        rcases List.mem_cons.mp hr with h | h
        · omega
        · exact h3 r h

/-- C21: after every history of `open` and `close` calls from the initial
state in which `open` succeeded at most `2^31 - 4` times (the `int` counter has
not passed its largest value): a successful `open` returns an id that is at
least 3 and strictly greater than every value returned before, the table then
holds the new record under that id and is unchanged elsewhere; a failed `open`
returns -1 and leaves table and counter as they were; `close` of an id in the
table returns 0, removes that id, and leaves every other id and the counter as
they were; `close` of an id not in the table returns -1 and changes nothing. -/
theorem C21_descriptor_ids_fresh (O_RDWR : Int) (pre : List Call)
    (hbound : successfulOpens pre ≤ 2147483644) :
    (∀ (f : OpenFile) (t : Nat),
      3 ≤ (open_ O_RDWR (some f) t (runCalls O_RDWR pre initialDescriptors).2).1 ∧
      (∀ r ∈ (runCalls O_RDWR pre initialDescriptors).1,
        r < (open_ O_RDWR (some f) t (runCalls O_RDWR pre initialDescriptors).2).1) ∧
      (open_ O_RDWR (some f) t (runCalls O_RDWR pre initialDescriptors).2).2.openedFiles
          (open_ O_RDWR (some f) t (runCalls O_RDWR pre initialDescriptors).2).1
        = some { file := f, owner := t, mode := O_RDWR } ∧
      (∀ j, j ≠ (open_ O_RDWR (some f) t (runCalls O_RDWR pre initialDescriptors).2).1 →
        (open_ O_RDWR (some f) t (runCalls O_RDWR pre initialDescriptors).2).2.openedFiles j
          = (runCalls O_RDWR pre initialDescriptors).2.openedFiles j)) ∧
    (∀ t : Nat,
      open_ O_RDWR none t (runCalls O_RDWR pre initialDescriptors).2
        = (-1, (runCalls O_RDWR pre initialDescriptors).2)) ∧
    (∀ (file_id : Int) (fs : FileStruct),
      (runCalls O_RDWR pre initialDescriptors).2.openedFiles file_id = some fs →
      (close file_id (runCalls O_RDWR pre initialDescriptors).2).1 = 0 ∧
      (close file_id (runCalls O_RDWR pre initialDescriptors).2).2.openedFiles file_id = none ∧
      (∀ j, j ≠ file_id →
        (close file_id (runCalls O_RDWR pre initialDescriptors).2).2.openedFiles j
          = (runCalls O_RDWR pre initialDescriptors).2.openedFiles j) ∧
      (close file_id (runCalls O_RDWR pre initialDescriptors).2).2.fresh_id
        = (runCalls O_RDWR pre initialDescriptors).2.fresh_id) ∧
    (∀ file_id : Int,
      (runCalls O_RDWR pre initialDescriptors).2.openedFiles file_id = none →
      close file_id (runCalls O_RDWR pre initialDescriptors).2
        = (-1, (runCalls O_RDWR pre initialDescriptors).2)) := by
  obtain ⟨hid, hkeys, hrets⟩ := runCalls_inv O_RDWR pre initialDescriptors 0 rfl
    (fun id fs h => by cases h) (by omega)
  rw [Nat.zero_add] at hid hkeys hrets
  refine ⟨?_, ?_, ?_, ?_⟩
  · intro f t
    have hret : (open_ O_RDWR (some f) t (runCalls O_RDWR pre initialDescriptors).2).1 =
        (runCalls O_RDWR pre initialDescriptors).2.fresh_id := rfl
    refine ⟨by rw [hret, hid]; omega, ?_, ?_, ?_⟩
    · intro r hr
      rw [hret, hid]
      exact hrets r hr
    · show mapInsert _ _ _ _ = _
      unfold mapInsert
      rw [if_pos hret]
      cases hold : (runCalls O_RDWR pre initialDescriptors).2.openedFiles
          (runCalls O_RDWR pre initialDescriptors).2.fresh_id with
      | none => rfl
      | some old =>
        have h1 := (hkeys _ old hold).2
        omega
    · intro j hj
      have hj2 : j ≠ (runCalls O_RDWR pre initialDescriptors).2.fresh_id := hj
      show mapInsert _ _ _ j = _
      unfold mapInsert
      rw [if_neg hj2]
  · intro t
    rfl
  · intro file_id fs hfs
    unfold close
    rw [hfs]
    refine ⟨rfl, ?_, ?_, rfl⟩
    · show mapErase _ _ _ = _
      unfold mapErase
      rw [if_pos rfl]
    · intro j hj
      show mapErase _ _ _ = _
      unfold mapErase
      rw [if_neg hj]
  · intro file_id hnone
    unfold close
    rw [hnone]

/-- After the history `sampleCalls`, whose calls returned 3, -1, 0, 4 and -1,
the next successful `open` returns 5, above all of them; descriptor 4 is open
and descriptor 3 is not. -/
theorem C21_descriptor_ids_fresh_witness :
    successfulOpens sampleCalls ≤ 2147483644 ∧
    (runCalls 2 sampleCalls initialDescriptors).1 = [3, -1, 0, 4, -1] ∧
    (open_ 2 (some { length := 7, position := 0 }) 6
      (runCalls 2 sampleCalls initialDescriptors).2).1 = 5 ∧
    (∀ r ∈ (runCalls 2 sampleCalls initialDescriptors).1,
      r < (open_ 2 (some { length := 7, position := 0 }) 6
        (runCalls 2 sampleCalls initialDescriptors).2).1) ∧
    (close 4 (runCalls 2 sampleCalls initialDescriptors).2).1 = 0 ∧
    (close 3 (runCalls 2 sampleCalls initialDescriptors).2).1 = -1 :=
  ⟨by decide, by decide, by decide,
    ((C21_descriptor_ids_fresh 2 sampleCalls (by decide)).1
      { length := 7, position := 0 } 6).2.1,
    by decide, by decide⟩

end NachOS
